import Mathlib

/-! A verification development for the Go package `parametric2d`.

A shallow embedding of the package (2D line and cubic
curve segments, their adaptive subdivision, wall extrusion and bevels).

Numbers: Go's `float64` is embedded as an arbitrary linearly ordered field
`K` (exact arithmetic; infinities and NaN are outside the embedding, and
rounding enters only through the functions below).  The functions of Go's `math` package that are not field
operations (`Sqrt`, `Acos`, `Cos`, `Tan`, the constant `Pi`) are collected
in a record `MathOps K` passed to every function that needs them, so the
definitions stay executable over `ℚ`; `realOps` is their exact instance over
`ℝ`, and `roundedOps` the instance over `ℝ` whose square root is rounded to
float64 as `math.Sqrt` rounds it, used where that rounding decides what the
code returns.

Loops: the unbounded `for` loop of `Curve.Subdivide` is a step function on
an explicit state, iterated with fuel; the theorems show that a fixed
amount of fuel always suffices.
-/

namespace Parametric2d

/-- The functions of Go's `math` package used by the package that are not
field operations. -/
structure MathOps (K : Type) where
  /-- Go `math.Sqrt` -/
  sqrt : K → K
  /-- Go `math.Acos` -/
  acos : K → K
  /-- Go `math.Cos` -/
  cos : K → K
  /-- Go `math.Tan` -/
  tan : K → K
  /-- Go `math.Pi` -/
  pi : K

/-- The instance of the `math` functions over the real numbers. -/
noncomputable def realOps : MathOps ℝ :=
  ⟨Real.sqrt, Real.arccos, Real.cos, Real.tan, Real.pi⟩

/-- Go `vec2.T`, a `[2]float64`: component `x` is index 0, `y` is index 1. -/
structure Vec2 (K : Type) where
  x : K
  y : K
  deriving DecidableEq

/-- Go `vec3.T`, a `[3]float64`. -/
structure Vec3 (K : Type) where
  x : K
  y : K
  z : K
  deriving DecidableEq

/-- Go `vec2.Rect`. -/
structure Rect (K : Type) where
  Min : Vec2 K
  Max : Vec2 K
  deriving DecidableEq

/-- Go `Triangle3D`, a slice of `vec3.T` that the package always builds with
exactly three vertices `t[0]`, `t[1]`, `t[2]`. -/
structure Triangle3D (K : Type) where
  v0 : Vec3 K
  v1 : Vec3 K
  v2 : Vec3 K
  deriving DecidableEq

section Embedding

variable {K : Type} [LinearOrderedField K]

/-! ## The vector-math collaborator (`go3d/float64/vec2`, `bezier2`) -/

namespace vec2

/-- Modelled from the spec: `vec2.Min` of the external vector library
(componentwise minimum). -/
def Min (a b : Vec2 K) : Vec2 K :=
  ⟨if b.x < a.x then b.x else a.x, if b.y < a.y then b.y else a.y⟩

/-- Modelled from the spec: `vec2.Max` of the external vector library
(componentwise maximum). -/
def Max (a b : Vec2 K) : Vec2 K :=
  ⟨if b.x > a.x then b.x else a.x, if b.y > a.y then b.y else a.y⟩

/-- Modelled from the spec: `vec2.Add` (vector addition). -/
def Add (a b : Vec2 K) : Vec2 K := ⟨a.x + b.x, a.y + b.y⟩

/-- Modelled from the spec: `vec2.Sub` (vector subtraction). -/
def Sub (a b : Vec2 K) : Vec2 K := ⟨a.x - b.x, a.y - b.y⟩

/-- Modelled from the spec: `Scale`/`Scaled` (multiplication by a scalar). -/
def Scale (v : Vec2 K) (f : K) : Vec2 K := ⟨v.x * f, v.y * f⟩

/-- Modelled from the spec: `vec2.Dot`. -/
def Dot (a b : Vec2 K) : K := a.x * b.x + a.y * b.y

/-- Modelled from the spec: `LengthSqr`. -/
def LengthSqr (v : Vec2 K) : K := v.x * v.x + v.y * v.y

/-- Modelled from the spec: `Length`. -/
def Length (ops : MathOps K) (v : Vec2 K) : K := ops.sqrt (LengthSqr v)

/-- Modelled from the spec: `Normalize` of the external vector library; a
vector of squared length 0 or 1 is returned as it is. -/
def Normalize (ops : MathOps K) (v : Vec2 K) : Vec2 K :=
  let sl := LengthSqr v
  if sl = 0 ∨ sl = 1 then v else Scale v (1 / ops.sqrt sl)

/-- Modelled from the spec: `Rotate90DegLeft` (rotation by 90 degrees to the
left). -/
def Rotate90DegLeft (v : Vec2 K) : Vec2 K := ⟨-v.y, v.x⟩

/-- Modelled from the spec: `vec2.Interpolate` (linear interpolation). -/
def Interpolate (a b : Vec2 K) (t : K) : Vec2 K :=
  let t1 := 1 - t
  ⟨a.x * t1 + b.x * t, a.y * t1 + b.y * t⟩

/-- Modelled from the spec: `vec2.Angle` of the external vector library
(angle between two vectors): the arc cosine of the normalised dot product,
which the library first brings back into the domain of `Acos`.  With an exact
square root the quotient of two non-zero vectors stays within `[-1, 1]`; with a
rounded square root it can exceed 1, and `v - 2` is then what `Acos` receives. -/
def Angle (ops : MathOps K) (a b : Vec2 K) : K :=
  let v := Dot a b / (Length ops a * Length ops b)
  let v := if v > 1 then v - 2 else if v < -1 then v + 2 else v
  ops.acos v

end vec2

namespace bezier2

/-- Go `bezier2.T`: the four control points of a cubic Bezier spline. -/
structure T (K : Type) where
  P0 : Vec2 K
  P1 : Vec2 K
  P2 : Vec2 K
  P3 : Vec2 K
  deriving DecidableEq

/-- Modelled from the spec: `bezier2.T.Point`, the cubic Bezier polynomial
`(1-t)^3 P0 + 3(1-t)^2 t P1 + 3(1-t) t^2 P2 + t^3 P3`. -/
def Point (bez : bezier2.T K) (t : K) : Vec2 K :=
  let t1 := 1 - t
  let result := vec2.Scale bez.P0 (t1 * t1 * t1)
  let result := vec2.Add result (vec2.Scale bez.P1 (3 * t1 * t1 * t))
  let result := vec2.Add result (vec2.Scale bez.P2 (3 * t1 * t * t))
  vec2.Add result (vec2.Scale bez.P3 (t * t * t))

/-- Modelled from the spec: `bezier2.T.Tangent`, the derivative
`3(1-t)^2 (P1-P0) + 6(1-t)t (P2-P1) + 3t^2 (P3-P2)`. -/
def Tangent (bez : bezier2.T K) (t : K) : Vec2 K :=
  let t1 := 1 - t
  let result := vec2.Scale (vec2.Sub bez.P1 bez.P0) (3 * t1 * t1)
  let result := vec2.Add result (vec2.Scale (vec2.Sub bez.P2 bez.P1) (6 * t1 * t))
  vec2.Add result (vec2.Scale (vec2.Sub bez.P3 bez.P2) (3 * t * t))

end bezier2

namespace poly2tri

/-- Modelled from the spec: `poly2tri.NewPoint`, a 2D contour point. -/
def NewPoint (x y : K) : Vec2 K := ⟨x, y⟩

end poly2tri

/-! ## `curve2d.go` -/

/-- Go `Curve`: a 2D Bezier curve. -/
structure Curve (K : Type) where
  spline : bezier2.T K
  bbox : Rect K
  deriving DecidableEq

/-- Go `NewCurve`. -/
def NewCurve (p0 p1 p2 p3 : Vec2 K) : Curve K :=
  let ll := vec2.Min p0 p3
  let ur := vec2.Max p0 p3
  let s : bezier2.T K := ⟨p0, p1, p2, p3⟩
  let s : bezier2.T K := if p0 = p1 then ⟨s.P0, p2, s.P2, s.P3⟩ else s
  let s : bezier2.T K := if p2 = p3 then ⟨s.P0, s.P1, p1, s.P3⟩ else s
  let box : Vec2 K × Vec2 K :=
    [(1 : K) / 4, 1 / 2, 3 / 4].foldl
      (fun acc t =>
        let v := bezier2.Point s t
        (vec2.Min acc.1 v, vec2.Max acc.2 v))
      (ll, ur)
  ⟨s, ⟨box.1, box.2⟩⟩

/-- Go `Curve.BBox`. -/
def Curve.BBox (s : Curve K) : Rect K := s.bbox

/-- Go `Curve.At`. -/
def Curve.At (s : Curve K) (t : K) : Vec2 K := bezier2.Point s.spline t

/-- Go `Curve.Tangent`. -/
def Curve.Tangent (s : Curve K) (t : K) : Vec2 K := bezier2.Tangent s.spline t

/-- Go `Curve.NTangent`. -/
def Curve.NTangent (ops : MathOps K) (s : Curve K) (t : K) : Vec2 K :=
  vec2.Normalize ops (s.Tangent t)

/-- Go `Curve.Normal`. -/
def Curve.Normal (s : Curve K) (t : K) : Vec2 K :=
  vec2.Rotate90DegLeft (s.Tangent t)

/-- Go `Curve.NNormal`. -/
def Curve.NNormal (ops : MathOps K) (s : Curve K) (t : K) : Vec2 K :=
  vec2.Normalize ops (s.Normal t)

/-- The Go idiom `xs = append(xs, zero); copy(xs[n+1:], xs[n:]); xs[n] = a`:
insert `a` at index `n`. -/
def insertAt {α : Type} (xs : List α) (n : Nat) (a : α) : List α :=
  xs.take n ++ a :: xs.drop n

/-- The variables of the loop of `Curve.Subdivide`. -/
structure SubdivideState (K : Type) where
  ts : List K
  tangents : List (Vec2 K)
  i : Nat

/-- One iteration of the loop of `Curve.Subdivide`; `none` when the loop
condition `i < len(ts)-1` fails. -/
def Curve.subdivideStep (ops : MathOps K) (s : Curve K) (maxRadians : K)
    (st : SubdivideState K) : Option (SubdivideState K) :=
  if st.i < st.ts.length - 1 then
    if st.ts.getD (st.i + 1) 0 - st.ts.getD st.i 0 < 1 / 100 then
      some ⟨st.ts, st.tangents, st.i + 1⟩
    else
      let angle := |vec2.Angle ops (st.tangents.getD st.i ⟨0, 0⟩)
        (st.tangents.getD (st.i + 1) ⟨0, 0⟩)|
      if angle > maxRadians then
        let m := 1 / 2 * (st.ts.getD st.i 0 + st.ts.getD (st.i + 1) 0)
        let tan := s.NTangent ops m
        some ⟨insertAt st.ts (st.i + 1) m, insertAt st.tangents (st.i + 1) tan, st.i⟩
      else
        some ⟨st.ts, st.tangents, st.i + 1⟩
  else
    none

/-- The loop of `Curve.Subdivide`, run for at most `fuel` iterations; `none`
when the fuel runs out before the loop condition fails. -/
def Curve.subdivideLoop (ops : MathOps K) (s : Curve K) (maxRadians : K) :
    Nat → SubdivideState K → Option (List K)
  | 0, _ => none
  | fuel + 1, st =>
    match Curve.subdivideStep ops s maxRadians st with
    | none => some st.ts
    | some st1 => Curve.subdivideLoop ops s maxRadians fuel st1

/-- Go `Curve.Subdivide`. -/
def Curve.Subdivide (ops : MathOps K) (s : Curve K) (maxDegrees : K) (fuel : Nat) :
    Option (List K) :=
  let ts : List K := [0, 1 / 2, 1]
  let tangents := [s.NTangent ops 0, s.NTangent ops (1 / 2), s.NTangent ops 1]
  let maxRadians := |maxDegrees * ops.pi / 180|
  Curve.subdivideLoop ops s maxRadians fuel ⟨ts, tangents, 0⟩

/-- Go `Curve.Wall`; `none` only when `Subdivide` runs out of fuel. -/
def Curve.Wall (ops : MathOps K) (s : Curve K) (height maxDegrees : K)
    (flipNormals : Bool) (fuel : Nat) :
    Option (List (Triangle3D K) × List (Vec2 K)) :=
  match s.Subdivide ops maxDegrees fuel with
  | none => none
  | some ts =>
    let num := ts.length
    if num ≤ 0 then
      some ([], [])
    else
      some ((List.range (num - 1)).foldl
        (fun (acc : List (Triangle3D K) × List (Vec2 K)) i =>
          let p0 := s.At (ts.getD i 0)
          let p1 := s.At (ts.getD (i + 1) 0)
          let t : Triangle3D K :=
            ⟨⟨p0.x, p0.y, 0⟩, ⟨p1.x, p1.y, height⟩, ⟨p0.x, p0.y, height⟩⟩
          let t : Triangle3D K := if flipNormals then ⟨t.v0, t.v2, t.v1⟩ else t
          let v := acc.1 ++ [t]
          let t : Triangle3D K :=
            ⟨⟨p0.x, p0.y, 0⟩, ⟨p1.x, p1.y, 0⟩, ⟨p1.x, p1.y, height⟩⟩
          let t : Triangle3D K := if flipNormals then ⟨t.v0, t.v2, t.v1⟩ else t
          let v := v ++ [t]
          (v, acc.2 ++ [poly2tri.NewPoint p1.x p1.y]))
        ([], []))

/-! ## `line2d.go` -/

/-- Go `Line`: a straight line segment. -/
structure Line (K : Type) where
  p0 : Vec2 K
  p1 : Vec2 K
  bbox : Rect K
  deriving DecidableEq

/-- Go `NewLine`. -/
def NewLine (p0 p1 : Vec2 K) : Line K :=
  let ll := vec2.Min p0 p1
  let ur := vec2.Max p0 p1
  ⟨p0, p1, ⟨ll, ur⟩⟩

/-- Go `Line.BBox`. -/
def Line.BBox (s : Line K) : Rect K := s.bbox

/-- Go `Line.At`. -/
def Line.At (s : Line K) (t : K) : Vec2 K := vec2.Interpolate s.p0 s.p1 t

/-- Go `Line.Tangent`. -/
def Line.Tangent (s : Line K) (_t : K) : Vec2 K := vec2.Sub s.p1 s.p0

/-- Go `Line.NTangent`. -/
def Line.NTangent (ops : MathOps K) (s : Line K) (t : K) : Vec2 K :=
  vec2.Normalize ops (s.Tangent t)

/-- Go `Line.Normal`. -/
def Line.Normal (s : Line K) (t : K) : Vec2 K :=
  vec2.Rotate90DegLeft (s.Tangent t)

/-- Go `Line.NNormal`. -/
def Line.NNormal (ops : MathOps K) (s : Line K) (t : K) : Vec2 K :=
  vec2.Normalize ops (s.Normal t)

/-- Go `Line.Wall`; `maxDegrees` is ignored. -/
def Line.Wall (s : Line K) (height _maxDegrees : K) (flipNormals : Bool) :
    List (Triangle3D K) × List (Vec2 K) :=
  let p0 := s.At 0
  let p1 := s.At 1
  let t0 : Triangle3D K :=
    ⟨⟨p0.x, p0.y, 0⟩, ⟨p1.x, p1.y, height⟩, ⟨p0.x, p0.y, height⟩⟩
  let t0 : Triangle3D K := if flipNormals then ⟨t0.v0, t0.v2, t0.v1⟩ else t0
  let t1 : Triangle3D K :=
    ⟨⟨p0.x, p0.y, 0⟩, ⟨p1.x, p1.y, 0⟩, ⟨p1.x, p1.y, height⟩⟩
  let t1 : Triangle3D K := if flipNormals then ⟨t1.v0, t1.v2, t1.v1⟩ else t1
  ([t0, t1], [poly2tri.NewPoint p1.x p1.y])

/-- What a call of `Bevel` leaves behind: the returned triangles and contour
points, and the vectors that the pointer arguments `prevNN` and `nextNN`
point to when the call returns. -/
structure BevelResult (K : Type) where
  tris : List (Triangle3D K)
  pts : List (Vec2 K)
  prevNN : Vec2 K
  nextNN : Vec2 K
  deriving DecidableEq

/-- Go `Line.Bevel`.  `prevNN` and `nextNN` are pointers in the source and are
updated in place (`Add`, `Normalize`, `Scale` and `Add` again; `p2` and `p3`
are those same pointers); they are taken to point to distinct vectors, as at
every call in the package.  The miter is applied whatever the normals are: the
source has no test for equal normals here, as `Curve.Bevel` has. -/
def Line.Bevel (ops : MathOps K) (s : Line K) (height offset deg _maxDegrees : K)
    (flipNormals : Bool) (prevNN nextNN : Vec2 K) : BevelResult K :=
  let h := offset * ops.tan (deg * ops.pi / 180)
  let p0 := s.At 0
  let p1 := s.At 1
  let n0 := s.NNormal ops 0
  let n1 := s.NNormal ops 1
  let n0 : Vec2 K := if flipNormals then ⟨-n0.x, -n0.y⟩ else n0
  let n1 : Vec2 K := if flipNormals then ⟨-n1.x, -n1.y⟩ else n1
  let angle0 := vec2.Angle ops prevNN n0
  let newLength0 := offset / ops.cos (1 / 2 * angle0)
  let angle1 := vec2.Angle ops n1 nextNN
  let newLength1 := offset / ops.cos (1 / 2 * angle1)
  let prevNN := vec2.Add prevNN n0
  let prevNN := vec2.Normalize ops prevNN
  let nextNN := vec2.Add nextNN n1
  let nextNN := vec2.Normalize ops nextNN
  let prevNN := vec2.Add (vec2.Scale prevNN newLength0) p0
  let p2 := prevNN
  let nextNN := vec2.Add (vec2.Scale nextNN newLength1) p1
  let p3 := nextNN
  let t0 : Triangle3D K :=
    ⟨⟨p0.x, p0.y, height⟩, ⟨p3.x, p3.y, height + h⟩, ⟨p2.x, p2.y, height + h⟩⟩
  let t0 : Triangle3D K := if flipNormals then ⟨t0.v0, t0.v2, t0.v1⟩ else t0
  let t1 : Triangle3D K :=
    ⟨⟨p0.x, p0.y, height⟩, ⟨p1.x, p1.y, height⟩, ⟨p3.x, p3.y, height + h⟩⟩
  let t1 : Triangle3D K := if flipNormals then ⟨t1.v0, t1.v2, t1.v1⟩ else t1
  ⟨[t0, t1], [poly2tri.NewPoint p3.x p3.y], prevNN, nextNN⟩

/-! ## `parametric2d.go` -/

/-- The interface `T` with its two implementations, as a sum type. -/
inductive T (K : Type) where
  | line : Line K → T K
  | curve : Curve K → T K

/-- Go `T.Wall`, dispatched on the implementation. -/
def T.Wall (ops : MathOps K) (seg : T K) (height maxDegrees : K) (flipNormals : Bool)
    (fuel : Nat) : Option (List (Triangle3D K) × List (Vec2 K)) :=
  match seg with
  | .line l => some (l.Wall height maxDegrees flipNormals)
  | .curve c => c.Wall ops height maxDegrees flipNormals fuel

/-- Go `T.At`, dispatched on the implementation. -/
def T.At (seg : T K) (t : K) : Vec2 K :=
  match seg with
  | .line l => l.At t
  | .curve c => c.At t

/-- Go `T.BBox`, dispatched on the implementation. -/
def T.BBox (seg : T K) : Rect K :=
  match seg with
  | .line l => l.BBox
  | .curve c => c.BBox

/-- Go `T.Tangent`, dispatched on the implementation. -/
def T.Tangent (seg : T K) (t : K) : Vec2 K :=
  match seg with
  | .line l => l.Tangent t
  | .curve c => c.Tangent t

/-- Go `T.NTangent`, dispatched on the implementation. -/
def T.NTangent (ops : MathOps K) (seg : T K) (t : K) : Vec2 K :=
  match seg with
  | .line l => l.NTangent ops t
  | .curve c => c.NTangent ops t

/-- Go `T.Normal`, dispatched on the implementation. -/
def T.Normal (seg : T K) (t : K) : Vec2 K :=
  match seg with
  | .line l => l.Normal t
  | .curve c => c.Normal t

/-- Go `T.NNormal`, dispatched on the implementation. -/
def T.NNormal (ops : MathOps K) (seg : T K) (t : K) : Vec2 K :=
  match seg with
  | .line l => l.NNormal ops t
  | .curve c => c.NNormal ops t

/-- Go `T.IsLine`. -/
def T.IsLine (seg : T K) : Bool :=
  match seg with
  | .line _ => true
  | .curve _ => false

/-! ## `curve2d.go`: bevels -/

/-- Go `segmentsIntersect`. -/
def segmentsIntersect (a b c d : Vec2 K) : Bool :=
  let div := (a.x - b.x) * (c.y - d.y) - (a.y - b.y) * (c.x - d.x)
  if div = 0 then false
  else
    let x := ((a.x * b.y - a.y * b.x) * (c.x - d.x) - (a.x - b.x) * (c.x * d.y - c.y * d.x)) / div
    let y := ((a.x * b.y - a.y * b.x) * (c.y - d.y) - (a.y - b.y) * (c.x * d.y - c.y * d.x)) / div
    if (if a.x ≥ b.x then ¬ (b.x ≤ x ∧ x ≤ a.x) else ¬ (a.x ≤ x ∧ x ≤ b.x)) then false
    else if (if a.y ≥ b.y then ¬ (b.y ≤ y ∧ y ≤ a.y) else ¬ (a.y ≤ y ∧ y ≤ b.y)) then false
    else if (if c.x ≥ d.x then ¬ (d.x ≤ x ∧ x ≤ c.x) else ¬ (c.x ≤ x ∧ x ≤ d.x)) then false
    else if (if c.y ≥ d.y then ¬ (d.y ≤ y ∧ y ≤ c.y) else ¬ (c.y ≤ y ∧ y ≤ d.y)) then false
    else true

/-- How a call that may panic ends: normally with a value, with Go's
`panic(msg)`, or, in this embedding only, with the fuel of `Subdivide` used up. -/
inductive Outcome (α : Type) where
  | ok : α → Outcome α
  | panic : String → Outcome α
  | outOfFuel : Outcome α

/-- The first part of the body of the loop of `Curve.Bevel`, for slice `i` of the
parameters `ts`: the points `p0`, `p1` of the slice and their offset points
`p2`, `p3`, with the miter correction at the first and at the last slice.  It is
written over the interface `T`, whose methods `At` and `NNormal` are all it
calls. -/
def T.bevelLegs (ops : MathOps K) (seg : T K) (offset : K) (flipNormals : Bool)
    (prevNN nextNN : Vec2 K) (ts : List K) (i : Nat) :
    Vec2 K × Vec2 K × Vec2 K × Vec2 K :=
  let num := ts.length
  let p0 := seg.At (ts.getD i 0)
  let p1 := seg.At (ts.getD (i + 1) 0)
  let n0 := seg.NNormal ops (ts.getD i 0)
  let n1 := seg.NNormal ops (ts.getD (i + 1) 0)
  let n0f := offset
  let n1f := offset
  let n0 : Vec2 K := if flipNormals then ⟨-n0.x, -n0.y⟩ else n0
  let n1 : Vec2 K := if flipNormals then ⟨-n1.x, -n1.y⟩ else n1
  let angle0 := vec2.Angle ops prevNN n0
  let start : K × Vec2 K :=
    if i = 0 then
      if prevNN ≠ n0 then
        (offset / ops.cos (1 / 2 * angle0), vec2.Normalize ops (vec2.Add n0 prevNN))
      else (n0f, n0)
    else (n0f, n0)
  let angle1 := vec2.Angle ops n1 nextNN
  let stop : K × Vec2 K :=
    if i + 1 = num - 1 then
      if n1 ≠ nextNN then
        (offset / ops.cos (1 / 2 * angle1), vec2.Normalize ops (vec2.Add n1 nextNN))
      else (n1f, n1)
    else (n1f, n1)
  let p2 := vec2.Add (vec2.Scale start.2 start.1) p0
  let p3 := vec2.Add (vec2.Scale stop.2 stop.1) p1
  (p0, p1, p2, p3)

/-- The second part of the body of the loop of `Curve.Bevel`: the
self-intersection test on the legs `p0-p2` and `p1-p3` of slice `i` and the
triangles and contour point appended to `v` and `bevelPts`. -/
def T.bevelSlice (ops : MathOps K) (seg : T K) (height offset deg : K)
    (flipNormals : Bool) (prevNN nextNN : Vec2 K) (ts : List K)
    (acc : List (Triangle3D K) × List (Vec2 K)) (i : Nat) :
    Outcome (List (Triangle3D K) × List (Vec2 K)) :=
  let num := ts.length
  let h := offset * ops.tan (deg * ops.pi / 180)
  let legs := T.bevelLegs ops seg offset flipNormals prevNN nextNN ts i
  let p0 := legs.1
  let p1 := legs.2.1
  let p2 := legs.2.2.1
  let p3 := legs.2.2.2
  if segmentsIntersect p0 p2 p1 p3 then
    if i = 0 then
      let t : Triangle3D K :=
        ⟨⟨p0.x, p0.y, height⟩, ⟨p1.x, p1.y, height⟩, ⟨p2.x, p2.y, height + h⟩⟩
      let t : Triangle3D K := if flipNormals then ⟨t.v0, t.v2, t.v1⟩ else t
      .ok (acc.1 ++ [t], acc.2)
    else if i + 1 = num - 1 then
      let t : Triangle3D K :=
        ⟨⟨p0.x, p0.y, height⟩, ⟨p1.x, p1.y, height⟩, ⟨p3.x, p3.y, height + h⟩⟩
      let t : Triangle3D K := if flipNormals then ⟨t.v0, t.v2, t.v1⟩ else t
      .ok (acc.1 ++ [t], acc.2 ++ [poly2tri.NewPoint p3.x p3.y])
    else
      .panic "curve2d.go: unhandled problem"
  else
    let t : Triangle3D K :=
      ⟨⟨p0.x, p0.y, height⟩, ⟨p3.x, p3.y, height + h⟩, ⟨p2.x, p2.y, height + h⟩⟩
    let t : Triangle3D K := if flipNormals then ⟨t.v0, t.v2, t.v1⟩ else t
    let v := acc.1 ++ [t]
    let t : Triangle3D K :=
      ⟨⟨p0.x, p0.y, height⟩, ⟨p1.x, p1.y, height⟩, ⟨p3.x, p3.y, height + h⟩⟩
    let t : Triangle3D K := if flipNormals then ⟨t.v0, t.v2, t.v1⟩ else t
    .ok (v ++ [t], acc.2 ++ [poly2tri.NewPoint p3.x p3.y])

/-- The loop `for i := 0; i < num-1; i++` of `Curve.Bevel` over the slice
indices still to do; a panic ends it. -/
def T.bevelLoop (ops : MathOps K) (seg : T K) (height offset deg : K)
    (flipNormals : Bool) (prevNN nextNN : Vec2 K) (ts : List K) :
    List Nat → List (Triangle3D K) × List (Vec2 K) →
      Outcome (List (Triangle3D K) × List (Vec2 K))
  | [], acc => .ok acc
  | i :: rest, acc =>
    match T.bevelSlice ops seg height offset deg flipNormals prevNN nextNN ts acc i with
    | .ok acc1 => T.bevelLoop ops seg height offset deg flipNormals prevNN nextNN ts rest acc1
    | .panic msg => .panic msg
    | .outOfFuel => .outOfFuel

/-- Go `Curve.Bevel`.  The source only reads the vectors behind `prevNN` and
`nextNN`, so they are returned as they were passed. -/
def Curve.Bevel (ops : MathOps K) (s : Curve K) (height offset deg maxDegrees : K)
    (flipNormals : Bool) (prevNN nextNN : Vec2 K) (fuel : Nat) : Outcome (BevelResult K) :=
  match s.Subdivide ops maxDegrees fuel with
  | none => .outOfFuel
  | some ts =>
    let num := ts.length
    if num ≤ 0 then
      .ok ⟨[], [], prevNN, nextNN⟩
    else
      match T.bevelLoop ops (.curve s) height offset deg flipNormals prevNN nextNN ts
          (List.range (num - 1)) ([], []) with
      | .ok r => .ok ⟨r.1, r.2, prevNN, nextNN⟩
      | .panic msg => .panic msg
      | .outOfFuel => .outOfFuel

/-- Go `T.Bevel`, dispatched on the implementation. -/
def T.Bevel (ops : MathOps K) (seg : T K) (height offset deg maxDegrees : K)
    (flipNormals : Bool) (prevNN nextNN : Vec2 K) (fuel : Nat) : Outcome (BevelResult K) :=
  match seg with
  | .line l => .ok (l.Bevel ops height offset deg maxDegrees flipNormals prevNN nextNN)
  | .curve c => c.Bevel ops height offset deg maxDegrees flipNormals prevNN nextNN fuel

/-! ## The rectangle type of the vector-math collaborator -/

/-- Modelled from the spec: `vec2.NewRect`, the rectangle spanned by two
points. -/
def vec2.NewRect (a b : Vec2 K) : Rect K := ⟨vec2.Min a b, vec2.Max a b⟩

/-- Modelled from the spec: `vec2.Joined`, the union of two rectangles. -/
def vec2.Joined (a b : Rect K) : Rect K := ⟨vec2.Min a.Min b.Min, vec2.Max a.Max b.Max⟩

/-- Modelled from the spec: `Rect.Contains`, containment of another rectangle
(borders included). -/
def Rect.Contains (rect other : Rect K) : Bool :=
  decide (rect.Min.x ≤ other.Min.x ∧ rect.Min.y ≤ other.Min.y ∧
    rect.Max.x ≥ other.Max.x ∧ rect.Max.y ≥ other.Max.y)

/-- Modelled from the spec: `Rect.Area`. -/
def Rect.Area (rect : Rect K) : K :=
  (rect.Max.x - rect.Min.x) * (rect.Max.y - rect.Min.y)

/-! ## `subpath.go` -/

/-- Go `SubPath`. -/
structure SubPath (K : Type) where
  Segments : List (T K)
  FlipNormals : Bool
  IsOuter : Bool
  BevelPts : List (Vec2 K)
  BevelZ : K
  FloorPts : List (Vec2 K)
  FloorZ : K

/-- Go `SubPath.BBox`. -/
def SubPath.BBox (s : SubPath K) : Rect K :=
  match s.Segments with
  | [] => ⟨⟨0, 0⟩, ⟨0, 0⟩⟩
  | seg0 :: rest => rest.foldl (fun bbox sp => vec2.Joined bbox sp.BBox) seg0.BBox

/-- The loop of `SubPath.Wall` over the segments still to do; `acc` holds `r`
and `s.FloorPts`.  The result is `none` only when a curve runs out of fuel. -/
def SubPath.wallLoop (ops : MathOps K) (height maxDegrees : K) (flipNormals : Bool)
    (fuel : Nat) :
    List (T K) → List (Triangle3D K) × List (Vec2 K) →
      Option (List (Triangle3D K) × List (Vec2 K))
  | [], acc => some acc
  | seg :: rest, acc =>
    match seg.Wall ops height maxDegrees flipNormals fuel with
    | none => none
    | some w =>
      SubPath.wallLoop ops height maxDegrees flipNormals fuel rest
        (acc.1 ++ w.1, acc.2 ++ w.2)

/-- Go `SubPath.Wall`: the triangles returned and the subpath after the call. -/
def SubPath.Wall (ops : MathOps K) (s : SubPath K) (height maxDegrees : K) (fuel : Nat) :
    Option (List (Triangle3D K) × SubPath K) :=
  let s : SubPath K := { s with FloorZ := 0 }
  match SubPath.wallLoop ops height maxDegrees s.FlipNormals fuel s.Segments
      ([], s.FloorPts) with
  | none => none
  | some acc => some (acc.1, { s with FloorPts := acc.2 })

/-- The loop of `SubPath.Bevel` over the pairs `(i, seg)` still to do; `acc`
holds `r` and `s.BevelPts`.  The neighbours `s.Segments[j]` and
`s.Segments[k]` always exist (`j, k < len(s.Segments)`). -/
def SubPath.bevelLoop (ops : MathOps K) (s : SubPath K) (height offset deg maxDegrees : K)
    (fuel : Nat) :
    List (Nat × T K) → List (Triangle3D K) × List (Vec2 K) →
      Outcome (List (Triangle3D K) × List (Vec2 K))
  | [], acc => .ok acc
  | (i, seg) :: rest, acc =>
    let j := (i + s.Segments.length - 1) % s.Segments.length
    let k := (i + 1) % s.Segments.length
    let prevNN := (s.Segments.getD j seg).NNormal ops 1
    let nextNN := (s.Segments.getD k seg).NNormal ops 0
    let prevNN : Vec2 K := if s.FlipNormals then ⟨-prevNN.x, -prevNN.y⟩ else prevNN
    let nextNN : Vec2 K := if s.FlipNormals then ⟨-nextNN.x, -nextNN.y⟩ else nextNN
    match seg.Bevel ops height offset deg maxDegrees s.FlipNormals prevNN nextNN fuel with
    | .ok b =>
      SubPath.bevelLoop ops s height offset deg maxDegrees fuel rest
        (acc.1 ++ b.tris, acc.2 ++ b.pts)
    | .panic msg => .panic msg
    | .outOfFuel => .outOfFuel

/-- Go `SubPath.Bevel`: the triangles returned and the subpath after the call. -/
def SubPath.Bevel (ops : MathOps K) (s : SubPath K) (height offset deg maxDegrees : K)
    (fuel : Nat) : Outcome (List (Triangle3D K) × SubPath K) :=
  let s : SubPath K := { s with BevelZ := height + offset * ops.tan (deg * ops.pi / 180) }
  match SubPath.bevelLoop ops s height offset deg maxDegrees fuel
      ((List.range s.Segments.length).zip s.Segments) ([], s.BevelPts) with
  | .ok acc => .ok (acc.1, { s with BevelPts := acc.2 })
  | .panic msg => .panic msg
  | .outOfFuel => .outOfFuel

/-- The `flippedBBox` built by the loop of `SubPath.AutoFlipNormals`. -/
def SubPath.flippedBBox (ops : MathOps K) (s : SubPath K) : Rect K :=
  s.Segments.foldl
    (fun flippedBBox sp =>
      let p0 := sp.At 0
      let p1 := sp.At 1
      let n0 := sp.NNormal ops 0
      let n1 := sp.NNormal ops 1
      let newP0 := vec2.Add p0 n0
      let newP1 := vec2.Add p1 n1
      let b := vec2.NewRect newP0 newP1
      vec2.Joined flippedBBox b)
    s.BBox

/-- Go `SubPath.AutoFlipNormals`: the subpath after the call. -/
def SubPath.AutoFlipNormals (ops : MathOps K) (s : SubPath K) : SubPath K :=
  let bbox := s.BBox
  let flippedBBox := SubPath.flippedBBox ops s
  if bbox.Contains flippedBBox then s
  else { s with FlipNormals := true }

/-! ## `path.go` -/

namespace poly2tri

/-- Modelled from the spec: `poly2tri.Triangle`, a triangle of the external
triangulator with its three 2D points `Point[0]`, `Point[1]`, `Point[2]`. -/
structure Triangle (K : Type) where
  q0 : Vec2 K
  q1 : Vec2 K
  q2 : Vec2 K

/-- Modelled from the spec: `poly2tri.SweepContext`, one triangulation session:
the outer contour it was opened with (`poly2tri.New`) and the holes registered
since (`AddHole`). -/
structure SweepContext (K : Type) where
  contour : List (Vec2 K)
  holes : List (List (Vec2 K))

/-- Modelled from the spec: `poly2tri.New`. -/
def New (points : List (Vec2 K)) : SweepContext K := ⟨points, []⟩

/-- Modelled from the spec: `SweepContext.AddHole`. -/
def SweepContext.AddHole (sc : SweepContext K) (points : List (Vec2 K)) : SweepContext K :=
  ⟨sc.contour, sc.holes ++ [points]⟩

end poly2tri

/-- Go `Path`.  The source holds pointers to the subpaths; they are taken to be
distinct. -/
structure Path (K : Type) where
  SubPaths : List (SubPath K)

/-- Go `Path.BBox`. -/
def Path.BBox (p : Path K) : Rect K :=
  match p.SubPaths with
  | [] => ⟨⟨0, 0⟩, ⟨0, 0⟩⟩
  | sp0 :: rest => rest.foldl (fun bbox sp => vec2.Joined bbox sp.BBox) sp0.BBox

/-- Go `Triangulate`. -/
def Triangulate (m : List (poly2tri.Triangle K)) (r : List (Triangle3D K)) (z : K) :
    List (Triangle3D K) :=
  m.foldl
    (fun r t =>
      let p0 : Vec3 K := ⟨t.q0.x, t.q0.y, z⟩
      let p1 : Vec3 K := ⟨t.q1.x, t.q1.y, z⟩
      let p2 : Vec3 K := ⟨t.q2.x, t.q2.y, z⟩
      r ++ [⟨p0, p1, p2⟩])
    r

/-- The variables of the loops of `Path.Wall` and `Path.Bevel`: the result `r`,
the open session `sc`, the subpaths as their calls left them, and a log of the
sessions on which `Triangulate()` of the triangulator was invoked so far. -/
structure PathState (K : Type) where
  r : List (Triangle3D K)
  sc : poly2tri.SweepContext K
  subPaths : List (SubPath K)
  calls : List (poly2tri.SweepContext K)

/-- The loop of `Path.Wall` over the subpaths of index 1 and up (the branch
`else` of `if i == 0`); `first` is `p.SubPaths[0]` after its `Wall`. -/
def Path.wallLoop (ops : MathOps K)
    (tri : poly2tri.SweepContext K → List (poly2tri.Triangle K))
    (bbox : Rect K) (first : SubPath K) (height maxDegrees : K) (fuel : Nat) :
    List (SubPath K) → PathState K → Option (PathState K)
  | [], st => some st
  | sp :: rest, st =>
    match sp.Wall ops height maxDegrees fuel with
    | none => none
    | some w =>
      let r := st.r ++ w.1
      let subBBox := sp.BBox
      if bbox.Contains subBBox then
        Path.wallLoop ops tri bbox first height maxDegrees fuel rest
          ⟨r, st.sc.AddHole w.2.FloorPts, st.subPaths ++ [w.2], st.calls⟩
      else
        let r := Triangulate (tri st.sc) r first.FloorZ
        Path.wallLoop ops tri bbox first height maxDegrees fuel rest
          ⟨r, poly2tri.New w.2.FloorPts, st.subPaths ++ [w.2], st.calls ++ [st.sc]⟩

/-- Go `Path.Wall`, with the triangulator `tri` a function of a session: the
final state (`r` is the value returned); `none` only when a curve runs out of
fuel. -/
def Path.Wall (ops : MathOps K)
    (tri : poly2tri.SweepContext K → List (poly2tri.Triangle K))
    (p : Path K) (height maxDegrees : K) (fuel : Nat) : Option (PathState K) :=
  match p.SubPaths with
  | [] => some ⟨[], poly2tri.New [], [], []⟩
  | sp0 :: rest =>
    let bbox := sp0.BBox
    match sp0.Wall ops height maxDegrees fuel with
    | none => none
    | some w =>
      match Path.wallLoop ops tri bbox w.2 height maxDegrees fuel rest
          ⟨w.1, poly2tri.New w.2.FloorPts, [w.2], []⟩ with
      | none => none
      | some st =>
        some ⟨Triangulate (tri st.sc) st.r w.2.FloorZ, st.sc, st.subPaths, st.calls ++ [st.sc]⟩

/-- The loop of `Path.Bevel` over the subpaths of index 1 and up; `first` is
`p.SubPaths[0]` after its `Bevel`.  The first component of the result is the
log of the triangulator's invocations made when the loop ends or panics. -/
def Path.bevelLoop (ops : MathOps K)
    (tri : poly2tri.SweepContext K → List (poly2tri.Triangle K))
    (bbox : Rect K) (first : SubPath K) (height offset deg maxDegrees : K) (fuel : Nat) :
    List (SubPath K) → PathState K →
      List (poly2tri.SweepContext K) × Outcome (PathState K)
  | [], st => (st.calls, .ok st)
  | sp :: rest, st =>
    match sp.Bevel ops height offset deg maxDegrees fuel with
    | .panic msg => (st.calls, .panic msg)
    | .outOfFuel => (st.calls, .outOfFuel)
    | .ok w =>
      let r := st.r ++ w.1
      let subBBox := sp.BBox
      if bbox.Contains subBBox then
        Path.bevelLoop ops tri bbox first height offset deg maxDegrees fuel rest
          ⟨r, st.sc.AddHole w.2.BevelPts, st.subPaths ++ [w.2], st.calls⟩
      else
        let r := Triangulate (tri st.sc) r first.BevelZ
        Path.bevelLoop ops tri bbox first height offset deg maxDegrees fuel rest
          ⟨r, poly2tri.New w.2.BevelPts, st.subPaths ++ [w.2], st.calls ++ [st.sc]⟩

/-- Go `Path.Bevel`, with the triangulator `tri` a function of a session: the
log of the triangulator's invocations, and the final state (`r` is the value
returned) or the panic that ended the call. -/
def Path.Bevel (ops : MathOps K)
    (tri : poly2tri.SweepContext K → List (poly2tri.Triangle K))
    (p : Path K) (height offset deg maxDegrees : K) (fuel : Nat) :
    List (poly2tri.SweepContext K) × Outcome (PathState K) :=
  match p.SubPaths with
  | [] => ([], .ok ⟨[], poly2tri.New [], [], []⟩)
  | sp0 :: rest =>
    let bbox := sp0.BBox
    match sp0.Bevel ops height offset deg maxDegrees fuel with
    | .panic msg => ([], .panic msg)
    | .outOfFuel => ([], .outOfFuel)
    | .ok w =>
      match Path.bevelLoop ops tri bbox w.2 height offset deg maxDegrees fuel rest
          ⟨w.1, poly2tri.New w.2.BevelPts, [w.2], []⟩ with
      | (calls, .panic msg) => (calls, .panic msg)
      | (calls, .outOfFuel) => (calls, .outOfFuel)
      | (_, .ok st) =>
        (st.calls ++ [st.sc],
          .ok ⟨Triangulate (tri st.sc) st.r w.2.BevelZ, st.sc, st.subPaths,
            st.calls ++ [st.sc]⟩)

/-- Go `byBBoxArea.Less`, on two subpaths: the second has the smaller box. -/
def byBBoxArea.Less (a b : SubPath K) : Prop := b.BBox.Area < a.BBox.Area

/-- Go `Path.AutoFlipNormals`: the path after the call.  `sortFn` stands for
`sort.Sort(byBBoxArea(p.SubPaths))` of Go's standard library, which orders the
subpaths by `byBBoxArea.Less` and leaves the order of ties open. -/
def Path.AutoFlipNormals (ops : MathOps K) (sortFn : List (SubPath K) → List (SubPath K))
    (p : Path K) : Path K :=
  if p.SubPaths.length = 0 then p
  else
    match sortFn p.SubPaths with
    | [] => ⟨[]⟩
    | sp0 :: rest =>
      let sp0 : SubPath K := { sp0 with IsOuter := true }
      let sp0 := sp0.AutoFlipNormals ops
      if sp0.FlipNormals then
        ⟨sp0 :: rest.map (fun sp => { sp with FlipNormals := true })⟩
      else
        ⟨sp0 :: rest⟩

end Embedding

/-! ## Notions used to state the results -/

section SubdivideNotions

variable {K : Type} [LinearOrderedField K]

/-- The width of the interval `[a, b]` is `(1/2)^k` for some `k ≤ 7`. -/
def DyadicGap (a b : K) : Prop := ∃ k : ℕ, k ≤ 7 ∧ b - a = (1 / 2 : K) ^ k

/-- The exit condition of the loop for the interval `[a, b]`: it is narrower
than `0.01`, or the angle between the normalised tangents at its ends does not
exceed `maxRadians`. -/
def Settled (ops : MathOps K) (s : Curve K) (maxRadians : K) (a b : K) : Prop :=
  b - a < 1 / 100 ∨
    |vec2.Angle ops (s.NTangent ops a) (s.NTangent ops b)| ≤ maxRadians

/-- An upper bound on the number of iterations the loop still spends on the
intervals of a list of parameters: `256 * width - 1` for each of them. -/
def stepsLeft : List K → K
  | a :: b :: rest => (256 * (b - a) - 1) + stepsLeft (b :: rest)
  | _ => 0

/-- The state of the loop of `Curve.Subdivide` at index `front.length` of the
parameters `front ++ a :: rest`, the stored tangents being those of the
parameters. -/
def subdivideAt (ops : MathOps K) (s : Curve K) (front : List K) (a : K) (rest : List K) :
    SubdivideState K :=
  ⟨front ++ a :: rest, (front ++ a :: rest).map (s.NTangent ops), front.length⟩

end SubdivideNotions

section WallNotions

variable {K : Type} [LinearOrderedField K]

/-- The triangle with the second and third vertex exchanged. -/
def Triangle3D.swapped (t : Triangle3D K) : Triangle3D K := ⟨t.v0, t.v2, t.v1⟩

/-- The first triangle of a wall slice from `p0` to `p1`:
`[(p0,0), (p1,height), (p0,height)]`. -/
def wallUpper (height : K) (p0 p1 : Vec2 K) : Triangle3D K :=
  ⟨⟨p0.x, p0.y, 0⟩, ⟨p1.x, p1.y, height⟩, ⟨p0.x, p0.y, height⟩⟩

/-- The second triangle of a wall slice from `p0` to `p1`:
`[(p0,0), (p1,0), (p1,height)]`. -/
def wallLower (height : K) (p0 p1 : Vec2 K) : Triangle3D K :=
  ⟨⟨p0.x, p0.y, 0⟩, ⟨p1.x, p1.y, 0⟩, ⟨p1.x, p1.y, height⟩⟩

/-- The parameter list of a segment: `[0, 1]` for a line, the result of
`Subdivide(maxDegrees)` for a curve. -/
def paramList (ops : MathOps K) (seg : T K) (maxDegrees : K) (fuel : ℕ) :
    Option (List K) :=
  match seg with
  | .line _ => some [0, 1]
  | .curve c => c.Subdivide ops maxDegrees fuel

end WallNotions

section CurveNotions

variable {K : Type} [LinearOrderedField K]

/-- The point `p` lies in the rectangle `r` (componentwise, borders included). -/
def InBox (r : Rect K) (p : Vec2 K) : Prop :=
  r.Min.x ≤ p.x ∧ r.Min.y ≤ p.y ∧ p.x ≤ r.Max.x ∧ p.y ≤ r.Max.y

/-- The minimum of five numbers. -/
def min5 (a b c d e : K) : K := min (min (min (min a b) c) d) e

/-- The maximum of five numbers. -/
def max5 (a b c d e : K) : K := max (max (max (max a b) c) d) e

end CurveNotions

section PathNotions

variable {K : Type} [LinearOrderedField K]

/-- The subpath with its two flags cleared: what `AutoFlipNormals` never
changes. -/
def SubPath.clearFlags (s : SubPath K) : SubPath K :=
  { s with FlipNormals := false, IsOuter := false }

end PathNotions

section PathExamples

/-- An insertion sort of subpaths by non-increasing bounding-box area, one of the
orders `sort.Sort(byBBoxArea(...))` may produce. -/
noncomputable def areaSort (l : List (SubPath ℝ)) : List (SubPath ℝ) :=
  List.insertionSort (fun a b => b.BBox.Area ≤ a.BBox.Area) l

/-- A path of two subpaths of one line each, (0,0)-(1,1) and (0,0)-(3,3). -/
noncomputable def examplePath : Path ℝ :=
  ⟨[⟨[T.line (NewLine ⟨0, 0⟩ ⟨1, 1⟩)], false, false, [], 0, [], 0⟩,
    ⟨[T.line (NewLine ⟨0, 0⟩ ⟨3, 3⟩)], false, false, [], 0, [], 0⟩]⟩

end PathExamples

section RectangleNotions

variable {K : Type} [LinearOrderedField K]

/-- The four lines of the closed axis-aligned rectangle that starts at the corner
`(ax, ay)`, has `(cx, cy)` as the opposite corner, and leaves the start along
the x axis (`horizFirst`) or along the y axis. -/
def rectRing (horizFirst : Bool) (ax ay cx cy : K) : List (T K) :=
  if horizFirst then
    [T.line (NewLine ⟨ax, ay⟩ ⟨cx, ay⟩), T.line (NewLine ⟨cx, ay⟩ ⟨cx, cy⟩),
      T.line (NewLine ⟨cx, cy⟩ ⟨ax, cy⟩), T.line (NewLine ⟨ax, cy⟩ ⟨ax, ay⟩)]
  else
    [T.line (NewLine ⟨ax, ay⟩ ⟨ax, cy⟩), T.line (NewLine ⟨ax, cy⟩ ⟨cx, cy⟩),
      T.line (NewLine ⟨cx, cy⟩ ⟨cx, ay⟩), T.line (NewLine ⟨cx, ay⟩ ⟨ax, ay⟩)]

/-- The centre of a rectangle. -/
def Rect.centre (r : Rect K) : Vec2 K :=
  ⟨(r.Min.x + r.Max.x) / 2, (r.Min.y + r.Max.y) / 2⟩

/-- Every segment's normal at its midpoint points towards the centre of the
subpath's box: into the interior, for a rectangle. -/
def normalsInward (ops : MathOps K) (s : SubPath K) : Prop :=
  ∀ seg ∈ s.Segments,
    0 < vec2.Dot (seg.NNormal ops (1 / 2)) (vec2.Sub s.BBox.centre (seg.At (1 / 2)))

/-- Every segment's normal at its midpoint points away from the centre of the
subpath's box: out of the interior, for a rectangle. -/
def normalsOutward (ops : MathOps K) (s : SubPath K) : Prop :=
  ∀ seg ∈ s.Segments,
    vec2.Dot (seg.NNormal ops (1 / 2)) (vec2.Sub s.BBox.centre (seg.At (1 / 2))) < 0

end RectangleNotions

section RectangleExamples

variable {K : Type} [LinearOrderedField K]

/-- The counter-clockwise square (0,0), (2,0), (2,2), (0,2) as a subpath of four
lines with both flags cleared. -/
def ccwSquare : SubPath K :=
  ⟨rectRing true 0 0 2 2, false, false, [], 0, [], 0⟩

/-- The clockwise square (0,0), (0,2), (2,2), (2,0) as a subpath of four lines
with both flags cleared. -/
def cwSquare : SubPath K :=
  ⟨rectRing false 0 0 2 2, false, false, [], 0, [], 0⟩

end RectangleExamples

section BevelNotions

variable {K : Type} [LinearOrderedField K]

/-- Slice `i` of the parameters `ts` is an interior slice (neither the first nor
the last) whose leg from `p0` to its offset point `p2` intersects the leg from
`p1` to its offset point `p3` according to `segmentsIntersect`. -/
def T.interiorHit (ops : MathOps K) (seg : T K) (offset : K) (flipNormals : Bool)
    (prevNN nextNN : Vec2 K) (ts : List K) (i : Nat) : Prop :=
  0 < i ∧ i + 1 < ts.length - 1 ∧
    segmentsIntersect (T.bevelLegs ops seg offset flipNormals prevNN nextNN ts i).1
      (T.bevelLegs ops seg offset flipNormals prevNN nextNN ts i).2.2.1
      (T.bevelLegs ops seg offset flipNormals prevNN nextNN ts i).2.1
      (T.bevelLegs ops seg offset flipNormals prevNN nextNN ts i).2.2.2 = true

/-- The curve with control points (0,0), (-1,4), (-1,4), (32,0): a tight left
turn followed by a long straight run. -/
def pinchCurve : Curve K := NewCurve ⟨0, 0⟩ ⟨-1, 4⟩ ⟨-1, 4⟩ ⟨32, 0⟩

end BevelNotions

section SessionNotions

variable {K : Type} [LinearOrderedField K]

/-- The triangulation sessions in the order in which they are triangulated, as
the specification describes them: `cur` is the session open at the moment; a
later subpath whose box is contained in `bbox` adds its contour as a hole to the
open session; any other later subpath has the open session triangulated and
opens a new one with its contour; the session open at the end is triangulated
last.  The later subpaths are given by their boxes and contours. -/
def sessions (bbox : Rect K) :
    poly2tri.SweepContext K → List (Rect K × List (Vec2 K)) → List (poly2tri.SweepContext K)
  | cur, [] => [cur]
  | cur, (box, pts) :: rest =>
    if bbox.Contains box then sessions bbox (cur.AddHole pts) rest
    else cur :: sessions bbox (poly2tri.New pts) rest

/-- The number of subpaths of `rest` whose bounding box is not contained in
`bbox`. -/
def outsideCount (bbox : Rect K) (rest : List (SubPath K)) : Nat :=
  rest.countP (fun sp => !bbox.Contains sp.BBox)

/-- The subpath made of the one curve (0,0), (-1,4), (-1,4), (32,0), with
flipped normals. -/
def pinchSubPath : SubPath K := ⟨[T.curve pinchCurve], true, false, [], 0, [], 0⟩

/-- The subpath made of the one line from `a` to `b`, with both flags
cleared. -/
def lineSubPath (a b : Vec2 K) : SubPath K :=
  ⟨[T.line (NewLine a b)], false, false, [], 0, [], 0⟩

end SessionNotions

section IntersectNotions

variable {K : Type} [LinearOrderedField K]

/-- The point `(x, y)` that `segmentsIntersect` computes once `div` is not
zero. -/
def intersectionPoint (a b c d : Vec2 K) : Vec2 K :=
  let div := (a.x - b.x) * (c.y - d.y) - (a.y - b.y) * (c.x - d.x)
  let x := ((a.x * b.y - a.y * b.x) * (c.x - d.x) - (a.x - b.x) * (c.x * d.y - c.y * d.x)) / div
  let y := ((a.x * b.y - a.y * b.x) * (c.y - d.y) - (a.y - b.y) * (c.x * d.y - c.y * d.x)) / div
  ⟨x, y⟩

/-- The bounding extents of the segments `ab` and `cd` are disjoint: the two
boxes are separated along the x axis or along the y axis. -/
def extentsDisjoint (a b c d : Vec2 K) : Prop :=
  max a.x b.x < min c.x d.x ∨ max c.x d.x < min a.x b.x ∨
    max a.y b.y < min c.y d.y ∨ max c.y d.y < min a.y b.y

end IntersectNotions

section SliceNotions

variable {K : Type} [LinearOrderedField K]

/-- The triangles and the contour points of one slice of `Curve.Bevel` as the
specification describes them for `flipNormals = false` and rise `r`: two
triangles and the point `p3` when the legs do not intersect (`hit` is false);
one triangle and no point when they intersect at the first slice; one triangle
and the point `p3` when they intersect at the last slice.  For an intersection
at any other slice nothing is described. -/
def bevelSliceSpec (height r : K) (p0 p1 p2 p3 : Vec2 K) (hit first last : Bool) :
    List (Triangle3D K) × List (Vec2 K) :=
  if !hit then
    ([⟨⟨p0.x, p0.y, height⟩, ⟨p3.x, p3.y, height + r⟩, ⟨p2.x, p2.y, height + r⟩⟩,
      ⟨⟨p0.x, p0.y, height⟩, ⟨p1.x, p1.y, height⟩, ⟨p3.x, p3.y, height + r⟩⟩], [p3])
  else if first then
    ([⟨⟨p0.x, p0.y, height⟩, ⟨p1.x, p1.y, height⟩, ⟨p2.x, p2.y, height + r⟩⟩], [])
  else if last then
    ([⟨⟨p0.x, p0.y, height⟩, ⟨p1.x, p1.y, height⟩, ⟨p3.x, p3.y, height + r⟩⟩], [p3])
  else ([], [])

/-- The legs `p0-p2` and `p1-p3` of slice `i` intersect according to
`segmentsIntersect`. -/
def T.legsHit (ops : MathOps K) (seg : T K) (offset : K) (flipNormals : Bool)
    (prevNN nextNN : Vec2 K) (ts : List K) (i : Nat) : Bool :=
  segmentsIntersect (T.bevelLegs ops seg offset flipNormals prevNN nextNN ts i).1
    (T.bevelLegs ops seg offset flipNormals prevNN nextNN ts i).2.2.1
    (T.bevelLegs ops seg offset flipNormals prevNN nextNN ts i).2.1
    (T.bevelLegs ops seg offset flipNormals prevNN nextNN ts i).2.2.2

/-- The description `bevelSliceSpec` applied to slice `i` of the parameters `ts`
of a segment bevelled with `flipNormals = false`: the rise is
`offset * tan(deg * pi / 180)`, the first slice is `i = 0` and the last one is
`i + 1 = len(ts) - 1`. -/
def T.sliceSpec (ops : MathOps K) (seg : T K) (height offset deg : K)
    (prevNN nextNN : Vec2 K) (ts : List K) (i : Nat) :
    List (Triangle3D K) × List (Vec2 K) :=
  bevelSliceSpec height (offset * ops.tan (deg * ops.pi / 180))
    (T.bevelLegs ops seg offset false prevNN nextNN ts i).1
    (T.bevelLegs ops seg offset false prevNN nextNN ts i).2.1
    (T.bevelLegs ops seg offset false prevNN nextNN ts i).2.2.1
    (T.bevelLegs ops seg offset false prevNN nextNN ts i).2.2.2
    (T.legsHit ops seg offset false prevNN nextNN ts i)
    (decide (i = 0)) (decide (i + 1 = ts.length - 1))

end SliceNotions

section MiterNotions

variable {K : Type} [LinearOrderedField K]

/-- The negation `n[0], n[1] = -n[0], -n[1]` that `Bevel` applies to a normal
when `flipNormals` is set. -/
def flipNormal (flipNormals : Bool) (n : Vec2 K) : Vec2 K :=
  if flipNormals then ⟨-n.x, -n.y⟩ else n

end MiterNotions

section JointNotions

variable {K : Type} [LinearOrderedField K]

/-- The neighbour normals `prevNN` and `nextNN` that the loop of `SubPath.Bevel`
computes for its segment `seg` of index `i` and passes to `seg.Bevel`. -/
def SubPath.neighbourNormals (ops : MathOps K) (s : SubPath K) (i : Nat) (seg : T K) :
    Vec2 K × Vec2 K :=
  let j := (i + s.Segments.length - 1) % s.Segments.length
  let k := (i + 1) % s.Segments.length
  let prevNN := (s.Segments.getD j seg).NNormal ops 1
  let nextNN := (s.Segments.getD k seg).NNormal ops 0
  let prevNN : Vec2 K := if s.FlipNormals then ⟨-prevNN.x, -prevNN.y⟩ else prevNN
  let nextNN : Vec2 K := if s.FlipNormals then ⟨-nextNN.x, -nextNN.y⟩ else nextNN
  (prevNN, nextNN)

/-- The start offset point of a segment: the point `p2` that `Line.Bevel`
computes, or that `Curve.Bevel` computes for its first slice; `none` only when
`Subdivide` runs out of fuel. -/
def T.startOffset (ops : MathOps K) (seg : T K) (height offset deg maxDegrees : K)
    (flipNormals : Bool) (prevNN nextNN : Vec2 K) (fuel : Nat) : Option (Vec2 K) :=
  match seg with
  | .line l =>
    some (l.Bevel ops height offset deg maxDegrees flipNormals prevNN nextNN).prevNN
  | .curve c =>
    match c.Subdivide ops maxDegrees fuel with
    | none => none
    | some ts => some (T.bevelLegs ops (.curve c) offset flipNormals prevNN nextNN ts 0).2.2.1

/-- The end offset point of a segment: the point `p3` that `Line.Bevel`
computes, or that `Curve.Bevel` computes for its last slice, of index
`len(ts) - 2`; `none` only when `Subdivide` runs out of fuel. -/
def T.endOffset (ops : MathOps K) (seg : T K) (height offset deg maxDegrees : K)
    (flipNormals : Bool) (prevNN nextNN : Vec2 K) (fuel : Nat) : Option (Vec2 K) :=
  match seg with
  | .line l =>
    some (l.Bevel ops height offset deg maxDegrees flipNormals prevNN nextNN).nextNN
  | .curve c =>
    match c.Subdivide ops maxDegrees fuel with
    | none => none
    | some ts =>
      some (T.bevelLegs ops (.curve c) offset flipNormals prevNN nextNN ts
        (ts.length - 2)).2.2.2

/-- The offset point of a joint at the point `p` between a segment whose normal
there is `a` and a following segment whose normal there is `b`: `p` moved by
`offset * a` when the miter is skipped (`skip`), by the miter vector
otherwise. -/
def jointOffset (ops : MathOps K) (offset : K) (p a b : Vec2 K) (skip : Bool) : Vec2 K :=
  if skip then vec2.Add (vec2.Scale a offset) p
  else vec2.Add (vec2.Scale (vec2.Normalize ops (vec2.Add a b))
    (offset / ops.cos (1 / 2 * vec2.Angle ops a b))) p

end JointNotions


section RoundingNotions

/-- The float64 nearest to a positive real `x` of ordinary size: `x` is scaled by
a power of two into `[2^52, 2^53)`, rounded to the nearest integer and scaled
back, which leaves a significand of 53 bits.  Overflow, subnormal numbers and
the rule for ties are left aside. -/
noncomputable def float64Round (x : ℝ) : ℝ :=
  (round (x * (2 : ℝ) ^ (52 - Int.log 2 x)) : ℝ) / (2 : ℝ) ^ (52 - Int.log 2 x)

/-- The functions of `math` with the square root correctly rounded to float64,
as `math.Sqrt` is, and the other functions exact. -/
noncomputable def roundedOps : MathOps ℝ :=
  ⟨fun x => float64Round (Real.sqrt x), Real.arccos, Real.cos, Real.tan, Real.pi⟩

/-- The unit normal of a line of direction (3,3) as `NNormal` computes it with a
correctly rounded square root: `(-3, 3)` scaled by `1 / sqrt 18`, the square
root rounded to `4776788754394329 / 2^50`. -/
noncomputable def roundedDiagonal : Vec2 ℝ :=
  ⟨-(1125899906842624 / 1592262918131443), 1125899906842624 / 1592262918131443⟩

/-- The subpath made of the curve (0,0), (0,2), (1,3), (2,4) followed by the
line (2,4)-(5,7), which leaves the end of the curve in the direction of the
curve's end tangent. -/
def smoothJoint {K : Type} [LinearOrderedField K] : SubPath K :=
  ⟨[T.curve (NewCurve ⟨0, 0⟩ ⟨0, 2⟩ ⟨1, 3⟩ ⟨2, 4⟩), T.line (NewLine ⟨2, 4⟩ ⟨5, 7⟩)],
    false, false, [], 0, [], 0⟩

end RoundingNotions

/-! ## The loop of `Curve.Subdivide` -/

/-! ## Lemmas on the loop of `Curve.Subdivide` -/

section SubdivideLemmas

variable {K : Type} [LinearOrderedField K]

theorem getD_split_fst {α : Type} (front : List α) (a : α) (rest : List α) (d : α) :
    (front ++ a :: rest).getD front.length d = a := by
  induction front with
  | nil => simp
  | cons x xs ih => simpa using ih

theorem getD_split_snd {α : Type} (front : List α) (a b : α) (rest : List α) (d : α) :
    (front ++ a :: b :: rest).getD (front.length + 1) d = b := by
  have h : front ++ a :: b :: rest = (front ++ [a]) ++ b :: rest := by simp
  have hl : front.length + 1 = (front ++ [a]).length := by simp
  rw [h, hl, getD_split_fst]

theorem insertAt_split {α : Type} (front : List α) (a b m : α) (rest : List α) :
    insertAt (front ++ a :: b :: rest) (front.length + 1) m
      = front ++ a :: m :: b :: rest := by
  have h : front ++ a :: b :: rest = (front ++ [a]) ++ b :: rest := by simp
  have hl : front.length + 1 = (front ++ [a]).length := by simp
  rw [insertAt, h, hl, List.take_left, List.drop_left]
  simp

theorem subdivideStep_last (ops : MathOps K) (s : Curve K) (maxRadians : K)
    (front : List K) (a : K) (tg : List (Vec2 K)) :
    Curve.subdivideStep ops s maxRadians ⟨front ++ [a], tg, front.length⟩ = none := by
  simp [Curve.subdivideStep]

theorem subdivideStep_split (ops : MathOps K) (s : Curve K) (maxRadians : K)
    (front : List K) (a b : K) (rest : List K)
    (tfront : List (Vec2 K)) (ta tb : Vec2 K) (trest : List (Vec2 K))
    (hlen : tfront.length = front.length) :
    Curve.subdivideStep ops s maxRadians
        ⟨front ++ a :: b :: rest, tfront ++ ta :: tb :: trest, front.length⟩
      = if b - a < 1 / 100 then
          some ⟨front ++ a :: b :: rest, tfront ++ ta :: tb :: trest, front.length + 1⟩
        else if |vec2.Angle ops ta tb| > maxRadians then
          some ⟨front ++ a :: (1 / 2 * (a + b)) :: b :: rest,
            tfront ++ ta :: s.NTangent ops (1 / 2 * (a + b)) :: tb :: trest, front.length⟩
        else
          some ⟨front ++ a :: b :: rest, tfront ++ ta :: tb :: trest, front.length + 1⟩ := by
  have hi : front.length < (front ++ a :: b :: rest).length - 1 := by simp
  have h1 := getD_split_fst tfront ta (tb :: trest) (⟨0, 0⟩ : Vec2 K)
  have h2 := getD_split_snd tfront ta tb trest (⟨0, 0⟩ : Vec2 K)
  have h3 := insertAt_split tfront ta tb (s.NTangent ops (1 / 2 * (a + b))) trest
  rw [hlen] at h1 h2 h3
  simp only [Curve.subdivideStep, hi, if_true, getD_split_fst, getD_split_snd,
    insertAt_split, h1, h2, h3]

end SubdivideLemmas

section SubdivideInvariant

variable {K : Type} [LinearOrderedField K]

theorem dyadicGap_ge {a b : K} (h : DyadicGap a b) : 1 / 128 ≤ b - a := by
  obtain ⟨k, hk, e⟩ := h
  have hp : (1 / 2 : K) ^ 7 ≤ (1 / 2 : K) ^ k :=
    pow_le_pow_of_le_one (by norm_num) (by norm_num) hk
  rw [e]
  calc (1 / 128 : K) = (1 / 2 : K) ^ 7 := by norm_num
    _ ≤ (1 / 2 : K) ^ k := hp

theorem dyadicGap_halves {a b : K} (h : DyadicGap a b) (hw : ¬ b - a < 1 / 100) :
    DyadicGap a (1 / 2 * (a + b)) ∧ DyadicGap (1 / 2 * (a + b)) b := by
  obtain ⟨k, hk, e⟩ := h
  have hk6 : k ≤ 6 := by
    by_contra hc
    have h7 : k = 7 := by omega
    subst h7
    apply hw
    rw [e]
    norm_num
  refine ⟨⟨k + 1, by omega, ?_⟩, ⟨k + 1, by omega, ?_⟩⟩
  · rw [pow_succ, ← e]; ring
  · rw [pow_succ, ← e]; ring

theorem stepsLeft_nonneg : ∀ l : List K, List.Chain' DyadicGap l → 0 ≤ stepsLeft l
  | [], _ => le_refl _
  | [_], _ => le_refl _
  | a :: b :: rest, h => by
    rw [List.chain'_cons] at h
    have h1 := dyadicGap_ge h.1
    have h2 := stepsLeft_nonneg (b :: rest) h.2
    simp only [stepsLeft]
    linarith

/-- The loop invariant of `Curve.Subdivide`, and its exit: started at index
`front.length` of the parameters `front ++ a :: rest`, with the stored tangents
those of the parameters, the intervals dyadic and the ones before the index
settled, the loop ends within `stepsLeft (a :: rest) + 1` iterations; it
returns `front ++ a :: out` with every interval dyadic and settled, the same
last parameter, and every parameter of `rest` kept. -/
theorem subdivideLoop_spec (ops : MathOps K) (s : Curve K) (maxRadians : K) :
    ∀ (n : ℕ) (front : List K) (a : K) (rest : List K),
      List.Chain' DyadicGap (front ++ a :: rest) →
      List.Chain' (Settled ops s maxRadians) (front ++ [a]) →
      stepsLeft (a :: rest) + 1 ≤ (n : K) →
      ∃ out, Curve.subdivideLoop ops s maxRadians n
            ⟨front ++ a :: rest, (front ++ a :: rest).map (s.NTangent ops), front.length⟩
          = some (front ++ a :: out) ∧
        List.Chain' DyadicGap (front ++ a :: out) ∧
        List.Chain' (Settled ops s maxRadians) (front ++ a :: out) ∧
        (a :: out).getLast? = (a :: rest).getLast? ∧ (∀ x ∈ rest, x ∈ out) := by
  intro n
  induction n with
  | zero =>
    intro front a rest hg _ hn
    have h0 := stepsLeft_nonneg (a :: rest) (List.chain'_split.1 hg).2
    simp only [Nat.cast_zero] at hn
    linarith
  | succ n ih =>
    intro front a rest hg hs hn
    cases rest with
    | nil =>
      refine ⟨[], ?_, hg, hs, rfl, fun x hx => hx⟩
      simp only [Curve.subdivideLoop, subdivideStep_last]
    | cons b rest =>
      have hg2 := List.chain'_split.1 hg
      have hab : DyadicGap a b := (List.chain'_cons.1 hg2.2).1
      have hbr : List.Chain' DyadicGap (b :: rest) := (List.chain'_cons.1 hg2.2).2
      have hge := dyadicGap_ge hab
      have hlen : (front.map (s.NTangent ops)).length = front.length := by simp
      have hstep := subdivideStep_split ops s maxRadians front a b rest
        (front.map (s.NTangent ops)) (s.NTangent ops a) (s.NTangent ops b)
        (rest.map (s.NTangent ops)) hlen
      have hmap : (front ++ a :: b :: rest).map (s.NTangent ops)
          = front.map (s.NTangent ops) ++ s.NTangent ops a :: s.NTangent ops b
            :: rest.map (s.NTangent ops) := by simp
      have hn1 : stepsLeft (b :: rest) + 1 ≤ (n : K) := by
        simp only [stepsLeft, Nat.cast_succ] at hn
        linarith
      -- moving on to the next interval
      have advance : Settled ops s maxRadians a b →
          ∃ out, Curve.subdivideLoop ops s maxRadians n
              ⟨front ++ a :: b :: rest, (front ++ a :: b :: rest).map (s.NTangent ops),
                front.length + 1⟩ = some (front ++ a :: out) ∧
            List.Chain' DyadicGap (front ++ a :: out) ∧
            List.Chain' (Settled ops s maxRadians) (front ++ a :: out) ∧
            (a :: out).getLast? = (a :: b :: rest).getLast? ∧
            (∀ x ∈ b :: rest, x ∈ out) := by
        intro hsab
        have e1 : front ++ a :: b :: rest = (front ++ [a]) ++ b :: rest := by simp
        have e2 : front.length + 1 = (front ++ [a]).length := by simp
        have hs1 : List.Chain' (Settled ops s maxRadians) ((front ++ [a]) ++ [b]) := by
          have e3 : (front ++ [a]) ++ [b] = front ++ a :: [b] := by simp
          rw [e3]
          exact List.chain'_split.2 ⟨hs, List.chain'_cons.2 ⟨hsab, List.chain'_singleton b⟩⟩
        obtain ⟨out, ho, hog, hos, hol, hom⟩ :=
          ih (front ++ [a]) b rest (e1 ▸ hg) hs1 hn1
        refine ⟨b :: out, ?_, ?_, ?_, ?_, ?_⟩
        · rw [e1, e2, ho]; simp
        · simpa using hog
        · simpa using hos
        · rw [List.getLast?_cons_cons, List.getLast?_cons_cons]; exact hol
        · intro x hx
          rcases List.mem_cons.1 hx with rfl | hx
          · exact List.mem_cons_self _ _
          · exact List.mem_cons_of_mem _ (hom x hx)
      rw [Curve.subdivideLoop, hmap, hstep]
      by_cases hw : b - a < 1 / 100
      · rw [if_pos hw, ← hmap]
        exact advance (Or.inl hw)
      · rw [if_neg hw]
        by_cases hang : |vec2.Angle ops (s.NTangent ops a) (s.NTangent ops b)| > maxRadians
        · rw [if_pos hang]
          obtain ⟨hg1, hg3⟩ := dyadicGap_halves hab hw
          have hg4 : List.Chain' DyadicGap (front ++ a :: (1 / 2 * (a + b)) :: b :: rest) :=
            List.chain'_split.2 ⟨hg2.1,
              List.chain'_cons.2 ⟨hg1, List.chain'_cons.2 ⟨hg3, hbr⟩⟩⟩
          have hn2 : stepsLeft (a :: (1 / 2 * (a + b)) :: b :: rest) + 1 ≤ (n : K) := by
            simp only [stepsLeft, Nat.cast_succ] at hn ⊢
            linarith
          obtain ⟨out, ho, hog, hos, hol, hom⟩ :=
            ih front a ((1 / 2 * (a + b)) :: b :: rest) hg4 hs hn2
          refine ⟨out, ?_, hog, hos, ?_, ?_⟩
          · rw [← ho]; simp
          · rw [hol, List.getLast?_cons_cons, List.getLast?_cons_cons,
              List.getLast?_cons_cons]
          · intro x hx
            exact hom x (List.mem_cons_of_mem _ hx)
        · rw [if_neg hang, ← hmap]
          exact advance (Or.inr (not_lt.1 hang))

end SubdivideInvariant

section SubdivideResults

variable {K : Type} [LinearOrderedField K]

/-- Along a chain of dyadic gaps the parameters grow by at least `1/128` per
element. -/
theorem dyadic_chain_growth : ∀ (l : List K) (a z : K),
    List.Chain' DyadicGap (a :: l) → (a :: l).getLast? = some z →
    a + (l.length : K) / 128 ≤ z
  | [], a, z, _, h => by
    simp only [List.getLast?_singleton, Option.some.injEq] at h
    simp [h]
  | b :: l, a, z, hc, h => by
    rw [List.chain'_cons] at hc
    rw [List.getLast?_cons_cons] at h
    have h1 := dyadicGap_ge hc.1
    have h2 := dyadic_chain_growth l b z hc.2 h
    simp only [List.length_cons, Nat.cast_succ]
    linarith

theorem dyadicGap_lt {a b : K} (h : DyadicGap a b) : a < b := by
  have := dyadicGap_ge h
  linarith

/-- What the loop invariant gives for the call `Subdivide(maxDegrees)`: with 255
iterations of fuel the loop ends, and the list returned starts with 0, ends
with 1, contains 1/2, and has all its intervals dyadic and settled. -/
theorem subdivide_spec (ops : MathOps K) (s : Curve K) (maxDegrees : K) (fuel : ℕ)
    (hfuel : 255 ≤ fuel) :
    ∃ out, s.Subdivide ops maxDegrees fuel = some (0 :: out) ∧
      List.Chain' DyadicGap (0 :: out) ∧
      List.Chain' (Settled ops s |maxDegrees * ops.pi / 180|) (0 :: out) ∧
      (0 :: out).getLast? = some 1 ∧ (1 / 2 : K) ∈ out ∧ (1 : K) ∈ out := by
  have hg : List.Chain' DyadicGap ([] ++ (0 : K) :: [1 / 2, 1]) := by
    refine List.chain'_cons.2 ⟨⟨1, by norm_num, by norm_num⟩, ?_⟩
    exact List.chain'_cons.2 ⟨⟨1, by norm_num, by norm_num⟩, List.chain'_singleton _⟩
  have hs : List.Chain' (Settled ops s |maxDegrees * ops.pi / 180|) ([] ++ [(0 : K)]) :=
    List.chain'_singleton _
  have hn : stepsLeft ((0 : K) :: [1 / 2, 1]) + 1 ≤ (fuel : K) := by
    have h255 : ((255 : ℕ) : K) ≤ (fuel : K) := Nat.cast_le.2 hfuel
    simp only [stepsLeft]
    norm_num at h255 ⊢
    linarith
  obtain ⟨out, ho, hog, hos, hol, hom⟩ :=
    subdivideLoop_spec ops s |maxDegrees * ops.pi / 180| fuel [] 0 [1 / 2, 1] hg hs hn
  refine ⟨out, ?_, hog, hos, ?_, hom _ (by simp), hom _ (by simp)⟩
  · simpa [Curve.Subdivide] using ho
  · rw [hol]; simp

/-- C1: `Curve.Subdivide` returns, for every curve and every `maxDegrees`, a
strictly increasing list of parameters whose first element is 0 and whose last
element is 1, with at least three elements, 0, 1/2 and 1 among them. -/
theorem subdivide_strictly_increasing (ops : MathOps K) (s : Curve K) (maxDegrees : K)
    (fuel : ℕ) (hfuel : 255 ≤ fuel) :
    ∃ ts, s.Subdivide ops maxDegrees fuel = some ts ∧
      List.Sorted (fun a b => a < b) ts ∧
      ts.head? = some 0 ∧ ts.getLast? = some 1 ∧
      3 ≤ ts.length ∧ (0 : K) ∈ ts ∧ (1 / 2 : K) ∈ ts ∧ (1 : K) ∈ ts := by
  obtain ⟨out, ho, hog, _, hol, hhalf, hone⟩ := subdivide_spec ops s maxDegrees fuel hfuel
  refine ⟨0 :: out, ho, ?_, rfl, hol, ?_, List.mem_cons_self _ _,
    List.mem_cons_of_mem _ hhalf, List.mem_cons_of_mem _ hone⟩
  · have hlt : List.Chain' (fun a b : K => a < b) (0 :: out) :=
      hog.imp (fun _ _ h => dyadicGap_lt h)
    exact List.chain'_iff_pairwise.1 hlt
  · match out, hhalf, hone with
    | [], h, _ => simp at h
    | [x], h1, h2 =>
      simp only [List.mem_singleton] at h1 h2
      have : (1 / 2 : K) = 1 := h1.trans h2.symm
      norm_num at this
    | _ :: _ :: _, _, _ => simp

/-- Witness of C1: the curve of the package's tests, `Subdivide(45)`. -/
theorem subdivide_strictly_increasing_witness :
    255 ≤ 255 ∧ ∃ ts, (NewCurve (⟨0, 0⟩ : Vec2 ℝ) ⟨0, 1⟩ ⟨2, 1⟩ ⟨2, 0⟩).Subdivide
        realOps 45 255 = some ts ∧
      List.Sorted (fun a b => a < b) ts ∧
      ts.head? = some 0 ∧ ts.getLast? = some 1 ∧
      3 ≤ ts.length ∧ (0 : ℝ) ∈ ts ∧ (1 / 2 : ℝ) ∈ ts ∧ (1 : ℝ) ∈ ts :=
  ⟨le_refl _, subdivide_strictly_increasing realOps _ 45 255 (le_refl _)⟩

/-- C2: `Curve.Subdivide` terminates for every curve and every `maxDegrees`
(zero and negative included): 255 iterations always suffice; one iteration
changes the list of parameters only when the interval at the index is at least
0.01 wide; every gap between adjacent returned parameters is at least 1/128;
and at most 129 parameters are returned. -/
theorem subdivide_terminates (ops : MathOps K) (s : Curve K) (maxDegrees : K)
    (fuel : ℕ) (hfuel : 255 ≤ fuel) :
    (∃ ts, s.Subdivide ops maxDegrees fuel = some ts ∧
      List.Chain' (fun a b => 1 / 128 ≤ b - a) ts ∧ ts.length ≤ 129) ∧
    ∀ st st1 : SubdivideState K,
      Curve.subdivideStep ops s |maxDegrees * ops.pi / 180| st = some st1 →
      st1.ts ≠ st.ts → 1 / 100 ≤ st.ts.getD (st.i + 1) 0 - st.ts.getD st.i 0 := by
  constructor
  · obtain ⟨out, ho, hog, _, hol, _, _⟩ := subdivide_spec ops s maxDegrees fuel hfuel
    refine ⟨0 :: out, ho, hog.imp (fun _ _ h => dyadicGap_ge h), ?_⟩
    have hgrow := dyadic_chain_growth out 0 1 hog hol
    have hlen : (out.length : K) ≤ ((128 : ℕ) : K) := by
      have h128 : ((128 : ℕ) : K) = 128 := by norm_num
      rw [h128]
      linarith
    have := Nat.cast_le.1 hlen
    simp only [List.length_cons]
    omega
  · intro st st1 hstep hne
    unfold Curve.subdivideStep at hstep
    split_ifs at hstep with h1 h2
    · simp only [Option.some.injEq] at hstep
      exact absurd (by rw [← hstep]) hne
    · exact not_lt.1 h2

/-- Witness of C2: the curve of the package's tests, `Subdivide(0)`. -/
theorem subdivide_terminates_witness :
    255 ≤ 255 ∧
    ((∃ ts, (NewCurve (⟨0, 0⟩ : Vec2 ℝ) ⟨0, 1⟩ ⟨2, 1⟩ ⟨2, 0⟩).Subdivide
        realOps 0 255 = some ts ∧
      List.Chain' (fun a b => 1 / 128 ≤ b - a) ts ∧ ts.length ≤ 129) ∧
    ∀ st st1 : SubdivideState ℝ,
      Curve.subdivideStep realOps (NewCurve (⟨0, 0⟩ : Vec2 ℝ) ⟨0, 1⟩ ⟨2, 1⟩ ⟨2, 0⟩)
        |0 * realOps.pi / 180| st = some st1 →
      st1.ts ≠ st.ts → 1 / 100 ≤ st.ts.getD (st.i + 1) 0 - st.ts.getD st.i 0) :=
  ⟨le_refl _, subdivide_terminates realOps _ 0 255 (le_refl _)⟩

/-- C3: every adjacent pair of parameters returned by `Curve.Subdivide` is
within tolerance or narrow: the angle between the normalised tangents at the two
parameters is at most `|maxDegrees|` in radians, or the two are less than 0.01
apart. -/
theorem subdivide_pairs_settled (ops : MathOps K) (s : Curve K) (maxDegrees : K)
    (fuel : ℕ) (hfuel : 255 ≤ fuel) (hpi : 0 ≤ ops.pi) :
    ∃ ts, s.Subdivide ops maxDegrees fuel = some ts ∧
      List.Chain' (fun a b =>
        |vec2.Angle ops (s.NTangent ops a) (s.NTangent ops b)|
            ≤ |maxDegrees| * ops.pi / 180 ∨
          b - a < 1 / 100) ts := by
  obtain ⟨out, ho, _, hos, _, _, _⟩ := subdivide_spec ops s maxDegrees fuel hfuel
  have hrad : |maxDegrees * ops.pi / 180| = |maxDegrees| * ops.pi / 180 := by
    rw [abs_div, abs_mul, abs_of_nonneg hpi]
    norm_num
  refine ⟨0 :: out, ho, hos.imp (fun a b h => ?_)⟩
  rcases h with h | h
  · exact Or.inr h
  · exact Or.inl (hrad ▸ h)

/-- Witness of C3: the curve of the package's tests, `Subdivide(45)`. -/
theorem subdivide_pairs_settled_witness :
    (255 ≤ 255 ∧ 0 ≤ realOps.pi) ∧
    ∃ ts, (NewCurve (⟨0, 0⟩ : Vec2 ℝ) ⟨0, 1⟩ ⟨2, 1⟩ ⟨2, 0⟩).Subdivide
        realOps 45 255 = some ts ∧
      List.Chain' (fun a b =>
        |vec2.Angle realOps
            ((NewCurve (⟨0, 0⟩ : Vec2 ℝ) ⟨0, 1⟩ ⟨2, 1⟩ ⟨2, 0⟩).NTangent realOps a)
            ((NewCurve (⟨0, 0⟩ : Vec2 ℝ) ⟨0, 1⟩ ⟨2, 1⟩ ⟨2, 0⟩).NTangent realOps b)|
            ≤ |(45 : ℝ)| * realOps.pi / 180 ∨
          b - a < 1 / 100) ts :=
  ⟨⟨le_refl _, Real.pi_pos.le⟩,
    subdivide_pairs_settled realOps _ 45 255 (le_refl _) Real.pi_pos.le⟩

end SubdivideResults

/-! ## Walls -/

section WallLemmas

variable {K : Type} [LinearOrderedField K]

theorem foldl_slices {α β : Type} (f g : ℕ → α) (h : ℕ → β) :
    ∀ (l : List ℕ) (A : List α) (B : List β),
      l.foldl (fun (acc : List α × List β) i => (acc.1 ++ [f i] ++ [g i], acc.2 ++ [h i]))
          (A, B)
        = (A ++ l.flatMap (fun i => [f i, g i]), B ++ l.map h)
  | [], A, B => by simp
  | i :: l, A, B => by
    rw [List.foldl_cons, foldl_slices f g h l]
    simp

theorem range_adjacent {α : Type} (d : α) :
    ∀ ts : List α,
      (List.range (ts.length - 1)).map (fun i => (ts.getD i d, ts.getD (i + 1) d))
        = ts.zip ts.tail
  | [] => rfl
  | [_] => rfl
  | a :: b :: rest => by
    have ih := range_adjacent d (b :: rest)
    simp only [List.length_cons, Nat.add_sub_cancel, List.tail_cons] at ih ⊢
    rw [List.range_succ_eq_map, List.map_cons, List.map_map, List.zip_cons_cons, ← ih]
    simp [Function.comp_def]

/-- Go `Curve.Wall` in closed form: the slices are the adjacent pairs of the
subdivision. -/
theorem curve_wall_eq (ops : MathOps K) (s : Curve K) (height maxDegrees : K)
    (flipNormals : Bool) (fuel : ℕ) (ts : List K)
    (hts : s.Subdivide ops maxDegrees fuel = some ts) :
    s.Wall ops height maxDegrees flipNormals fuel
      = some ((ts.zip ts.tail).flatMap (fun p =>
            [if flipNormals then (wallUpper height (s.At p.1) (s.At p.2)).swapped
              else wallUpper height (s.At p.1) (s.At p.2),
             if flipNormals then (wallLower height (s.At p.1) (s.At p.2)).swapped
              else wallLower height (s.At p.1) (s.At p.2)]),
          ts.tail.map (fun t => s.At t)) := by
  have hfold := foldl_slices
    (fun i => if flipNormals then
        (wallUpper height (s.At (ts.getD i 0)) (s.At (ts.getD (i + 1) 0))).swapped
      else wallUpper height (s.At (ts.getD i 0)) (s.At (ts.getD (i + 1) 0)))
    (fun i => if flipNormals then
        (wallLower height (s.At (ts.getD i 0)) (s.At (ts.getD (i + 1) 0))).swapped
      else wallLower height (s.At (ts.getD i 0)) (s.At (ts.getD (i + 1) 0)))
    (fun i => s.At (ts.getD (i + 1) 0))
    (List.range (ts.length - 1)) [] []
  have hpairs := range_adjacent (0 : K) ts
  have htail : (List.range (ts.length - 1)).map (fun i => s.At (ts.getD (i + 1) 0))
      = ts.tail.map (fun t => s.At t) := by
    have h2 : ts.tail = (ts.zip ts.tail).map Prod.snd := by
      rw [List.map_snd_zip]
      simp
    rw [h2, ← hpairs, List.map_map, List.map_map]
    rfl
  unfold Curve.Wall
  rw [hts]
  cases ts with
  | nil => simp
  | cons a rest =>
    simp only [List.length_cons, Nat.le_zero_eq, Nat.add_one_ne_zero, if_false]
    simp only [List.length_cons] at hfold htail hpairs
    rw [← hpairs, List.flatMap_map, ← htail]
    exact congrArg some hfold

end WallLemmas

section WallResults

variable {K : Type} [LinearOrderedField K]

theorem length_flatMap_pair {α β : Type} (f g : α → β) :
    ∀ l : List α, (l.flatMap (fun p => [f p, g p])).length = 2 * l.length
  | [] => rfl
  | a :: l => by
    simp only [List.flatMap_cons, List.length_append, List.length_cons, List.length_nil,
      length_flatMap_pair f g l]
    omega

/-- C5: for a line and for a curve, `Wall(height, maxDegrees, true)` returns the
triangles of `Wall(height, maxDegrees, false)` in the same order, each with its
2nd and 3rd vertex exchanged, and the same floor-contour points. -/
theorem wall_flip_swaps (ops : MathOps K) (seg : T K) (height maxDegrees : K) (fuel : ℕ)
    (hfuel : 255 ≤ fuel) :
    ∃ tris pts,
      seg.Wall ops height maxDegrees false fuel = some (tris, pts) ∧
      seg.Wall ops height maxDegrees true fuel
        = some (tris.map Triangle3D.swapped, pts) := by
  cases seg with
  | line l => exact ⟨_, _, rfl, rfl⟩
  | curve c =>
    obtain ⟨out, ho, _⟩ := subdivide_spec ops c maxDegrees fuel hfuel
    refine ⟨((0 :: out).zip (0 :: out).tail).flatMap (fun p =>
        [wallUpper height (c.At p.1) (c.At p.2), wallLower height (c.At p.1) (c.At p.2)]),
      (0 :: out).tail.map (fun t => c.At t), ?_, ?_⟩
    · simp only [T.Wall]
      rw [curve_wall_eq ops c height maxDegrees false fuel _ ho]
      simp
    · simp only [T.Wall]
      rw [curve_wall_eq ops c height maxDegrees true fuel _ ho]
      simp [List.map_flatMap]

/-- Witness of C5: the curve of the package's tests, `Wall(4, 45, _)`. -/
theorem wall_flip_swaps_witness :
    255 ≤ 255 ∧ ∃ tris pts,
      (T.curve (NewCurve (⟨0, 0⟩ : Vec2 ℝ) ⟨0, 1⟩ ⟨2, 1⟩ ⟨2, 0⟩)).Wall realOps 4 45 false 255
        = some (tris, pts) ∧
      (T.curve (NewCurve (⟨0, 0⟩ : Vec2 ℝ) ⟨0, 1⟩ ⟨2, 1⟩ ⟨2, 0⟩)).Wall realOps 4 45 true 255
        = some (tris.map Triangle3D.swapped, pts) :=
  ⟨le_refl _, wall_flip_swaps realOps _ 4 45 255 (le_refl _)⟩

/-- C6: with `flipNormals = false`, `Wall` on a segment with parameter list `ts`
returns, for each consecutive pair `(t_i, t_{i+1})` in order, the two triangles
`[(p0,0),(p1,height),(p0,height)]` and `[(p0,0),(p1,0),(p1,height)]` with
`p0 = At(t_i)`, `p1 = At(t_{i+1})`, that is `2 * (len(ts) - 1)` triangles, and as
floor contour the points `At(t_{i+1})` in order, `At(t_0)` not among them. -/
theorem wall_slices (ops : MathOps K) (seg : T K) (height maxDegrees : K) (fuel : ℕ)
    (ts : List K) (hts : paramList ops seg maxDegrees fuel = some ts) :
    ∃ tris pts,
      seg.Wall ops height maxDegrees false fuel = some (tris, pts) ∧
      tris = (ts.zip ts.tail).flatMap (fun p =>
        [wallUpper height (seg.At p.1) (seg.At p.2),
         wallLower height (seg.At p.1) (seg.At p.2)]) ∧
      pts = ts.tail.map (fun t => seg.At t) ∧
      tris.length = 2 * (ts.length - 1) := by
  have hlen : ((ts.zip ts.tail).flatMap (fun p =>
        [wallUpper height (seg.At p.1) (seg.At p.2),
         wallLower height (seg.At p.1) (seg.At p.2)])).length = 2 * (ts.length - 1) := by
    rw [length_flatMap_pair, List.length_zip, List.length_tail]
    congr 1
    omega
  refine ⟨_, _, ?_, rfl, rfl, hlen⟩
  cases seg with
  | line l =>
    simp only [paramList, Option.some.injEq] at hts
    subst hts
    rfl
  | curve c =>
    simp only [paramList] at hts
    simp only [T.Wall, T.At]
    rw [curve_wall_eq ops c height maxDegrees false fuel ts hts]
    simp

/-- Witness of C6: the line (0,0)-(1,0) with height 4 yields the triangles
`{(0,0,0),(1,0,4),(0,0,4)}` and `{(0,0,0),(1,0,0),(1,0,4)}` and the contour
point (1,0). -/
theorem wall_slices_witness :
    paramList realOps (T.line (NewLine (⟨0, 0⟩ : Vec2 ℝ) ⟨1, 0⟩)) 1 0 = some [0, 1] ∧
    (T.line (NewLine (⟨0, 0⟩ : Vec2 ℝ) ⟨1, 0⟩)).Wall realOps 4 1 false 0
      = some ([⟨⟨0, 0, 0⟩, ⟨1, 0, 4⟩, ⟨0, 0, 4⟩⟩, ⟨⟨0, 0, 0⟩, ⟨1, 0, 0⟩, ⟨1, 0, 4⟩⟩],
          [⟨1, 0⟩]) := by
  refine ⟨rfl, ?_⟩
  obtain ⟨tris, pts, h1, h2, h3, _⟩ :=
    wall_slices realOps (T.line (NewLine (⟨0, 0⟩ : Vec2 ℝ) ⟨1, 0⟩)) 4 1 0 [0, 1] rfl
  rw [h1, h2, h3]
  norm_num [T.At, Line.At, NewLine, vec2.Interpolate, wallUpper, wallLower]

end WallResults

/-! ## `NewCurve`: bounding box and control handles -/

section CurveResults

variable {K : Type} [LinearOrderedField K]

theorem vec2_Min_eq (a b : Vec2 K) : vec2.Min a b = ⟨min a.x b.x, min a.y b.y⟩ := by
  have h : ∀ u v : K, (if v < u then v else u) = min u v := by
    intro u v
    rcases lt_or_le v u with h | h
    · simp [h, h.le]
    · simp [h, not_lt.2 h]
  simp only [vec2.Min, h]

theorem vec2_Max_eq (a b : Vec2 K) : vec2.Max a b = ⟨max a.x b.x, max a.y b.y⟩ := by
  have h : ∀ u v : K, (if v > u then v else u) = max u v := by
    intro u v
    rcases lt_or_le u v with h | h
    · simp [h, h.le]
    · simp [h, not_lt.2 h]
  simp only [vec2.Max, h]

/-- The bounding box stored by `NewCurve`, in closed form. -/
theorem newCurve_bbox_eq (p0 p1 p2 p3 : Vec2 K) :
    (NewCurve p0 p1 p2 p3).BBox =
      ⟨⟨min5 p0.x p3.x ((NewCurve p0 p1 p2 p3).At (1 / 4)).x
            ((NewCurve p0 p1 p2 p3).At (1 / 2)).x ((NewCurve p0 p1 p2 p3).At (3 / 4)).x,
          min5 p0.y p3.y ((NewCurve p0 p1 p2 p3).At (1 / 4)).y
            ((NewCurve p0 p1 p2 p3).At (1 / 2)).y ((NewCurve p0 p1 p2 p3).At (3 / 4)).y⟩,
        ⟨max5 p0.x p3.x ((NewCurve p0 p1 p2 p3).At (1 / 4)).x
            ((NewCurve p0 p1 p2 p3).At (1 / 2)).x ((NewCurve p0 p1 p2 p3).At (3 / 4)).x,
          max5 p0.y p3.y ((NewCurve p0 p1 p2 p3).At (1 / 4)).y
            ((NewCurve p0 p1 p2 p3).At (1 / 2)).y ((NewCurve p0 p1 p2 p3).At (3 / 4)).y⟩⟩ := by
  simp only [NewCurve, Curve.BBox, Curve.At, List.foldl, vec2_Min_eq, vec2_Max_eq, min5, max5]

/-- C8: the bounding box stored by `NewCurve` has as `Min` and `Max` the
componentwise minimum and maximum of exactly five points: `p0`, `p3` and the
constructed curve's `At(0.25)`, `At(0.5)`, `At(0.75)`; for the control points
(0,0),(0,1),(2,1),(2,0) it is `Min = (0,0)`, `Max = (2,0.75)`. -/
theorem newCurve_bbox (p0 p1 p2 p3 : Vec2 K) :
    ((NewCurve p0 p1 p2 p3).BBox.Min =
        ⟨min5 p0.x p3.x ((NewCurve p0 p1 p2 p3).At (1 / 4)).x
            ((NewCurve p0 p1 p2 p3).At (1 / 2)).x ((NewCurve p0 p1 p2 p3).At (3 / 4)).x,
          min5 p0.y p3.y ((NewCurve p0 p1 p2 p3).At (1 / 4)).y
            ((NewCurve p0 p1 p2 p3).At (1 / 2)).y ((NewCurve p0 p1 p2 p3).At (3 / 4)).y⟩ ∧
      (NewCurve p0 p1 p2 p3).BBox.Max =
        ⟨max5 p0.x p3.x ((NewCurve p0 p1 p2 p3).At (1 / 4)).x
            ((NewCurve p0 p1 p2 p3).At (1 / 2)).x ((NewCurve p0 p1 p2 p3).At (3 / 4)).x,
          max5 p0.y p3.y ((NewCurve p0 p1 p2 p3).At (1 / 4)).y
            ((NewCurve p0 p1 p2 p3).At (1 / 2)).y ((NewCurve p0 p1 p2 p3).At (3 / 4)).y⟩) ∧
    (NewCurve (⟨0, 0⟩ : Vec2 K) ⟨0, 1⟩ ⟨2, 1⟩ ⟨2, 0⟩).BBox = ⟨⟨0, 0⟩, ⟨2, 3 / 4⟩⟩ := by
  refine ⟨?_, ?_⟩
  · rw [newCurve_bbox_eq p0 p1 p2 p3]
    exact ⟨rfl, rfl⟩
  · rw [newCurve_bbox_eq]
    norm_num [NewCurve, Curve.At, bezier2.Point, vec2.Add, vec2.Scale, min5, max5]

end CurveResults

section BoxResults

variable {K : Type} [LinearOrderedField K]

/-- C9 (failing input): for the control points (0,0),(0,3),(1,0),(2,0) the
point `At(1/3) = (8/27, 4/3)` lies above the stored box, whose `Max.y` is
`81/64`, the height of the curve at `t = 1/4`. -/
theorem bbox_misses_curve_point :
    (0 : ℚ) ≤ 1 / 3 ∧ (1 / 3 : ℚ) ≤ 1 ∧
    (NewCurve (⟨0, 0⟩ : Vec2 ℚ) ⟨0, 3⟩ ⟨1, 0⟩ ⟨2, 0⟩).BBox.Max.y = 81 / 64 ∧
    ((NewCurve (⟨0, 0⟩ : Vec2 ℚ) ⟨0, 3⟩ ⟨1, 0⟩ ⟨2, 0⟩).At (1 / 3)).y = 4 / 3 ∧
    ¬ InBox (NewCurve (⟨0, 0⟩ : Vec2 ℚ) ⟨0, 3⟩ ⟨1, 0⟩ ⟨2, 0⟩).BBox
        ((NewCurve (⟨0, 0⟩ : Vec2 ℚ) ⟨0, 3⟩ ⟨1, 0⟩ ⟨2, 0⟩).At (1 / 3)) := by
  have hbox : (NewCurve (⟨0, 0⟩ : Vec2 ℚ) ⟨0, 3⟩ ⟨1, 0⟩ ⟨2, 0⟩).BBox.Max.y = 81 / 64 := by
    rw [newCurve_bbox_eq]
    norm_num [NewCurve, Curve.At, bezier2.Point, vec2.Add, vec2.Scale, max5]
  have hat : ((NewCurve (⟨0, 0⟩ : Vec2 ℚ) ⟨0, 3⟩ ⟨1, 0⟩ ⟨2, 0⟩).At (1 / 3)).y = 4 / 3 := by
    norm_num [NewCurve, Curve.At, bezier2.Point, vec2.Add, vec2.Scale]
  refine ⟨by norm_num, by norm_num, hbox, hat, ?_⟩
  intro h
  have h4 := h.2.2.2
  rw [hbox, hat] at h4
  norm_num at h4

theorem curve_At_zero (s : Curve K) : s.At 0 = s.spline.P0 := by
  cases s with
  | mk spline bbox =>
    cases spline with
    | mk P0 P1 P2 P3 =>
      cases P0
      simp [Curve.At, bezier2.Point, vec2.Add, vec2.Scale]

theorem curve_At_one (s : Curve K) : s.At 1 = s.spline.P3 := by
  cases s with
  | mk spline bbox =>
    cases spline with
    | mk P0 P1 P2 P3 =>
      cases P3
      simp [Curve.At, bezier2.Point, vec2.Add, vec2.Scale]

theorem newCurve_P0 (p0 p1 p2 p3 : Vec2 K) : (NewCurve p0 p1 p2 p3).spline.P0 = p0 := by
  unfold NewCurve
  by_cases h1 : p0 = p1 <;> by_cases h2 : p2 = p3 <;> simp [h1, h2]

theorem newCurve_P3 (p0 p1 p2 p3 : Vec2 K) : (NewCurve p0 p1 p2 p3).spline.P3 = p3 := by
  unfold NewCurve
  by_cases h1 : p0 = p1 <;> by_cases h2 : p2 = p3 <;> simp [h1, h2]

/-- What the box does hold: the box stored by `NewCurve` contains the five sampled
points of the constructed curve, `At(0)`, `At(0.25)`, `At(0.5)`, `At(0.75)` and
`At(1)`. -/
theorem bbox_contains_samples (p0 p1 p2 p3 : Vec2 K) :
    InBox (NewCurve p0 p1 p2 p3).BBox ((NewCurve p0 p1 p2 p3).At 0) ∧
    InBox (NewCurve p0 p1 p2 p3).BBox ((NewCurve p0 p1 p2 p3).At (1 / 4)) ∧
    InBox (NewCurve p0 p1 p2 p3).BBox ((NewCurve p0 p1 p2 p3).At (1 / 2)) ∧
    InBox (NewCurve p0 p1 p2 p3).BBox ((NewCurve p0 p1 p2 p3).At (3 / 4)) ∧
    InBox (NewCurve p0 p1 p2 p3).BBox ((NewCurve p0 p1 p2 p3).At 1) := by
  rw [newCurve_bbox_eq p0 p1 p2 p3, curve_At_zero, curve_At_one, newCurve_P0, newCurve_P3]
  simp only [InBox, min5, max5]
  refine ⟨⟨?_, ?_, ?_, ?_⟩, ⟨?_, ?_, ?_, ?_⟩, ⟨?_, ?_, ?_, ?_⟩, ⟨?_, ?_, ?_, ?_⟩,
    ⟨?_, ?_, ?_, ?_⟩⟩ <;>
  simp only [min_le_iff, le_max_iff, le_refl, true_or, or_true]

/-- The control handles after `NewCurve`: with `p0 ≠ p3` both handles are
non-degenerate unless three consecutive control points coincide. -/
theorem newCurve_handles_repaired (p0 p1 p2 p3 : Vec2 K) (h03 : p0 ≠ p3)
    (hfront : ¬ (p0 = p1 ∧ p1 = p2)) (hback : ¬ (p1 = p2 ∧ p2 = p3)) :
    (NewCurve p0 p1 p2 p3).spline.P0 ≠ (NewCurve p0 p1 p2 p3).spline.P1 ∧
    (NewCurve p0 p1 p2 p3).spline.P2 ≠ (NewCurve p0 p1 p2 p3).spline.P3 := by
  unfold NewCurve
  by_cases h1 : p0 = p1 <;> by_cases h2 : p2 = p3
  · subst h1 h2
    simp only [if_true]
    exact ⟨h03, h03⟩
  · subst h1
    simp only [if_true, h2, if_false]
    refine ⟨fun h => hfront ⟨rfl, h⟩, h2⟩
  · subst h2
    simp only [h1, if_false, if_true]
    refine ⟨h1, fun h => hback ⟨h, rfl⟩⟩
  · simp only [h1, h2, if_false]
    exact ⟨h1, h2⟩

/-- C10 at the failing input: for the control points (0,0),(0,0),(0,0),(1,0),
where `p0 ≠ p3`, the curve built by `NewCurve` still has `P0 = P1`, and its
tangent at 0 is the zero vector. -/
theorem newCurve_degenerate_handle :
    (⟨0, 0⟩ : Vec2 ℚ) ≠ ⟨1, 0⟩ ∧
    (NewCurve (⟨0, 0⟩ : Vec2 ℚ) ⟨0, 0⟩ ⟨0, 0⟩ ⟨1, 0⟩).spline.P0
      = (NewCurve (⟨0, 0⟩ : Vec2 ℚ) ⟨0, 0⟩ ⟨0, 0⟩ ⟨1, 0⟩).spline.P1 ∧
    (NewCurve (⟨0, 0⟩ : Vec2 ℚ) ⟨0, 0⟩ ⟨0, 0⟩ ⟨1, 0⟩).Tangent 0 = ⟨0, 0⟩ := by
  refine ⟨by simp, ?_, ?_⟩
  · simp [NewCurve]
  · simp [NewCurve, Curve.Tangent, bezier2.Tangent, vec2.Add, vec2.Scale, vec2.Sub]

end BoxResults

/-! ## `Line.Bevel` at a straight joint -/

section LineBevel

theorem real_sqrt_four : Real.sqrt 4 = 2 := by
  have h : (4 : ℝ) = 2 ^ 2 := by norm_num
  rw [h, Real.sqrt_sq (by norm_num)]

theorem real_normalize_double (n : Vec2 ℝ) (h : vec2.LengthSqr n = 1) :
    vec2.Normalize realOps (vec2.Add n n) = n := by
  have h4 : vec2.LengthSqr (vec2.Add n n) = 4 := by
    simp only [vec2.LengthSqr, vec2.Add] at h ⊢
    linear_combination 4 * h
  rw [vec2.Normalize]
  simp only [h4]
  cases n with
  | mk x y =>
    norm_num [realOps, real_sqrt_four, vec2.Scale, vec2.Add]
    constructor <;> ring

theorem real_angle_self (n : Vec2 ℝ) (h : vec2.LengthSqr n = 1) :
    vec2.Angle realOps n n = 0 := by
  have hd : vec2.Dot n n = 1 := h
  norm_num [vec2.Angle, vec2.Length, realOps, h, hd]

/-- The mitred offset point at a joint whose two normals are the same unit
vector `n`: the point moved by `offset * n`. -/
theorem real_miter_straight (n p : Vec2 ℝ) (offset : ℝ) (h : vec2.LengthSqr n = 1) :
    vec2.Add (vec2.Scale (vec2.Normalize realOps (vec2.Add n n))
        (offset / realOps.cos (1 / 2 * vec2.Angle realOps n n))) p
      = ⟨p.x + offset * n.x, p.y + offset * n.y⟩ := by
  have hcos : realOps.cos (1 / 2 * 0) = 1 := by simp [realOps]
  rw [real_angle_self n h, real_normalize_double n h, hcos]
  simp only [vec2.Add, vec2.Scale, div_one, Vec2.mk.injEq]
  constructor <;> ring

/-- Over the reals, with exact `sqrt`, `acos` and `cos`: for a line whose
normal `n = NNormal(0)` has squared length exactly 1, `Bevel` with
`flipNormals = false` and `prevNN = nextNN = n` returns exactly the triangles
`[(p0,height), (p1+offset*n,height+r), (p0+offset*n,height+r)]` and
`[(p0,height), (p1,height), (p1+offset*n,height+r)]` with
`r = offset * tan(deg * Pi / 180)`, and the single contour point `p1+offset*n`. -/
theorem line_bevel_straight (s : Line ℝ) (height offset deg maxDegrees : ℝ)
    (hunit : vec2.LengthSqr (s.NNormal realOps 0) = 1) :
    (s.Bevel realOps height offset deg maxDegrees false
        (s.NNormal realOps 0) (s.NNormal realOps 0)).tris
      = [⟨⟨s.p0.x, s.p0.y, height⟩,
          ⟨s.p1.x + offset * (s.NNormal realOps 0).x,
            s.p1.y + offset * (s.NNormal realOps 0).y,
            height + offset * Real.tan (deg * Real.pi / 180)⟩,
          ⟨s.p0.x + offset * (s.NNormal realOps 0).x,
            s.p0.y + offset * (s.NNormal realOps 0).y,
            height + offset * Real.tan (deg * Real.pi / 180)⟩⟩,
         ⟨⟨s.p0.x, s.p0.y, height⟩, ⟨s.p1.x, s.p1.y, height⟩,
          ⟨s.p1.x + offset * (s.NNormal realOps 0).x,
            s.p1.y + offset * (s.NNormal realOps 0).y,
            height + offset * Real.tan (deg * Real.pi / 180)⟩⟩] ∧
    (s.Bevel realOps height offset deg maxDegrees false
        (s.NNormal realOps 0) (s.NNormal realOps 0)).pts
      = [⟨s.p1.x + offset * (s.NNormal realOps 0).x,
          s.p1.y + offset * (s.NNormal realOps 0).y⟩] := by
  have hn1 : s.NNormal realOps 1 = s.NNormal realOps 0 := rfl
  have htan : realOps.tan (deg * realOps.pi / 180) = Real.tan (deg * Real.pi / 180) := rfl
  have h0 : s.At 0 = s.p0 := by
    cases s with
    | mk p0 p1 bbox => cases p0; simp [Line.At, vec2.Interpolate]
  have h1 : s.At 1 = s.p1 := by
    cases s with
    | mk p0 p1 bbox => cases p1; simp [Line.At, vec2.Interpolate]
  simp only [Line.Bevel, hn1, Bool.false_eq_true, if_false, htan, h0, h1,
    real_miter_straight _ _ offset hunit, poly2tri.NewPoint]
  exact ⟨trivial, trivial⟩

/-- The package's `TestBevel`: the line (0,0)-(1,0), whose unit normal is (0,1):
`Bevel(4, 1, 45, 1, false, (0,1), (0,1))` gives the triangles
`{(0,0,4),(1,1,5),(0,1,5)}` and `{(0,0,4),(1,0,4),(1,1,5)}` and the contour
point (1,1). -/
theorem line_bevel_straight_witness :
    vec2.LengthSqr ((NewLine (⟨0, 0⟩ : Vec2 ℝ) ⟨1, 0⟩).NNormal realOps 0) = 1 ∧
    ((NewLine (⟨0, 0⟩ : Vec2 ℝ) ⟨1, 0⟩).Bevel realOps 4 1 45 1 false ⟨0, 1⟩ ⟨0, 1⟩).tris
      = [⟨⟨0, 0, 4⟩, ⟨1, 1, 5⟩, ⟨0, 1, 5⟩⟩, ⟨⟨0, 0, 4⟩, ⟨1, 0, 4⟩, ⟨1, 1, 5⟩⟩] ∧
    ((NewLine (⟨0, 0⟩ : Vec2 ℝ) ⟨1, 0⟩).Bevel realOps 4 1 45 1 false ⟨0, 1⟩ ⟨0, 1⟩).pts
      = [⟨1, 1⟩] := by
  have hn : (NewLine (⟨0, 0⟩ : Vec2 ℝ) ⟨1, 0⟩).NNormal realOps 0 = ⟨0, 1⟩ := by
    norm_num [Line.NNormal, Line.Normal, Line.Tangent, NewLine, vec2.Normalize,
      vec2.Rotate90DegLeft, vec2.Sub, vec2.LengthSqr]
  have hunit : vec2.LengthSqr ((NewLine (⟨0, 0⟩ : Vec2 ℝ) ⟨1, 0⟩).NNormal realOps 0) = 1 := by
    rw [hn]
    norm_num [vec2.LengthSqr]
  have h := line_bevel_straight (NewLine (⟨0, 0⟩ : Vec2 ℝ) ⟨1, 0⟩) 4 1 45 1 hunit
  have hdeg : (45 : ℝ) * Real.pi / 180 = Real.pi / 4 := by ring
  rw [hn, hdeg, Real.tan_pi_div_four] at h
  norm_num [NewLine] at h
  exact ⟨hunit, h⟩

end LineBevel

/-! ## `Subdivide(45)` on the curve of the tests -/

section SubdivideExample

theorem real_lengthSqr_nonneg (v : Vec2 ℝ) : 0 ≤ vec2.LengthSqr v := by
  exact add_nonneg (mul_self_nonneg _) (mul_self_nonneg _)

theorem realOps_sqrt : realOps.sqrt = Real.sqrt := rfl

theorem realOps_acos : realOps.acos = Real.arccos := rfl

theorem realOps_pi : realOps.pi = Real.pi := rfl

/-- Over the reals `Normalize` divides a non-zero vector by its length. -/
theorem real_normalize (v : Vec2 ℝ) (hv : 0 < vec2.LengthSqr v) :
    vec2.Normalize realOps v
      = ⟨v.x / Real.sqrt (vec2.LengthSqr v), v.y / Real.sqrt (vec2.LengthSqr v)⟩ := by
  unfold vec2.Normalize
  by_cases h1 : vec2.LengthSqr v = 1
  · cases v with
    | mk x y => simp [h1]
  · have h0 : vec2.LengthSqr v ≠ 0 := ne_of_gt hv
    simp only [h0, h1, or_self, if_false, vec2.Scale, realOps_sqrt, Vec2.mk.injEq]
    constructor <;> ring

theorem real_lengthSqr_normalize (v : Vec2 ℝ) (hv : 0 < vec2.LengthSqr v) :
    vec2.LengthSqr (vec2.Normalize realOps v) = 1 := by
  rw [real_normalize v hv]
  have hq : 0 < Real.sqrt (vec2.LengthSqr v) := Real.sqrt_pos.2 hv
  have hqq : Real.sqrt (vec2.LengthSqr v) * Real.sqrt (vec2.LengthSqr v) = vec2.LengthSqr v :=
    Real.mul_self_sqrt hv.le
  have hx : v.x * v.x + v.y * v.y = vec2.LengthSqr v := rfl
  have hne : vec2.LengthSqr v ≠ 0 := ne_of_gt hv
  have hsum : v.x / Real.sqrt (vec2.LengthSqr v) * (v.x / Real.sqrt (vec2.LengthSqr v))
      + v.y / Real.sqrt (vec2.LengthSqr v) * (v.y / Real.sqrt (vec2.LengthSqr v))
      = (v.x * v.x + v.y * v.y)
        / (Real.sqrt (vec2.LengthSqr v) * Real.sqrt (vec2.LengthSqr v)) := by
    field_simp
  show v.x / Real.sqrt (vec2.LengthSqr v) * (v.x / Real.sqrt (vec2.LengthSqr v))
      + v.y / Real.sqrt (vec2.LengthSqr v) * (v.y / Real.sqrt (vec2.LengthSqr v)) = 1
  rw [hsum, hx, hqq, div_self hne]

/-- The angle between two normalised non-zero vectors, over the reals: the arc
cosine of the dot product divided by the two lengths. -/
theorem real_angle_normalize (u v : Vec2 ℝ) (hu : 0 < vec2.LengthSqr u)
    (hv : 0 < vec2.LengthSqr v) :
    vec2.Angle realOps (vec2.Normalize realOps u) (vec2.Normalize realOps v)
      = Real.arccos (vec2.Dot u v
          / (Real.sqrt (vec2.LengthSqr u) * Real.sqrt (vec2.LengthSqr v))) := by
  have hqu : 0 < Real.sqrt (vec2.LengthSqr u) := Real.sqrt_pos.2 hu
  have hqv : 0 < Real.sqrt (vec2.LengthSqr v) := Real.sqrt_pos.2 hv
  have hsu := Real.mul_self_sqrt hu.le
  have hsv := Real.mul_self_sqrt hv.le
  have hdot : vec2.Dot (vec2.Normalize realOps u) (vec2.Normalize realOps v)
      = vec2.Dot u v / (Real.sqrt (vec2.LengthSqr u) * Real.sqrt (vec2.LengthSqr v)) := by
    rw [real_normalize u hu, real_normalize v hv]
    simp only [vec2.Dot]
    field_simp
  -- Cauchy-Schwarz keeps the quotient in the domain of the arc cosine
  have hcs : vec2.Dot u v * vec2.Dot u v ≤ vec2.LengthSqr u * vec2.LengthSqr v := by
    simp only [vec2.Dot, vec2.LengthSqr]
    nlinarith [sq_nonneg (u.x * v.y - u.y * v.x)]
  have hq : 0 < Real.sqrt (vec2.LengthSqr u) * Real.sqrt (vec2.LengthSqr v) :=
    mul_pos hqu hqv
  have hqq : (Real.sqrt (vec2.LengthSqr u) * Real.sqrt (vec2.LengthSqr v))
      * (Real.sqrt (vec2.LengthSqr u) * Real.sqrt (vec2.LengthSqr v))
      = vec2.LengthSqr u * vec2.LengthSqr v := by
    calc _ = (Real.sqrt (vec2.LengthSqr u) * Real.sqrt (vec2.LengthSqr u))
          * (Real.sqrt (vec2.LengthSqr v) * Real.sqrt (vec2.LengthSqr v)) := by ring
      _ = _ := by rw [hsu, hsv]
  have habs : |vec2.Dot u v|
      ≤ Real.sqrt (vec2.LengthSqr u) * Real.sqrt (vec2.LengthSqr v) := by
    apply abs_le_of_sq_le_sq _ hq.le
    rw [sq, sq, hqq]
    exact hcs
  have hle : vec2.Dot u v / (Real.sqrt (vec2.LengthSqr u) * Real.sqrt (vec2.LengthSqr v))
      ≤ 1 := by
    rw [div_le_one hq]
    exact (le_abs_self _).trans habs
  have hge : -1 ≤ vec2.Dot u v
      / (Real.sqrt (vec2.LengthSqr u) * Real.sqrt (vec2.LengthSqr v)) := by
    rw [le_div_iff₀ hq]
    have := neg_abs_le (vec2.Dot u v)
    linarith
  unfold vec2.Angle vec2.Length
  simp only [real_lengthSqr_normalize u hu, real_lengthSqr_normalize v hv, hdot, realOps_sqrt,
    realOps_acos, Real.sqrt_one, mul_one, div_one, gt_iff_lt, not_lt.2 hle, not_lt.2 hge,
    if_false]

end SubdivideExample

section SubdivideExampleRun

theorem real_tolerance_45 : |45 * realOps.pi / 180| = Real.pi / 4 := by
  rw [realOps_pi, abs_of_nonneg (by positivity)]
  ring

theorem real_sqrt_two_sq : Real.sqrt 2 * Real.sqrt 2 = 2 :=
  Real.mul_self_sqrt (by norm_num)

/-- Two non-zero vectors whose dot product is negative, or has a square less
than half the product of the squared lengths, have normalised forms more than
45 degrees apart. -/
theorem sharp_of (u v : Vec2 ℝ) (hu : 0 < vec2.LengthSqr u) (hv : 0 < vec2.LengthSqr v)
    (h : vec2.Dot u v < 0 ∨
      2 * (vec2.Dot u v * vec2.Dot u v) < vec2.LengthSqr u * vec2.LengthSqr v) :
    |vec2.Angle realOps (vec2.Normalize realOps u) (vec2.Normalize realOps v)|
      > |45 * realOps.pi / 180| := by
  have hqu : 0 < Real.sqrt (vec2.LengthSqr u) := Real.sqrt_pos.2 hu
  have hqv : 0 < Real.sqrt (vec2.LengthSqr v) := Real.sqrt_pos.2 hv
  have hsu := Real.mul_self_sqrt hu.le
  have hsv := Real.mul_self_sqrt hv.le
  have hq : 0 < Real.sqrt (vec2.LengthSqr u) * Real.sqrt (vec2.LengthSqr v) :=
    mul_pos hqu hqv
  have hqq : (Real.sqrt (vec2.LengthSqr u) * Real.sqrt (vec2.LengthSqr v))
      * (Real.sqrt (vec2.LengthSqr u) * Real.sqrt (vec2.LengthSqr v))
      = vec2.LengthSqr u * vec2.LengthSqr v := by
    calc _ = (Real.sqrt (vec2.LengthSqr u) * Real.sqrt (vec2.LengthSqr u))
          * (Real.sqrt (vec2.LengthSqr v) * Real.sqrt (vec2.LengthSqr v)) := by ring
      _ = _ := by rw [hsu, hsv]
  have hs2 : 0 < Real.sqrt 2 := Real.sqrt_pos.2 (by norm_num)
  rw [real_angle_normalize u v hu hv, abs_of_nonneg (Real.arccos_nonneg _), real_tolerance_45,
    gt_iff_lt, ← not_le, Real.arccos_le_pi_div_four, not_le, div_lt_div_iff₀ hq two_pos]
  rcases h with h | h
  · nlinarith [mul_pos hs2 hq]
  · by_contra hc
    have hc1 : Real.sqrt 2
        * (Real.sqrt (vec2.LengthSqr u) * Real.sqrt (vec2.LengthSqr v))
        ≤ vec2.Dot u v * 2 := not_lt.1 hc
    have hsq := mul_self_le_mul_self (mul_pos hs2 hq).le hc1
    have hl : Real.sqrt 2 * (Real.sqrt (vec2.LengthSqr u) * Real.sqrt (vec2.LengthSqr v))
        * (Real.sqrt 2 * (Real.sqrt (vec2.LengthSqr u) * Real.sqrt (vec2.LengthSqr v)))
        = 2 * (vec2.LengthSqr u * vec2.LengthSqr v) := by
      calc _ = (Real.sqrt 2 * Real.sqrt 2)
            * ((Real.sqrt (vec2.LengthSqr u) * Real.sqrt (vec2.LengthSqr v))
              * (Real.sqrt (vec2.LengthSqr u) * Real.sqrt (vec2.LengthSqr v))) := by ring
        _ = _ := by rw [real_sqrt_two_sq, hqq]
    rw [hl] at hsq
    nlinarith

/-- Two non-zero vectors whose dot product is non-negative and has a square of
at least half the product of the squared lengths have normalised forms at most
45 degrees apart. -/
theorem not_sharp_of (u v : Vec2 ℝ) (hu : 0 < vec2.LengthSqr u)
    (hv : 0 < vec2.LengthSqr v)
    (h : 0 ≤ vec2.Dot u v ∧
      vec2.LengthSqr u * vec2.LengthSqr v ≤ 2 * (vec2.Dot u v * vec2.Dot u v)) :
    ¬ |vec2.Angle realOps (vec2.Normalize realOps u) (vec2.Normalize realOps v)|
      > |45 * realOps.pi / 180| := by
  have hqu : 0 < Real.sqrt (vec2.LengthSqr u) := Real.sqrt_pos.2 hu
  have hqv : 0 < Real.sqrt (vec2.LengthSqr v) := Real.sqrt_pos.2 hv
  have hsu := Real.mul_self_sqrt hu.le
  have hsv := Real.mul_self_sqrt hv.le
  have hq : 0 < Real.sqrt (vec2.LengthSqr u) * Real.sqrt (vec2.LengthSqr v) :=
    mul_pos hqu hqv
  have hqq : (Real.sqrt (vec2.LengthSqr u) * Real.sqrt (vec2.LengthSqr v))
      * (Real.sqrt (vec2.LengthSqr u) * Real.sqrt (vec2.LengthSqr v))
      = vec2.LengthSqr u * vec2.LengthSqr v := by
    calc _ = (Real.sqrt (vec2.LengthSqr u) * Real.sqrt (vec2.LengthSqr u))
          * (Real.sqrt (vec2.LengthSqr v) * Real.sqrt (vec2.LengthSqr v)) := by ring
      _ = _ := by rw [hsu, hsv]
  have hs2 : 0 < Real.sqrt 2 := Real.sqrt_pos.2 (by norm_num)
  rw [real_angle_normalize u v hu hv, abs_of_nonneg (Real.arccos_nonneg _), real_tolerance_45,
    gt_iff_lt, not_lt, Real.arccos_le_pi_div_four, div_le_div_iff₀ two_pos hq]
  by_contra hc
  have hc1 : vec2.Dot u v * 2
      < Real.sqrt 2 * (Real.sqrt (vec2.LengthSqr u) * Real.sqrt (vec2.LengthSqr v)) :=
    not_le.1 hc
  have hsq := mul_self_lt_mul_self (mul_nonneg h.1 two_pos.le) hc1
  have hl : Real.sqrt 2 * (Real.sqrt (vec2.LengthSqr u) * Real.sqrt (vec2.LengthSqr v))
      * (Real.sqrt 2 * (Real.sqrt (vec2.LengthSqr u) * Real.sqrt (vec2.LengthSqr v)))
      = 2 * (vec2.LengthSqr u * vec2.LengthSqr v) := by
    calc _ = (Real.sqrt 2 * Real.sqrt 2)
          * ((Real.sqrt (vec2.LengthSqr u) * Real.sqrt (vec2.LengthSqr v))
            * (Real.sqrt (vec2.LengthSqr u) * Real.sqrt (vec2.LengthSqr v))) := by ring
      _ = _ := by rw [real_sqrt_two_sq, hqq]
  rw [hl] at hsq
  nlinarith [h.2]

/-- The tangent of the curve of the tests, (0,0),(0,1),(2,1),(2,0). -/
theorem testCurve_Tangent (t : ℝ) :
    (NewCurve (⟨0, 0⟩ : Vec2 ℝ) ⟨0, 1⟩ ⟨2, 1⟩ ⟨2, 0⟩).Tangent t
      = ⟨12 * t * (1 - t), 3 * (1 - 2 * t)⟩ := by
  norm_num [NewCurve, Curve.Tangent, bezier2.Tangent, vec2.Add, vec2.Scale, vec2.Sub]
  constructor <;> ring

end SubdivideExampleRun

section SubdivideRun

variable {K : Type} [LinearOrderedField K]

theorem subdivideStep_at (ops : MathOps K) (s : Curve K) (maxRadians : K)
    (front : List K) (a b : K) (rest : List K) :
    Curve.subdivideStep ops s maxRadians (subdivideAt ops s front a (b :: rest))
      = if b - a < 1 / 100 then some (subdivideAt ops s (front ++ [a]) b rest)
        else if |vec2.Angle ops (s.NTangent ops a) (s.NTangent ops b)| > maxRadians then
          some (subdivideAt ops s front a ((1 / 2 * (a + b)) :: b :: rest))
        else some (subdivideAt ops s (front ++ [a]) b rest) := by
  have hlen : (front.map (s.NTangent ops)).length = front.length := by simp
  have hstep := subdivideStep_split ops s maxRadians front a b rest
    (front.map (s.NTangent ops)) (s.NTangent ops a) (s.NTangent ops b)
    (rest.map (s.NTangent ops)) hlen
  simp only [subdivideAt, List.map_append, List.map_cons, hstep, List.append_assoc,
    List.singleton_append, List.length_append, List.length_singleton]

theorem loop_insert (ops : MathOps K) (s : Curve K) (maxRadians : K) (n : ℕ)
    (front : List K) (a b : K) (rest : List K) (m : K)
    (hw : ¬ b - a < 1 / 100)
    (hs : |vec2.Angle ops (s.NTangent ops a) (s.NTangent ops b)| > maxRadians)
    (hm : 1 / 2 * (a + b) = m) :
    Curve.subdivideLoop ops s maxRadians (n + 1) (subdivideAt ops s front a (b :: rest))
      = Curve.subdivideLoop ops s maxRadians n (subdivideAt ops s front a (m :: b :: rest)) := by
  rw [Curve.subdivideLoop, subdivideStep_at, if_neg hw, if_pos hs, hm]

theorem loop_advance (ops : MathOps K) (s : Curve K) (maxRadians : K) (n : ℕ)
    (front : List K) (a b : K) (rest : List K)
    (hw : ¬ b - a < 1 / 100)
    (hs : ¬ |vec2.Angle ops (s.NTangent ops a) (s.NTangent ops b)| > maxRadians) :
    Curve.subdivideLoop ops s maxRadians (n + 1) (subdivideAt ops s front a (b :: rest))
      = Curve.subdivideLoop ops s maxRadians n (subdivideAt ops s (front ++ [a]) b rest) := by
  rw [Curve.subdivideLoop, subdivideStep_at, if_neg hw, if_neg hs]

theorem loop_exit (ops : MathOps K) (s : Curve K) (maxRadians : K) (n : ℕ)
    (front : List K) (a : K) :
    Curve.subdivideLoop ops s maxRadians (n + 1) (subdivideAt ops s front a [])
      = some (front ++ [a]) := by
  rw [Curve.subdivideLoop, subdivideAt, subdivideStep_last]

end SubdivideRun

section SubdivideExampleResult

theorem testCurve_sharp (a b : ℝ)
    (hu : 0 < vec2.LengthSqr (⟨12 * a * (1 - a), 3 * (1 - 2 * a)⟩ : Vec2 ℝ))
    (hv : 0 < vec2.LengthSqr (⟨12 * b * (1 - b), 3 * (1 - 2 * b)⟩ : Vec2 ℝ))
    (h : vec2.Dot (⟨12 * a * (1 - a), 3 * (1 - 2 * a)⟩ : Vec2 ℝ)
          ⟨12 * b * (1 - b), 3 * (1 - 2 * b)⟩ < 0 ∨
      2 * (vec2.Dot (⟨12 * a * (1 - a), 3 * (1 - 2 * a)⟩ : Vec2 ℝ)
            ⟨12 * b * (1 - b), 3 * (1 - 2 * b)⟩
          * vec2.Dot (⟨12 * a * (1 - a), 3 * (1 - 2 * a)⟩ : Vec2 ℝ)
            ⟨12 * b * (1 - b), 3 * (1 - 2 * b)⟩)
        < vec2.LengthSqr (⟨12 * a * (1 - a), 3 * (1 - 2 * a)⟩ : Vec2 ℝ)
          * vec2.LengthSqr (⟨12 * b * (1 - b), 3 * (1 - 2 * b)⟩ : Vec2 ℝ)) :
    |vec2.Angle realOps
        ((NewCurve (⟨0, 0⟩ : Vec2 ℝ) ⟨0, 1⟩ ⟨2, 1⟩ ⟨2, 0⟩).NTangent realOps a)
        ((NewCurve (⟨0, 0⟩ : Vec2 ℝ) ⟨0, 1⟩ ⟨2, 1⟩ ⟨2, 0⟩).NTangent realOps b)|
      > |45 * realOps.pi / 180| := by
  unfold Curve.NTangent
  rw [testCurve_Tangent, testCurve_Tangent]
  exact sharp_of _ _ hu hv h

theorem testCurve_not_sharp (a b : ℝ)
    (hu : 0 < vec2.LengthSqr (⟨12 * a * (1 - a), 3 * (1 - 2 * a)⟩ : Vec2 ℝ))
    (hv : 0 < vec2.LengthSqr (⟨12 * b * (1 - b), 3 * (1 - 2 * b)⟩ : Vec2 ℝ))
    (h : 0 ≤ vec2.Dot (⟨12 * a * (1 - a), 3 * (1 - 2 * a)⟩ : Vec2 ℝ)
          ⟨12 * b * (1 - b), 3 * (1 - 2 * b)⟩ ∧
      vec2.LengthSqr (⟨12 * a * (1 - a), 3 * (1 - 2 * a)⟩ : Vec2 ℝ)
          * vec2.LengthSqr (⟨12 * b * (1 - b), 3 * (1 - 2 * b)⟩ : Vec2 ℝ)
        ≤ 2 * (vec2.Dot (⟨12 * a * (1 - a), 3 * (1 - 2 * a)⟩ : Vec2 ℝ)
            ⟨12 * b * (1 - b), 3 * (1 - 2 * b)⟩
          * vec2.Dot (⟨12 * a * (1 - a), 3 * (1 - 2 * a)⟩ : Vec2 ℝ)
            ⟨12 * b * (1 - b), 3 * (1 - 2 * b)⟩)) :
    ¬ |vec2.Angle realOps
        ((NewCurve (⟨0, 0⟩ : Vec2 ℝ) ⟨0, 1⟩ ⟨2, 1⟩ ⟨2, 0⟩).NTangent realOps a)
        ((NewCurve (⟨0, 0⟩ : Vec2 ℝ) ⟨0, 1⟩ ⟨2, 1⟩ ⟨2, 0⟩).NTangent realOps b)|
      > |45 * realOps.pi / 180| := by
  unfold Curve.NTangent
  rw [testCurve_Tangent, testCurve_Tangent]
  exact not_sharp_of _ _ hu hv h

/-- C4: for the curve with control points (0,0),(0,1),(2,1),(2,0),
`Subdivide(45)` returns exactly `[0, 0.125, 0.25, 0.5, 0.75, 0.875, 1]`; the
loop ends after 11 iterations. -/
theorem subdivide_test_curve (fuel : ℕ) (hfuel : 11 ≤ fuel) :
    (NewCurve (⟨0, 0⟩ : Vec2 ℝ) ⟨0, 1⟩ ⟨2, 1⟩ ⟨2, 0⟩).Subdivide realOps 45 fuel
      = some [0, 1 / 8, 1 / 4, 1 / 2, 3 / 4, 7 / 8, 1] := by
  obtain ⟨n, rfl⟩ : ∃ n, fuel = n + 11 := ⟨fuel - 11, by omega⟩
  have start : (NewCurve (⟨0, 0⟩ : Vec2 ℝ) ⟨0, 1⟩ ⟨2, 1⟩ ⟨2, 0⟩).Subdivide realOps 45 (n + 11)
      = Curve.subdivideLoop realOps (NewCurve (⟨0, 0⟩ : Vec2 ℝ) ⟨0, 1⟩ ⟨2, 1⟩ ⟨2, 0⟩)
          |45 * realOps.pi / 180| (n + 11)
          (subdivideAt realOps (NewCurve (⟨0, 0⟩ : Vec2 ℝ) ⟨0, 1⟩ ⟨2, 1⟩ ⟨2, 0⟩)
            [] 0 [1 / 2, 1]) := rfl
  rw [start]
  calc Curve.subdivideLoop realOps _ |45 * realOps.pi / 180| (n + 11)
          (subdivideAt realOps _ [] 0 [1 / 2, 1])
      = Curve.subdivideLoop realOps _ |45 * realOps.pi / 180| (n + 10)
          (subdivideAt realOps _ [] 0 [1 / 4, 1 / 2, 1]) :=
        loop_insert _ _ _ (n + 10) [] 0 (1 / 2) [1] (1 / 4) (by norm_num)
          (testCurve_sharp 0 (1 / 2) (by norm_num [vec2.LengthSqr])
            (by norm_num [vec2.LengthSqr]) (by norm_num [vec2.LengthSqr, vec2.Dot]))
          (by norm_num)
    _ = Curve.subdivideLoop realOps _ |45 * realOps.pi / 180| (n + 9)
          (subdivideAt realOps _ [] 0 [1 / 8, 1 / 4, 1 / 2, 1]) :=
        loop_insert _ _ _ (n + 9) [] 0 (1 / 4) [1 / 2, 1] (1 / 8) (by norm_num)
          (testCurve_sharp 0 (1 / 4) (by norm_num [vec2.LengthSqr])
            (by norm_num [vec2.LengthSqr]) (by norm_num [vec2.LengthSqr, vec2.Dot]))
          (by norm_num)
    _ = Curve.subdivideLoop realOps _ |45 * realOps.pi / 180| (n + 8)
          (subdivideAt realOps _ [0] (1 / 8) [1 / 4, 1 / 2, 1]) :=
        loop_advance _ _ _ (n + 8) [] 0 (1 / 8) [1 / 4, 1 / 2, 1] (by norm_num)
          (testCurve_not_sharp 0 (1 / 8) (by norm_num [vec2.LengthSqr])
            (by norm_num [vec2.LengthSqr]) (by norm_num [vec2.LengthSqr, vec2.Dot]))
    _ = Curve.subdivideLoop realOps _ |45 * realOps.pi / 180| (n + 7)
          (subdivideAt realOps _ [0, 1 / 8] (1 / 4) [1 / 2, 1]) :=
        loop_advance _ _ _ (n + 7) [0] (1 / 8) (1 / 4) [1 / 2, 1] (by norm_num)
          (testCurve_not_sharp (1 / 8) (1 / 4) (by norm_num [vec2.LengthSqr])
            (by norm_num [vec2.LengthSqr]) (by norm_num [vec2.LengthSqr, vec2.Dot]))
    _ = Curve.subdivideLoop realOps _ |45 * realOps.pi / 180| (n + 6)
          (subdivideAt realOps _ [0, 1 / 8, 1 / 4] (1 / 2) [1]) :=
        loop_advance _ _ _ (n + 6) [0, 1 / 8] (1 / 4) (1 / 2) [1] (by norm_num)
          (testCurve_not_sharp (1 / 4) (1 / 2) (by norm_num [vec2.LengthSqr])
            (by norm_num [vec2.LengthSqr]) (by norm_num [vec2.LengthSqr, vec2.Dot]))
    _ = Curve.subdivideLoop realOps _ |45 * realOps.pi / 180| (n + 5)
          (subdivideAt realOps _ [0, 1 / 8, 1 / 4] (1 / 2) [3 / 4, 1]) :=
        loop_insert _ _ _ (n + 5) [0, 1 / 8, 1 / 4] (1 / 2) 1 [] (3 / 4) (by norm_num)
          (testCurve_sharp (1 / 2) 1 (by norm_num [vec2.LengthSqr])
            (by norm_num [vec2.LengthSqr]) (by norm_num [vec2.LengthSqr, vec2.Dot]))
          (by norm_num)
    _ = Curve.subdivideLoop realOps _ |45 * realOps.pi / 180| (n + 4)
          (subdivideAt realOps _ [0, 1 / 8, 1 / 4, 1 / 2] (3 / 4) [1]) :=
        loop_advance _ _ _ (n + 4) [0, 1 / 8, 1 / 4] (1 / 2) (3 / 4) [1] (by norm_num)
          (testCurve_not_sharp (1 / 2) (3 / 4) (by norm_num [vec2.LengthSqr])
            (by norm_num [vec2.LengthSqr]) (by norm_num [vec2.LengthSqr, vec2.Dot]))
    _ = Curve.subdivideLoop realOps _ |45 * realOps.pi / 180| (n + 3)
          (subdivideAt realOps _ [0, 1 / 8, 1 / 4, 1 / 2] (3 / 4) [7 / 8, 1]) :=
        loop_insert _ _ _ (n + 3) [0, 1 / 8, 1 / 4, 1 / 2] (3 / 4) 1 [] (7 / 8) (by norm_num)
          (testCurve_sharp (3 / 4) 1 (by norm_num [vec2.LengthSqr])
            (by norm_num [vec2.LengthSqr]) (by norm_num [vec2.LengthSqr, vec2.Dot]))
          (by norm_num)
    _ = Curve.subdivideLoop realOps _ |45 * realOps.pi / 180| (n + 2)
          (subdivideAt realOps _ [0, 1 / 8, 1 / 4, 1 / 2, 3 / 4] (7 / 8) [1]) :=
        loop_advance _ _ _ (n + 2) [0, 1 / 8, 1 / 4, 1 / 2] (3 / 4) (7 / 8) [1] (by norm_num)
          (testCurve_not_sharp (3 / 4) (7 / 8) (by norm_num [vec2.LengthSqr])
            (by norm_num [vec2.LengthSqr]) (by norm_num [vec2.LengthSqr, vec2.Dot]))
    _ = Curve.subdivideLoop realOps _ |45 * realOps.pi / 180| (n + 1)
          (subdivideAt realOps _ [0, 1 / 8, 1 / 4, 1 / 2, 3 / 4, 7 / 8] 1 []) :=
        loop_advance _ _ _ (n + 1) [0, 1 / 8, 1 / 4, 1 / 2, 3 / 4] (7 / 8) 1 [] (by norm_num)
          (testCurve_not_sharp (7 / 8) 1 (by norm_num [vec2.LengthSqr])
            (by norm_num [vec2.LengthSqr]) (by norm_num [vec2.LengthSqr, vec2.Dot]))
    _ = some [0, 1 / 8, 1 / 4, 1 / 2, 3 / 4, 7 / 8, 1] :=
        loop_exit _ _ _ n [0, 1 / 8, 1 / 4, 1 / 2, 3 / 4, 7 / 8] 1

/-- Witness of C4: 255 iterations of fuel, the bound that suffices for every
curve. -/
theorem subdivide_test_curve_witness :
    11 ≤ 255 ∧
    (NewCurve (⟨0, 0⟩ : Vec2 ℝ) ⟨0, 1⟩ ⟨2, 1⟩ ⟨2, 0⟩).Subdivide realOps 45 255
      = some [0, 1 / 8, 1 / 4, 1 / 2, 3 / 4, 7 / 8, 1] :=
  ⟨by norm_num, subdivide_test_curve 255 (by norm_num)⟩

end SubdivideExampleResult

/-! ## Tangents and normals -/

section TangentResults

theorem bezier_hasDerivAt (a b c d t : ℝ) :
    HasDerivAt
      (fun u : ℝ => a * ((1 - u) * (1 - u) * (1 - u)) + b * (3 * (1 - u) * (1 - u) * u)
        + c * (3 * (1 - u) * u * u) + d * (u * u * u))
      ((b - a) * (3 * (1 - t) * (1 - t)) + (c - b) * (6 * (1 - t) * t)
        + (d - c) * (3 * t * t)) t := by
  have h1 : HasDerivAt (fun u : ℝ => 1 - u) (-1) t := by
    simpa using (hasDerivAt_id t).const_sub 1
  have h2 : HasDerivAt (fun u : ℝ => u) 1 t := hasDerivAt_id t
  have h := ((((h1.mul h1).mul h1).const_mul a).add
      ((((h1.const_mul 3).mul h1).mul h2).const_mul b)).add
      ((((h1.const_mul 3).mul h2).mul h2).const_mul c) |>.add
      (((h2.mul h2).mul h2).const_mul d)
  convert h using 1
  ring

theorem line_hasDerivAt (a b t : ℝ) :
    HasDerivAt (fun u : ℝ => a * (1 - u) + b * u) (b - a) t := by
  have h1 : HasDerivAt (fun u : ℝ => 1 - u) (-1) t := by
    simpa using (hasDerivAt_id t).const_sub 1
  have h2 : HasDerivAt (fun u : ℝ => u) 1 t := hasDerivAt_id t
  have h := (h1.const_mul a).add (h2.const_mul b)
  convert h using 1
  ring

/-- C11: for every segment and every real `t`, `Tangent(t)` is the derivative
at `t` of `At`, component by component; a curve's `At` is the cubic Bezier
polynomial of its stored control points and its `Tangent` the stated formula; a
line has `At(t) = p0 + t (p1 - p0)` and `Tangent(t) = p1 - p0`; the curve
(0,0),(0,1),(2,1),(2,0) has `At(0.5) = (1, 0.75)` and `Tangent(0.5) = (3, 0)`,
the line (0,1)-(2,-1) has `At(0.5) = (1, 0)` and `Tangent(0.5) = (2, -2)`. -/
theorem tangent_is_derivative :
    (∀ (seg : T ℝ) (t : ℝ),
      HasDerivAt (fun u => (seg.At u).x) (seg.Tangent t).x t ∧
      HasDerivAt (fun u => (seg.At u).y) (seg.Tangent t).y t) ∧
    (∀ (s : Curve ℝ) (t : ℝ),
      s.At t = ⟨(1 - t) ^ 3 * s.spline.P0.x + 3 * (1 - t) ^ 2 * t * s.spline.P1.x
          + 3 * (1 - t) * t ^ 2 * s.spline.P2.x + t ^ 3 * s.spline.P3.x,
        (1 - t) ^ 3 * s.spline.P0.y + 3 * (1 - t) ^ 2 * t * s.spline.P1.y
          + 3 * (1 - t) * t ^ 2 * s.spline.P2.y + t ^ 3 * s.spline.P3.y⟩ ∧
      s.Tangent t = ⟨3 * (1 - t) ^ 2 * (s.spline.P1.x - s.spline.P0.x)
          + 6 * (1 - t) * t * (s.spline.P2.x - s.spline.P1.x)
          + 3 * t ^ 2 * (s.spline.P3.x - s.spline.P2.x),
        3 * (1 - t) ^ 2 * (s.spline.P1.y - s.spline.P0.y)
          + 6 * (1 - t) * t * (s.spline.P2.y - s.spline.P1.y)
          + 3 * t ^ 2 * (s.spline.P3.y - s.spline.P2.y)⟩) ∧
    (∀ (l : Line ℝ) (t : ℝ),
      l.At t = ⟨l.p0.x + t * (l.p1.x - l.p0.x), l.p0.y + t * (l.p1.y - l.p0.y)⟩ ∧
      l.Tangent t = ⟨l.p1.x - l.p0.x, l.p1.y - l.p0.y⟩) ∧
    (NewCurve (⟨0, 0⟩ : Vec2 ℝ) ⟨0, 1⟩ ⟨2, 1⟩ ⟨2, 0⟩).At (1 / 2) = ⟨1, 3 / 4⟩ ∧
    (NewCurve (⟨0, 0⟩ : Vec2 ℝ) ⟨0, 1⟩ ⟨2, 1⟩ ⟨2, 0⟩).Tangent (1 / 2) = ⟨3, 0⟩ ∧
    (NewLine (⟨0, 1⟩ : Vec2 ℝ) ⟨2, -1⟩).At (1 / 2) = ⟨1, 0⟩ ∧
    (NewLine (⟨0, 1⟩ : Vec2 ℝ) ⟨2, -1⟩).Tangent (1 / 2) = ⟨2, -2⟩ := by
  refine ⟨?_, ?_, ?_, ?_, ?_, ?_, ?_⟩
  · intro seg t
    cases seg with
    | line l =>
      exact ⟨line_hasDerivAt l.p0.x l.p1.x t, line_hasDerivAt l.p0.y l.p1.y t⟩
    | curve s =>
      constructor
      · have h := bezier_hasDerivAt s.spline.P0.x s.spline.P1.x s.spline.P2.x
          s.spline.P3.x t
        have hf : (fun u => ((T.curve s).At u).x) = (fun u : ℝ =>
            s.spline.P0.x * ((1 - u) * (1 - u) * (1 - u))
              + s.spline.P1.x * (3 * (1 - u) * (1 - u) * u)
              + s.spline.P2.x * (3 * (1 - u) * u * u) + s.spline.P3.x * (u * u * u)) := rfl
        rw [hf]
        exact h
      · have h := bezier_hasDerivAt s.spline.P0.y s.spline.P1.y s.spline.P2.y
          s.spline.P3.y t
        have hf : (fun u => ((T.curve s).At u).y) = (fun u : ℝ =>
            s.spline.P0.y * ((1 - u) * (1 - u) * (1 - u))
              + s.spline.P1.y * (3 * (1 - u) * (1 - u) * u)
              + s.spline.P2.y * (3 * (1 - u) * u * u) + s.spline.P3.y * (u * u * u)) := rfl
        rw [hf]
        exact h
  · intro s t
    simp only [Curve.At, Curve.Tangent, bezier2.Point, bezier2.Tangent, vec2.Add, vec2.Scale,
      vec2.Sub, Vec2.mk.injEq]
    refine ⟨⟨?_, ?_⟩, ⟨?_, ?_⟩⟩ <;> ring
  · intro l t
    refine ⟨?_, rfl⟩
    simp only [Line.At, vec2.Interpolate, Vec2.mk.injEq]
    constructor <;> ring
  · norm_num [NewCurve, Curve.At, bezier2.Point, vec2.Add, vec2.Scale]
  · norm_num [NewCurve, Curve.Tangent, bezier2.Tangent, vec2.Add, vec2.Scale, vec2.Sub]
  · norm_num [NewLine, Line.At, vec2.Interpolate]
  · norm_num [NewLine, Line.Tangent, vec2.Sub]

end TangentResults

section NormalResults

theorem real_lengthSqr_pos (v : Vec2 ℝ) (h : v ≠ ⟨0, 0⟩) : 0 < vec2.LengthSqr v := by
  rcases lt_or_eq_of_le (real_lengthSqr_nonneg v) with hp | hz
  · exact hp
  · exfalso
    apply h
    have hx : v.x * v.x = 0 := by
      have h1 := mul_self_nonneg v.x
      have h2 := mul_self_nonneg v.y
      have h3 : v.x * v.x + v.y * v.y = 0 := hz.symm
      linarith
    have hy : v.y * v.y = 0 := by
      have h3 : v.x * v.x + v.y * v.y = 0 := hz.symm
      linarith
    cases v with
    | mk x y =>
      simp only [mul_self_eq_zero] at hx hy
      simp [hx, hy]

/-- Over the reals, for a non-zero vector `v`: `Rotate90DegLeft` is `(-v.y, v.x)`,
the normalised `v` and the normalised rotated `v` have length 1, and the latter
is perpendicular to `v`. -/
theorem real_unit_normal (v : Vec2 ℝ) (h : v ≠ ⟨0, 0⟩) :
    vec2.Rotate90DegLeft v = ⟨-v.y, v.x⟩ ∧
    vec2.Length realOps (vec2.Normalize realOps v) = 1 ∧
    vec2.Length realOps (vec2.Normalize realOps (vec2.Rotate90DegLeft v)) = 1 ∧
    vec2.Dot (vec2.Normalize realOps (vec2.Rotate90DegLeft v)) v = 0 := by
  have hv := real_lengthSqr_pos v h
  have hr : vec2.LengthSqr (vec2.Rotate90DegLeft v) = vec2.LengthSqr v := by
    simp only [vec2.LengthSqr, vec2.Rotate90DegLeft]
    ring
  have hrp : 0 < vec2.LengthSqr (vec2.Rotate90DegLeft v) := hr ▸ hv
  refine ⟨rfl, ?_, ?_, ?_⟩
  · rw [vec2.Length, real_lengthSqr_normalize v hv, realOps_sqrt, Real.sqrt_one]
  · rw [vec2.Length, real_lengthSqr_normalize _ hrp, realOps_sqrt, Real.sqrt_one]
  · rw [real_normalize _ hrp]
    simp only [vec2.Dot, vec2.Rotate90DegLeft]
    ring

theorem real_sqrt_eight : Real.sqrt 8 = 2 * Real.sqrt 2 := by
  have h : (8 : ℝ) = 2 ^ 2 * 2 := by norm_num
  rw [h, Real.sqrt_mul (by positivity), Real.sqrt_sq (by norm_num)]

/-- Over the reals, for a non-zero vector `v`: its length is positive,
`Normalize` divides `v` by its length, and the normalised `Rotate90DegLeft v`
is `(-v.y, v.x)` divided by the length of `v`. -/
theorem real_left_normal (v : Vec2 ℝ) (h : v ≠ ⟨0, 0⟩) :
    0 < vec2.Length realOps v ∧
    vec2.Normalize realOps v
      = ⟨v.x / vec2.Length realOps v, v.y / vec2.Length realOps v⟩ ∧
    vec2.Normalize realOps (vec2.Rotate90DegLeft v)
      = ⟨-v.y / vec2.Length realOps v, v.x / vec2.Length realOps v⟩ := by
  have hv := real_lengthSqr_pos v h
  have hr : vec2.LengthSqr (vec2.Rotate90DegLeft v) = vec2.LengthSqr v := by
    simp only [vec2.LengthSqr, vec2.Rotate90DegLeft]
    ring
  have hrp : 0 < vec2.LengthSqr (vec2.Rotate90DegLeft v) := hr ▸ hv
  refine ⟨?_, ?_, ?_⟩
  · rw [vec2.Length, realOps_sqrt]
    exact Real.sqrt_pos.2 hv
  · rw [real_normalize v hv, vec2.Length, realOps_sqrt]
  · rw [real_normalize _ hrp, hr, vec2.Length, realOps_sqrt]
    rfl

/-- C12: for every segment and every `t` at which `Tangent(t)` is not the zero
vector, `Normal(t)` is `(-Ty, Tx)` for `Tangent(t) = (Tx, Ty)`, `NTangent(t)`
and `NNormal(t)` both have length 1, and `NNormal(t)` is perpendicular to
`Tangent(t)`; moreover the length `L` of `Tangent(t)` is positive,
`NTangent(t)` is `(Tx / L, Ty / L)` and `NNormal(t)` is `(-Ty / L, Tx / L)`, so
that `NNormal(t)` is `Normal(t)` scaled by the positive factor `1 / L`: the
unit normal on the left of the tangent, not the one on its right. -/
theorem unit_left_normal (seg : T ℝ) (t : ℝ) (h : seg.Tangent t ≠ ⟨0, 0⟩) :
    seg.Normal t = ⟨-(seg.Tangent t).y, (seg.Tangent t).x⟩ ∧
    vec2.Length realOps (seg.NTangent realOps t) = 1 ∧
    vec2.Length realOps (seg.NNormal realOps t) = 1 ∧
    vec2.Dot (seg.NNormal realOps t) (seg.Tangent t) = 0 ∧
    0 < vec2.Length realOps (seg.Tangent t) ∧
    seg.NTangent realOps t
      = ⟨(seg.Tangent t).x / vec2.Length realOps (seg.Tangent t),
          (seg.Tangent t).y / vec2.Length realOps (seg.Tangent t)⟩ ∧
    seg.NNormal realOps t
      = ⟨-(seg.Tangent t).y / vec2.Length realOps (seg.Tangent t),
          (seg.Tangent t).x / vec2.Length realOps (seg.Tangent t)⟩ := by
  cases seg with
  | line l =>
    obtain ⟨h1, h2, h3, h4⟩ := real_unit_normal (l.Tangent t) h
    obtain ⟨h5, h6, h7⟩ := real_left_normal (l.Tangent t) h
    exact ⟨h1, h2, h3, h4, h5, h6, h7⟩
  | curve c =>
    obtain ⟨h1, h2, h3, h4⟩ := real_unit_normal (c.Tangent t) h
    obtain ⟨h5, h6, h7⟩ := real_left_normal (c.Tangent t) h
    exact ⟨h1, h2, h3, h4, h5, h6, h7⟩

/-- Witness of C12: the line (0,1)-(2,-1) has `Normal = (2,2)` and
`NNormal = (sqrt 2 / 2, sqrt 2 / 2)`; the curve (0,0),(0,1),(2,1),(2,0) has
`Normal(0.5) = (0,3)` and `NNormal(0.5) = (0,1)`. -/
theorem unit_left_normal_witness :
    (T.line (NewLine (⟨0, 1⟩ : Vec2 ℝ) ⟨2, -1⟩)).Tangent (1 / 2) ≠ ⟨0, 0⟩ ∧
    ((T.line (NewLine (⟨0, 1⟩ : Vec2 ℝ) ⟨2, -1⟩)).Normal (1 / 2) = ⟨2, 2⟩ ∧
      vec2.Length realOps ((T.line (NewLine (⟨0, 1⟩ : Vec2 ℝ) ⟨2, -1⟩)).NTangent realOps
        (1 / 2)) = 1 ∧
      vec2.Length realOps ((T.line (NewLine (⟨0, 1⟩ : Vec2 ℝ) ⟨2, -1⟩)).NNormal realOps
        (1 / 2)) = 1 ∧
      vec2.Dot ((T.line (NewLine (⟨0, 1⟩ : Vec2 ℝ) ⟨2, -1⟩)).NNormal realOps (1 / 2))
        ((T.line (NewLine (⟨0, 1⟩ : Vec2 ℝ) ⟨2, -1⟩)).Tangent (1 / 2)) = 0 ∧
      0 < vec2.Length realOps ((T.line (NewLine (⟨0, 1⟩ : Vec2 ℝ) ⟨2, -1⟩)).Tangent (1 / 2)) ∧
      (T.line (NewLine (⟨0, 1⟩ : Vec2 ℝ) ⟨2, -1⟩)).NTangent realOps (1 / 2)
        = ⟨((T.line (NewLine (⟨0, 1⟩ : Vec2 ℝ) ⟨2, -1⟩)).Tangent (1 / 2)).x
            / vec2.Length realOps
              ((T.line (NewLine (⟨0, 1⟩ : Vec2 ℝ) ⟨2, -1⟩)).Tangent (1 / 2)),
          ((T.line (NewLine (⟨0, 1⟩ : Vec2 ℝ) ⟨2, -1⟩)).Tangent (1 / 2)).y
            / vec2.Length realOps
              ((T.line (NewLine (⟨0, 1⟩ : Vec2 ℝ) ⟨2, -1⟩)).Tangent (1 / 2))⟩ ∧
      (T.line (NewLine (⟨0, 1⟩ : Vec2 ℝ) ⟨2, -1⟩)).NNormal realOps (1 / 2)
        = ⟨-((T.line (NewLine (⟨0, 1⟩ : Vec2 ℝ) ⟨2, -1⟩)).Tangent (1 / 2)).y
            / vec2.Length realOps
              ((T.line (NewLine (⟨0, 1⟩ : Vec2 ℝ) ⟨2, -1⟩)).Tangent (1 / 2)),
          ((T.line (NewLine (⟨0, 1⟩ : Vec2 ℝ) ⟨2, -1⟩)).Tangent (1 / 2)).x
            / vec2.Length realOps
              ((T.line (NewLine (⟨0, 1⟩ : Vec2 ℝ) ⟨2, -1⟩)).Tangent (1 / 2))⟩) ∧
    (T.line (NewLine (⟨0, 1⟩ : Vec2 ℝ) ⟨2, -1⟩)).NNormal realOps (1 / 2)
      = ⟨Real.sqrt 2 / 2, Real.sqrt 2 / 2⟩ ∧
    (T.curve (NewCurve (⟨0, 0⟩ : Vec2 ℝ) ⟨0, 1⟩ ⟨2, 1⟩ ⟨2, 0⟩)).Normal (1 / 2) = ⟨0, 3⟩ ∧
    (T.curve (NewCurve (⟨0, 0⟩ : Vec2 ℝ) ⟨0, 1⟩ ⟨2, 1⟩ ⟨2, 0⟩)).NNormal realOps (1 / 2)
      = ⟨0, 1⟩ := by
  have htan : (T.line (NewLine (⟨0, 1⟩ : Vec2 ℝ) ⟨2, -1⟩)).Tangent (1 / 2) = ⟨2, -2⟩ := by
    norm_num [T.Tangent, NewLine, Line.Tangent, vec2.Sub]
  have hne : (T.line (NewLine (⟨0, 1⟩ : Vec2 ℝ) ⟨2, -1⟩)).Tangent (1 / 2) ≠ ⟨0, 0⟩ := by
    rw [htan]
    simp
  have h := unit_left_normal (T.line (NewLine (⟨0, 1⟩ : Vec2 ℝ) ⟨2, -1⟩)) (1 / 2) hne
  have hs2 : Real.sqrt 2 * Real.sqrt 2 = 2 := real_sqrt_two_sq
  have hs2pos : 0 < Real.sqrt 2 := Real.sqrt_pos.2 (by norm_num)
  refine ⟨hne, ⟨?_, h.2⟩, ?_, ?_, ?_⟩
  · rw [h.1, htan]
    norm_num
  · have hn : (T.line (NewLine (⟨0, 1⟩ : Vec2 ℝ) ⟨2, -1⟩)).NNormal realOps (1 / 2)
        = vec2.Normalize realOps ⟨2, 2⟩ := by
      norm_num [T.NNormal, Line.NNormal, Line.Normal, Line.Tangent, NewLine,
        vec2.Rotate90DegLeft, vec2.Sub]
    have hl : vec2.LengthSqr (⟨2, 2⟩ : Vec2 ℝ) = 8 := by norm_num [vec2.LengthSqr]
    rw [hn, real_normalize _ (by rw [hl]; norm_num), hl, real_sqrt_eight]
    have hq : (2 : ℝ) / (2 * Real.sqrt 2) = Real.sqrt 2 / 2 := by
      field_simp
      linarith
    rw [hq]
  · norm_num [T.Normal, Curve.Normal, NewCurve, Curve.Tangent, bezier2.Tangent, vec2.Add,
      vec2.Scale, vec2.Sub, vec2.Rotate90DegLeft]
  · have hn : (T.curve (NewCurve (⟨0, 0⟩ : Vec2 ℝ) ⟨0, 1⟩ ⟨2, 1⟩ ⟨2, 0⟩)).NNormal realOps
        (1 / 2) = vec2.Normalize realOps ⟨0, 3⟩ := by
      norm_num [T.NNormal, Curve.NNormal, Curve.Normal, NewCurve, Curve.Tangent,
        bezier2.Tangent, vec2.Add, vec2.Scale, vec2.Sub, vec2.Rotate90DegLeft]
    have hl : vec2.LengthSqr (⟨0, 3⟩ : Vec2 ℝ) = 9 := by norm_num [vec2.LengthSqr]
    have h9 : Real.sqrt 9 = 3 := by
      have h : (9 : ℝ) = 3 ^ 2 := by norm_num
      rw [h, Real.sqrt_sq (by norm_num)]
    rw [hn, real_normalize _ (by rw [hl]; norm_num), hl, h9]
    norm_num

end NormalResults

/-! ## `SubPath` -/

section SubPathResults

variable {K : Type} [LinearOrderedField K]

theorem subpath_autoflip_flag (ops : MathOps K) (s : SubPath K) :
    (s.AutoFlipNormals ops).FlipNormals
      = (s.FlipNormals || !(s.BBox.Contains (SubPath.flippedBBox ops s))) := by
  unfold SubPath.AutoFlipNormals
  by_cases h : s.BBox.Contains (SubPath.flippedBBox ops s) = true
  · simp [h]
  · simp [h]

theorem subpath_autoflip_segments (ops : MathOps K) (s : SubPath K) :
    (s.AutoFlipNormals ops).Segments = s.Segments := by
  unfold SubPath.AutoFlipNormals
  by_cases h : s.BBox.Contains (SubPath.flippedBBox ops s) = true
  · simp [h]
  · simp [h]

/-- C16: `SubPath.AutoFlipNormals` never clears the flag (`FlipNormals` is true
after the call if it was true before), and running it twice leaves the subpath
that running it once leaves, in particular the same `FlipNormals`. -/
theorem subpath_autoflip_idempotent (ops : MathOps K) (s : SubPath K) :
    (s.FlipNormals = true → (s.AutoFlipNormals ops).FlipNormals = true) ∧
    ((s.AutoFlipNormals ops).AutoFlipNormals ops).FlipNormals
      = (s.AutoFlipNormals ops).FlipNormals ∧
    (s.AutoFlipNormals ops).AutoFlipNormals ops = s.AutoFlipNormals ops := by
  have hb : (s.AutoFlipNormals ops).BBox = s.BBox := by
    unfold SubPath.BBox
    rw [subpath_autoflip_segments]
  have hf : SubPath.flippedBBox ops (s.AutoFlipNormals ops) = SubPath.flippedBBox ops s := by
    unfold SubPath.flippedBBox
    rw [subpath_autoflip_segments, hb]
  have hflag : ((s.AutoFlipNormals ops).AutoFlipNormals ops).FlipNormals
      = (s.AutoFlipNormals ops).FlipNormals := by
    rw [subpath_autoflip_flag ops (s.AutoFlipNormals ops), hb, hf, subpath_autoflip_flag]
    cases s.FlipNormals <;> cases s.BBox.Contains (SubPath.flippedBBox ops s) <;> rfl
  refine ⟨?_, hflag, ?_⟩
  · intro h
    rw [subpath_autoflip_flag, h]
    rfl
  · have hstep : ∀ u : SubPath K, u.AutoFlipNormals ops
        = { u with FlipNormals := (u.AutoFlipNormals ops).FlipNormals } := by
      intro u
      unfold SubPath.AutoFlipNormals
      by_cases h : u.BBox.Contains (SubPath.flippedBBox ops u) = true
      · simp [h]
      · simp [h]
    rw [hstep (s.AutoFlipNormals ops), hflag]

theorem T.wall_some (ops : MathOps K) (seg : T K) (height maxDegrees : K)
    (flipNormals : Bool) (fuel : ℕ) (hfuel : 255 ≤ fuel) :
    ∃ w, seg.Wall ops height maxDegrees flipNormals fuel = some w := by
  cases seg with
  | line l => exact ⟨_, rfl⟩
  | curve c =>
    obtain ⟨out, ho, _⟩ := subdivide_spec ops c maxDegrees fuel hfuel
    exact ⟨_, curve_wall_eq ops c height maxDegrees flipNormals fuel _ ho⟩

theorem subpath_wallLoop_eq (ops : MathOps K) (height maxDegrees : K) (flipNormals : Bool)
    (fuel : ℕ) (f : T K → List (Triangle3D K) × List (Vec2 K))
    (hf : ∀ seg, seg.Wall ops height maxDegrees flipNormals fuel = some (f seg)) :
    ∀ (segs : List (T K)) (acc : List (Triangle3D K) × List (Vec2 K)),
      SubPath.wallLoop ops height maxDegrees flipNormals fuel segs acc
        = some (acc.1 ++ segs.flatMap (fun seg => (f seg).1),
            acc.2 ++ segs.flatMap (fun seg => (f seg).2))
  | [], acc => by simp [SubPath.wallLoop]
  | seg :: rest, acc => by
    rw [SubPath.wallLoop, hf seg]
    simp only
    rw [subpath_wallLoop_eq ops height maxDegrees flipNormals fuel f hf rest]
    simp

/-- C20: `SubPath.Wall` sets `FloorZ` to 0, returns the concatenation in ring
order of each segment's `Wall` triangles (computed with the subpath's
`FlipNormals`), and leaves `FloorPts` equal to its contents before the call
followed by the concatenation in ring order of each segment's floor-contour
points; the other fields are unchanged, so a second call appends the contour a
second time. -/
theorem subpath_wall_appends (ops : MathOps K) (s : SubPath K) (height maxDegrees : K)
    (fuel : ℕ) (hfuel : 255 ≤ fuel) :
    ∃ (f : T K → List (Triangle3D K) × List (Vec2 K)) (s1 s2 : SubPath K),
      (∀ seg, seg.Wall ops height maxDegrees s.FlipNormals fuel = some (f seg)) ∧
      s.Wall ops height maxDegrees fuel
        = some (s.Segments.flatMap (fun seg => (f seg).1), s1) ∧
      s1.FloorZ = 0 ∧
      s1.FloorPts = s.FloorPts ++ s.Segments.flatMap (fun seg => (f seg).2) ∧
      s1.Segments = s.Segments ∧ s1.FlipNormals = s.FlipNormals ∧
      s1.IsOuter = s.IsOuter ∧ s1.BevelPts = s.BevelPts ∧ s1.BevelZ = s.BevelZ ∧
      s1.Wall ops height maxDegrees fuel
        = some (s.Segments.flatMap (fun seg => (f seg).1), s2) ∧
      s2.FloorPts = s.FloorPts ++ s.Segments.flatMap (fun seg => (f seg).2)
        ++ s.Segments.flatMap (fun seg => (f seg).2) := by
  have hex : ∀ seg : T K, ∃ w, seg.Wall ops height maxDegrees s.FlipNormals fuel = some w :=
    fun seg => T.wall_some ops seg height maxDegrees s.FlipNormals fuel hfuel
  choose f hf using hex
  have hloop := subpath_wallLoop_eq ops height maxDegrees s.FlipNormals fuel f hf
  refine ⟨f,
    { s with
      FloorZ := 0
      FloorPts := s.FloorPts ++ s.Segments.flatMap (fun seg => (f seg).2) },
    { s with
      FloorZ := 0
      FloorPts := s.FloorPts ++ s.Segments.flatMap (fun seg => (f seg).2)
        ++ s.Segments.flatMap (fun seg => (f seg).2) },
    hf, ?_, ?_, ?_, ?_, ?_, ?_, ?_, ?_, ?_, ?_⟩
  · simp only [SubPath.Wall, hloop, List.nil_append]
  · rfl
  · rfl
  · rfl
  · rfl
  · rfl
  · rfl
  · rfl
  · simp only [SubPath.Wall, hloop, List.nil_append]
  · rfl

/-- Witness of C20: the subpath made of the line (0,0)-(1,0), wall height 4. -/
theorem subpath_wall_appends_witness :
    255 ≤ 255 ∧
    ∃ (f : T ℝ → List (Triangle3D ℝ) × List (Vec2 ℝ)) (s1 s2 : SubPath ℝ),
      (∀ seg, seg.Wall realOps 4 1
          (⟨[T.line (NewLine ⟨0, 0⟩ ⟨1, 0⟩)], false, false, [], 0, [], 0⟩ :
            SubPath ℝ).FlipNormals 255 = some (f seg)) ∧
      (⟨[T.line (NewLine ⟨0, 0⟩ ⟨1, 0⟩)], false, false, [], 0, [], 0⟩ : SubPath ℝ).Wall
          realOps 4 1 255
        = some ((⟨[T.line (NewLine ⟨0, 0⟩ ⟨1, 0⟩)], false, false, [], 0, [], 0⟩ :
            SubPath ℝ).Segments.flatMap (fun seg => (f seg).1), s1) ∧
      s1.FloorZ = 0 ∧
      s1.FloorPts
        = (⟨[T.line (NewLine ⟨0, 0⟩ ⟨1, 0⟩)], false, false, [], 0, [], 0⟩ :
            SubPath ℝ).FloorPts
          ++ (⟨[T.line (NewLine ⟨0, 0⟩ ⟨1, 0⟩)], false, false, [], 0, [], 0⟩ :
            SubPath ℝ).Segments.flatMap (fun seg => (f seg).2) ∧
      s1.Segments
        = (⟨[T.line (NewLine ⟨0, 0⟩ ⟨1, 0⟩)], false, false, [], 0, [], 0⟩ :
            SubPath ℝ).Segments ∧
      s1.FlipNormals
        = (⟨[T.line (NewLine ⟨0, 0⟩ ⟨1, 0⟩)], false, false, [], 0, [], 0⟩ :
            SubPath ℝ).FlipNormals ∧
      s1.IsOuter
        = (⟨[T.line (NewLine ⟨0, 0⟩ ⟨1, 0⟩)], false, false, [], 0, [], 0⟩ :
            SubPath ℝ).IsOuter ∧
      s1.BevelPts
        = (⟨[T.line (NewLine ⟨0, 0⟩ ⟨1, 0⟩)], false, false, [], 0, [], 0⟩ :
            SubPath ℝ).BevelPts ∧
      s1.BevelZ
        = (⟨[T.line (NewLine ⟨0, 0⟩ ⟨1, 0⟩)], false, false, [], 0, [], 0⟩ :
            SubPath ℝ).BevelZ ∧
      s1.Wall realOps 4 1 255
        = some ((⟨[T.line (NewLine ⟨0, 0⟩ ⟨1, 0⟩)], false, false, [], 0, [], 0⟩ :
            SubPath ℝ).Segments.flatMap (fun seg => (f seg).1), s2) ∧
      s2.FloorPts
        = (⟨[T.line (NewLine ⟨0, 0⟩ ⟨1, 0⟩)], false, false, [], 0, [], 0⟩ :
            SubPath ℝ).FloorPts
          ++ (⟨[T.line (NewLine ⟨0, 0⟩ ⟨1, 0⟩)], false, false, [], 0, [], 0⟩ :
            SubPath ℝ).Segments.flatMap (fun seg => (f seg).2)
          ++ (⟨[T.line (NewLine ⟨0, 0⟩ ⟨1, 0⟩)], false, false, [], 0, [], 0⟩ :
            SubPath ℝ).Segments.flatMap (fun seg => (f seg).2) :=
  ⟨le_refl _, subpath_wall_appends realOps _ 4 1 255 (le_refl _)⟩

end SubPathResults

/-! ## `Path.AutoFlipNormals` -/

section PathFlipResults

variable {K : Type} [LinearOrderedField K]

theorem subpath_autoflip_clearFlags (ops : MathOps K) (s : SubPath K) :
    (s.AutoFlipNormals ops).clearFlags = s.clearFlags := by
  unfold SubPath.AutoFlipNormals
  by_cases h : s.BBox.Contains (SubPath.flippedBBox ops s) = true
  · simp [h]
  · simp [h, SubPath.clearFlags]

theorem subpath_autoflip_isOuter (ops : MathOps K) (s : SubPath K) :
    (s.AutoFlipNormals ops).IsOuter = s.IsOuter := by
  unfold SubPath.AutoFlipNormals
  by_cases h : s.BBox.Contains (SubPath.flippedBBox ops s) = true
  · simp [h]
  · simp [h]

/-- C18: for a non-empty path, with `sort.Sort` returning a permutation of the
subpaths in which no later subpath has a larger box than an earlier one,
`Path.AutoFlipNormals` leaves the subpaths in that order, the same up to the two
flags, hence ordered by non-increasing bounding-box area; `SubPaths[0].IsOuter`
is true; if `SubPaths[0].FlipNormals` is true then `FlipNormals` is true on every
subpath, and if it is false every other subpath is as it was. -/
theorem path_autoflip (ops : MathOps K) (sortFn : List (SubPath K) → List (SubPath K))
    (p : Path K) (hne : p.SubPaths ≠ [])
    (hperm : (sortFn p.SubPaths).Perm p.SubPaths)
    (hsorted : (sortFn p.SubPaths).Pairwise (fun a b => ¬ byBBoxArea.Less b a)) :
    ∃ sp0 rest first others,
      (sp0 :: rest).Perm p.SubPaths ∧
      (p.AutoFlipNormals ops sortFn).SubPaths = first :: others ∧
      (first :: others).map SubPath.clearFlags = (sp0 :: rest).map SubPath.clearFlags ∧
      (first :: others).Pairwise (fun a b => b.BBox.Area ≤ a.BBox.Area) ∧
      first.IsOuter = true ∧
      (first.FlipNormals = true → ∀ sp ∈ first :: others, sp.FlipNormals = true) ∧
      (first.FlipNormals = false → others = rest) := by
  have hlen : ¬ p.SubPaths.length = 0 := by
    intro h
    exact hne (List.length_eq_zero.1 h)
  cases hs : sortFn p.SubPaths with
  | nil =>
    rw [hs] at hperm
    exact absurd (List.Perm.nil_eq hperm) (fun h => hne h.symm)
  | cons sp0 rest =>
    rw [hs] at hperm hsorted
    have hflags : ((({ sp0 with IsOuter := true } : SubPath K).AutoFlipNormals ops)).clearFlags
        = sp0.clearFlags := by
      rw [subpath_autoflip_clearFlags]
      rfl
    have houter : ((({ sp0 with IsOuter := true } : SubPath K).AutoFlipNormals ops)).IsOuter
        = true := by
      rw [subpath_autoflip_isOuter]
    have harea : (sp0 :: rest).Pairwise (fun a b => b.BBox.Area ≤ a.BBox.Area) :=
      hsorted.imp (fun h => not_lt.1 h)
    have hmapflags : ∀ l : List (SubPath K),
        (l.map (fun sp : SubPath K => { sp with FlipNormals := true })).map SubPath.clearFlags
          = l.map SubPath.clearFlags := by
      intro l
      rw [List.map_map]
      rfl
    have key : ∀ (first : SubPath K) (others : List (SubPath K)),
        (first :: others).map SubPath.clearFlags = (sp0 :: rest).map SubPath.clearFlags →
        (first :: others).Pairwise (fun a b => b.BBox.Area ≤ a.BBox.Area) := by
      intro first others hmap
      have hb : (first :: others).map SubPath.BBox = (sp0 :: rest).map SubPath.BBox := by
        have h1 : ∀ l : List (SubPath K),
            l.map SubPath.BBox = (l.map SubPath.clearFlags).map SubPath.BBox := by
          intro l
          rw [List.map_map]
          rfl
        rw [h1, hmap, ← h1]
      have hp : ((sp0 :: rest).map SubPath.BBox).Pairwise
          (fun a b : Rect K => b.Area ≤ a.Area) := List.pairwise_map.2 harea
      rw [← hb] at hp
      exact List.pairwise_map.1 hp
    by_cases hf : (({ sp0 with IsOuter := true } : SubPath K).AutoFlipNormals ops).FlipNormals
        = true
    · have hmap : ((({ sp0 with IsOuter := true } : SubPath K).AutoFlipNormals ops)
            :: rest.map (fun sp : SubPath K => { sp with FlipNormals := true })).map
              SubPath.clearFlags = (sp0 :: rest).map SubPath.clearFlags := by
        rw [List.map_cons, hflags, hmapflags, List.map_cons]
      refine ⟨sp0, rest, _, _, hperm, ?_, hmap, key _ _ hmap, houter, ?_, ?_⟩
      · simp only [Path.AutoFlipNormals, hlen, if_false, hs, hf, if_true]
      · intro _ sp hsp
        rcases List.mem_cons.1 hsp with rfl | hsp
        · exact hf
        · obtain ⟨u, _, rfl⟩ := List.mem_map.1 hsp
          rfl
      · intro hfalse
        rw [hf] at hfalse
        exact absurd hfalse (by decide)
    · have hmap : ((({ sp0 with IsOuter := true } : SubPath K).AutoFlipNormals ops)
            :: rest).map SubPath.clearFlags = (sp0 :: rest).map SubPath.clearFlags := by
        rw [List.map_cons, hflags, List.map_cons]
      refine ⟨sp0, rest, _, _, hperm, ?_, hmap, key _ _ hmap, houter, ?_, ?_⟩
      · simp only [Path.AutoFlipNormals, hlen, if_false, hs, hf]
        rfl
      · intro htrue
        exact absurd htrue hf
      · intro _
        rfl

end PathFlipResults

section PathFlipWitness

theorem areaSort_perm (l : List (SubPath ℝ)) : (areaSort l).Perm l :=
  List.perm_insertionSort _ l

theorem areaSort_sorted (l : List (SubPath ℝ)) :
    (areaSort l).Pairwise (fun a b => ¬ byBBoxArea.Less b a) := by
  haveI : IsTotal (SubPath ℝ) (fun a b => b.BBox.Area ≤ a.BBox.Area) :=
    ⟨fun a b => le_total _ _⟩
  haveI : IsTrans (SubPath ℝ) (fun a b => b.BBox.Area ≤ a.BBox.Area) :=
    ⟨fun _ _ _ hab hbc => le_trans hbc hab⟩
  have h : List.Sorted (fun a b : SubPath ℝ => b.BBox.Area ≤ a.BBox.Area) (areaSort l) :=
    List.sorted_insertionSort _ l
  exact List.Pairwise.imp (fun hab => not_lt.2 hab) h

/-- Witness of C18: a path of two one-line subpaths, the smaller first, with an
insertion sort by area for `sort.Sort`. -/
theorem path_autoflip_witness :
    (examplePath.SubPaths ≠ [] ∧
      (areaSort examplePath.SubPaths).Perm examplePath.SubPaths ∧
      (areaSort examplePath.SubPaths).Pairwise (fun a b => ¬ byBBoxArea.Less b a)) ∧
    ∃ sp0 rest first others,
      (sp0 :: rest).Perm examplePath.SubPaths ∧
      (examplePath.AutoFlipNormals realOps areaSort).SubPaths = first :: others ∧
      (first :: others).map SubPath.clearFlags = (sp0 :: rest).map SubPath.clearFlags ∧
      (first :: others).Pairwise (fun a b => b.BBox.Area ≤ a.BBox.Area) ∧
      first.IsOuter = true ∧
      (first.FlipNormals = true → ∀ sp ∈ first :: others, sp.FlipNormals = true) ∧
      (first.FlipNormals = false → others = rest) :=
  ⟨⟨by simp [examplePath], areaSort_perm _, areaSort_sorted _⟩,
    path_autoflip realOps areaSort examplePath (by simp [examplePath]) (areaSort_perm _)
      (areaSort_sorted _)⟩

end PathFlipWitness

/-! ## `Line.Bevel` against `Curve.Bevel` -/

section BevelCompare

theorem real_lengthSqr_unit_x : vec2.LengthSqr (⟨0, 1⟩ : Vec2 ℝ) = 1 := by
  norm_num [vec2.LengthSqr]

theorem unitLine_NNormal (t : ℝ) :
    (NewLine (⟨0, 0⟩ : Vec2 ℝ) ⟨1, 0⟩).NNormal realOps t = ⟨0, 1⟩ := by
  norm_num [Line.NNormal, Line.Normal, Line.Tangent, NewLine, vec2.Normalize,
    vec2.Rotate90DegLeft, vec2.Sub, vec2.LengthSqr]

theorem unitLine_At_zero : (NewLine (⟨0, 0⟩ : Vec2 ℝ) ⟨1, 0⟩).At 0 = ⟨0, 0⟩ := by
  norm_num [Line.At, NewLine, vec2.Interpolate]

theorem unitLine_At_one : (NewLine (⟨0, 0⟩ : Vec2 ℝ) ⟨1, 0⟩).At 1 = ⟨1, 0⟩ := by
  norm_num [Line.At, NewLine, vec2.Interpolate]

/-- C15 at the failing input, the call of the package's `TestBevel`: after
`Bevel(4, 1, 45, 1, false, &prevNN, &nextNN)` on the line (0,0)-(1,0) with both
vectors (0,1), the vector behind `nextNN` is (1,1), the offset point `p3`. -/
theorem line_bevel_overwrites_nextNN :
    ((NewLine (⟨0, 0⟩ : Vec2 ℝ) ⟨1, 0⟩).Bevel realOps 4 1 45 1 false ⟨0, 1⟩ ⟨0, 1⟩).nextNN
      = ⟨1, 1⟩ ∧
    ((NewLine (⟨0, 0⟩ : Vec2 ℝ) ⟨1, 0⟩).Bevel realOps 4 1 45 1 false ⟨0, 1⟩ ⟨0, 1⟩).nextNN
      ≠ ⟨0, 1⟩ := by
  have h : ((NewLine (⟨0, 0⟩ : Vec2 ℝ) ⟨1, 0⟩).Bevel realOps 4 1 45 1 false ⟨0, 1⟩
      ⟨0, 1⟩).nextNN = ⟨1, 1⟩ := by
    simp only [Line.Bevel, unitLine_NNormal, unitLine_At_one, Bool.false_eq_true, if_false,
      real_miter_straight _ _ 1 real_lengthSqr_unit_x]
    norm_num
  rw [h]
  exact ⟨rfl, by simp⟩

/-- The vectors behind `prevNN` and `nextNN` after `Curve.Bevel` are the ones
passed in. -/
theorem curve_bevel_keeps_normals {K : Type} [LinearOrderedField K] (ops : MathOps K)
    (s : Curve K) (height offset deg maxDegrees : K) (flipNormals : Bool)
    (prevNN nextNN : Vec2 K) (fuel : ℕ) (b : BevelResult K)
    (h : s.Bevel ops height offset deg maxDegrees flipNormals prevNN nextNN fuel = .ok b) :
    b.prevNN = prevNN ∧ b.nextNN = nextNN := by
  unfold Curve.Bevel at h
  cases hts : s.Subdivide ops maxDegrees fuel with
  | none =>
    rw [hts] at h
    exact absurd h (by simp)
  | some ts =>
    rw [hts] at h
    simp only at h
    by_cases hn : ts.length ≤ 0
    · rw [if_pos hn] at h
      simp only [Outcome.ok.injEq] at h
      subst h
      exact ⟨rfl, rfl⟩
    · rw [if_neg hn] at h
      cases hl : T.bevelLoop ops (T.curve s) height offset deg flipNormals prevNN nextNN ts
          (List.range (ts.length - 1)) ([], []) with
      | ok r =>
        rw [hl] at h
        simp only [Outcome.ok.injEq] at h
        subst h
        exact ⟨rfl, rfl⟩
      | panic msg =>
        rw [hl] at h
        exact absurd h (by simp)
      | outOfFuel =>
        rw [hl] at h
        exact absurd h (by simp)

theorem real_angle_perp (u v : Vec2 ℝ) (h : vec2.Dot u v = 0) :
    vec2.Angle realOps u v = Real.pi / 2 := by
  norm_num [vec2.Angle, h, realOps_acos]

theorem real_cos_quarter : realOps.cos (1 / 2 * (Real.pi / 2)) = Real.sqrt 2 / 2 := by
  have h : (1 / 2 * (Real.pi / 2) : ℝ) = Real.pi / 4 := by ring
  rw [h]
  exact Real.cos_pi_div_four

/-- The mitred offset point at a right-angled joint: for two perpendicular
vectors with coordinates among -1, 0, 1 whose sum is `(x, y)` with
`x^2 = y^2 = 1`, the point moved by `offset * (x, y)`. -/
theorem real_miter_right (u v p : Vec2 ℝ) (offset x y : ℝ) (hdot : vec2.Dot u v = 0)
    (hsum : vec2.Add u v = ⟨x, y⟩) (hx : x * x = 1) (hy : y * y = 1) :
    vec2.Add (vec2.Scale (vec2.Normalize realOps (vec2.Add u v))
        (offset / realOps.cos (1 / 2 * vec2.Angle realOps u v))) p
      = ⟨p.x + offset * x, p.y + offset * y⟩ := by
  have hl : vec2.LengthSqr (⟨x, y⟩ : Vec2 ℝ) = 2 := by
    simp only [vec2.LengthSqr]
    linarith
  have hs2 : Real.sqrt 2 * Real.sqrt 2 = 2 := real_sqrt_two_sq
  have hs2pos : 0 < Real.sqrt 2 := Real.sqrt_pos.2 (by norm_num)
  rw [real_angle_perp u v hdot, real_cos_quarter, hsum,
    real_normalize _ (by rw [hl]; norm_num), hl]
  simp only [vec2.Add, vec2.Scale, Vec2.mk.injEq]
  constructor
  · field_simp
    nlinarith
  · field_simp
    nlinarith

theorem real_tan_45 : realOps.tan (45 * realOps.pi / 180) = 1 := by
  have h : (45 * realOps.pi / 180 : ℝ) = Real.pi / 4 := by
    rw [realOps_pi]
    ring
  rw [h]
  exact Real.tan_pi_div_four

theorem unitLine_legs :
    T.bevelLegs realOps (T.line (NewLine (⟨0, 0⟩ : Vec2 ℝ) ⟨1, 0⟩)) 1 false ⟨1, 0⟩ ⟨-1, 0⟩
        [0, 1] 0
      = (⟨0, 0⟩, ⟨1, 0⟩, ⟨1, 1⟩, ⟨0, 1⟩) := by
  have h1 : vec2.Add (vec2.Scale (vec2.Normalize realOps (vec2.Add (⟨0, 1⟩ : Vec2 ℝ) ⟨1, 0⟩))
      (1 / realOps.cos (1 / 2 * vec2.Angle realOps (⟨0, 1⟩ : Vec2 ℝ) ⟨1, 0⟩))) ⟨0, 0⟩
      = ⟨(0 : ℝ) + 1 * 1, (0 : ℝ) + 1 * 1⟩ :=
    real_miter_right ⟨0, 1⟩ ⟨1, 0⟩ ⟨0, 0⟩ 1 1 1 (by norm_num [vec2.Dot])
      (by norm_num [vec2.Add]) (by norm_num) (by norm_num)
  have h2 : vec2.Add (vec2.Scale (vec2.Normalize realOps (vec2.Add (⟨0, 1⟩ : Vec2 ℝ) ⟨-1, 0⟩))
      (1 / realOps.cos (1 / 2 * vec2.Angle realOps (⟨0, 1⟩ : Vec2 ℝ) ⟨-1, 0⟩))) ⟨1, 0⟩
      = ⟨(1 : ℝ) + 1 * (-1), (0 : ℝ) + 1 * 1⟩ :=
    real_miter_right ⟨0, 1⟩ ⟨-1, 0⟩ ⟨1, 0⟩ 1 (-1) 1 (by norm_num [vec2.Dot])
      (by norm_num [vec2.Add]) (by norm_num) (by norm_num)
  have hang : vec2.Angle realOps (⟨1, 0⟩ : Vec2 ℝ) ⟨0, 1⟩
      = vec2.Angle realOps (⟨0, 1⟩ : Vec2 ℝ) ⟨1, 0⟩ := by
    rw [real_angle_perp _ _ (by norm_num [vec2.Dot]),
      real_angle_perp _ _ (by norm_num [vec2.Dot])]
  have hne1 : (⟨1, 0⟩ : Vec2 ℝ) ≠ ⟨0, 1⟩ := by simp
  have hne2 : (⟨0, 1⟩ : Vec2 ℝ) ≠ ⟨-1, 0⟩ := by simp
  simp only [T.bevelLegs, T.At, T.NNormal, unitLine_NNormal, List.getD_cons_zero,
    List.getD_cons_succ, unitLine_At_zero, unitLine_At_one, Bool.false_eq_true, if_false,
    if_true, List.length_cons, List.length_nil, ne_eq, hne1, hne2, not_false_eq_true,
    hang, h1, h2]
  norm_num

/-- C14 at the failing input: for the line (0,0)-(1,0) with neighbour normals
(1,0) and (-1,0) and offset 1, the mitred legs (0,0)-(1,1) and (1,0)-(0,1) cross;
`Line.Bevel` returns two triangles and the contour point (0,1), while the slice
procedure of `Curve.Bevel` run on the parameters `[0, 1]` returns the single
triangle `[(0,0,0), (1,0,0), (1,1,1)]` and no contour point. -/
theorem line_bevel_without_guard :
    ((NewLine (⟨0, 0⟩ : Vec2 ℝ) ⟨1, 0⟩).Bevel realOps 0 1 45 1 false ⟨1, 0⟩ ⟨-1, 0⟩).tris
      = [⟨⟨0, 0, 0⟩, ⟨0, 1, 1⟩, ⟨1, 1, 1⟩⟩, ⟨⟨0, 0, 0⟩, ⟨1, 0, 0⟩, ⟨0, 1, 1⟩⟩] ∧
    ((NewLine (⟨0, 0⟩ : Vec2 ℝ) ⟨1, 0⟩).Bevel realOps 0 1 45 1 false ⟨1, 0⟩ ⟨-1, 0⟩).pts
      = [⟨0, 1⟩] ∧
    segmentsIntersect (⟨0, 0⟩ : Vec2 ℝ) ⟨1, 1⟩ ⟨1, 0⟩ ⟨0, 1⟩ = true ∧
    T.bevelLoop realOps (T.line (NewLine (⟨0, 0⟩ : Vec2 ℝ) ⟨1, 0⟩)) 0 1 45 false ⟨1, 0⟩
        ⟨-1, 0⟩ [0, 1] (List.range (([0, 1] : List ℝ).length - 1)) ([], [])
      = Outcome.ok ([⟨⟨0, 0, 0⟩, ⟨1, 0, 0⟩, ⟨1, 1, 1⟩⟩], []) := by
  have h1 : vec2.Add (vec2.Scale (vec2.Normalize realOps (vec2.Add (⟨1, 0⟩ : Vec2 ℝ) ⟨0, 1⟩))
      (1 / realOps.cos (1 / 2 * vec2.Angle realOps (⟨1, 0⟩ : Vec2 ℝ) ⟨0, 1⟩))) ⟨0, 0⟩
      = ⟨(0 : ℝ) + 1 * 1, (0 : ℝ) + 1 * 1⟩ :=
    real_miter_right ⟨1, 0⟩ ⟨0, 1⟩ ⟨0, 0⟩ 1 1 1 (by norm_num [vec2.Dot])
      (by norm_num [vec2.Add]) (by norm_num) (by norm_num)
  have h2 : vec2.Add (vec2.Scale (vec2.Normalize realOps (vec2.Add (⟨-1, 0⟩ : Vec2 ℝ) ⟨0, 1⟩))
      (1 / realOps.cos (1 / 2 * vec2.Angle realOps (⟨0, 1⟩ : Vec2 ℝ) ⟨-1, 0⟩))) ⟨1, 0⟩
      = ⟨(1 : ℝ) + 1 * (-1), (0 : ℝ) + 1 * 1⟩ := by
    have hang : vec2.Angle realOps (⟨0, 1⟩ : Vec2 ℝ) ⟨-1, 0⟩
        = vec2.Angle realOps (⟨-1, 0⟩ : Vec2 ℝ) ⟨0, 1⟩ := by
      rw [real_angle_perp _ _ (by norm_num [vec2.Dot]),
        real_angle_perp _ _ (by norm_num [vec2.Dot])]
    rw [hang]
    exact real_miter_right ⟨-1, 0⟩ ⟨0, 1⟩ ⟨1, 0⟩ 1 (-1) 1 (by norm_num [vec2.Dot])
      (by norm_num [vec2.Add]) (by norm_num) (by norm_num)
  have hx : segmentsIntersect (⟨0, 0⟩ : Vec2 ℝ) ⟨1, 1⟩ ⟨1, 0⟩ ⟨0, 1⟩ = true := by
    norm_num [segmentsIntersect]
  refine ⟨?_, ?_, hx, ?_⟩
  · simp only [Line.Bevel, unitLine_NNormal, unitLine_At_zero, unitLine_At_one,
      Bool.false_eq_true, if_false, h1, h2, real_tan_45]
    norm_num
  · simp only [Line.Bevel, unitLine_NNormal, unitLine_At_zero, unitLine_At_one,
      Bool.false_eq_true, if_false, h1, h2, real_tan_45, poly2tri.NewPoint]
    norm_num
  · simp only [List.length_cons, List.length_nil, List.range_succ, List.range_zero,
      List.nil_append, T.bevelLoop, T.bevelSlice, unitLine_legs, hx, if_true, real_tan_45,
      Bool.false_eq_true, if_false, Nat.reduceAdd, Nat.add_one_sub_one]
    norm_num

end BevelCompare

section Rects
variable {K : Type} [LinearOrderedField K]

theorem rect_contains_iff (r o : Rect K) :
    r.Contains o = true ↔
      r.Min.x ≤ o.Min.x ∧ r.Min.y ≤ o.Min.y ∧ o.Max.x ≤ r.Max.x ∧ o.Max.y ≤ r.Max.y := by
  simp [Rect.Contains]

theorem rect_contains_joined (r a b : Rect K) :
    r.Contains (vec2.Joined a b) = true ↔ r.Contains a = true ∧ r.Contains b = true := by
  simp only [rect_contains_iff, vec2.Joined, vec2_Min_eq, vec2_Max_eq, le_min_iff, max_le_iff]
  tauto

theorem rect_contains_newRect (r : Rect K) (p q : Vec2 K) :
    r.Contains (vec2.NewRect p q) = true ↔ InBox r p ∧ InBox r q := by
  simp only [rect_contains_iff, vec2.NewRect, vec2_Min_eq, vec2_Max_eq, le_min_iff, max_le_iff,
    InBox]
  tauto

theorem contains_flipped_fold (ops : MathOps K) (r : Rect K) :
    ∀ (segs : List (T K)) (acc : Rect K),
      r.Contains (segs.foldl
          (fun flippedBBox sp =>
            vec2.Joined flippedBBox
              (vec2.NewRect (vec2.Add (sp.At 0) (sp.NNormal ops 0))
                (vec2.Add (sp.At 1) (sp.NNormal ops 1))))
          acc) = true ↔
        r.Contains acc = true ∧
          ∀ seg ∈ segs, InBox r (vec2.Add (seg.At 0) (seg.NNormal ops 0)) ∧
            InBox r (vec2.Add (seg.At 1) (seg.NNormal ops 1))
  | [], acc => by simp
  | seg :: rest, acc => by
    rw [List.foldl_cons, contains_flipped_fold ops r rest, rect_contains_joined,
      rect_contains_newRect]
    simp only [List.mem_cons, forall_eq_or_imp]
    tauto

/-- The test of `SubPath.AutoFlipNormals`: the box contains the flipped box
exactly when it contains itself and the two offset end points of every
segment. -/
theorem contains_flipped_iff (ops : MathOps K) (s : SubPath K) :
    s.BBox.Contains (SubPath.flippedBBox ops s) = true ↔
      s.BBox.Contains s.BBox = true ∧
        ∀ seg ∈ s.Segments, InBox s.BBox (vec2.Add (seg.At 0) (seg.NNormal ops 0)) ∧
          InBox s.BBox (vec2.Add (seg.At 1) (seg.NNormal ops 1)) :=
  contains_flipped_fold ops s.BBox s.Segments s.BBox

end Rects

section RectangleLemmas

theorem real_sqrt_mul_self_pos (d : ℝ) (h : 0 < d) : Real.sqrt (d * d) = d := by
  rw [Real.sqrt_mul_self h.le]

theorem line_At (p q : Vec2 ℝ) (t : ℝ) :
    (NewLine p q).At t = ⟨p.x * (1 - t) + q.x * t, p.y * (1 - t) + q.y * t⟩ := rfl

/-- The unit normal of a horizontal line: up when it runs to the right, down when
it runs to the left. -/
theorem nnormal_horizontal (x0 x1 y t : ℝ) (h : x0 ≠ x1) :
    (NewLine (⟨x0, y⟩ : Vec2 ℝ) ⟨x1, y⟩).NNormal realOps t
      = ⟨0, if x0 < x1 then 1 else -1⟩ := by
  have hv : (NewLine (⟨x0, y⟩ : Vec2 ℝ) ⟨x1, y⟩).Normal t = ⟨0, x1 - x0⟩ := by
    simp [Line.Normal, Line.Tangent, NewLine, vec2.Rotate90DegLeft, vec2.Sub]
  have hl : vec2.LengthSqr (⟨0, x1 - x0⟩ : Vec2 ℝ) = (x1 - x0) * (x1 - x0) := by
    simp [vec2.LengthSqr]
  have hne : x1 - x0 ≠ 0 := sub_ne_zero.2 (Ne.symm h)
  have hpos : 0 < (x1 - x0) * (x1 - x0) := mul_self_pos.2 hne
  rw [Line.NNormal, hv, real_normalize _ (by rw [hl]; exact hpos), hl,
    Real.sqrt_mul_self_eq_abs]
  rcases lt_or_gt_of_ne h with hlt | hgt
  · rw [if_pos hlt, abs_of_pos (sub_pos.2 hlt)]
    simp only [Vec2.mk.injEq]
    constructor <;> field_simp
  · have hne2 : x0 - x1 ≠ 0 := sub_ne_zero.2 h
    rw [if_neg (not_lt.2 hgt.le), abs_of_neg (sub_neg.2 hgt)]
    simp only [Vec2.mk.injEq]
    constructor
    · field_simp
    · rw [div_eq_iff (by simpa using hne2)]
      ring

/-- The unit normal of a vertical line: left when it runs up, right when it runs
down. -/
theorem nnormal_vertical (x y0 y1 t : ℝ) (h : y0 ≠ y1) :
    (NewLine (⟨x, y0⟩ : Vec2 ℝ) ⟨x, y1⟩).NNormal realOps t
      = ⟨if y0 < y1 then -1 else 1, 0⟩ := by
  have hv : (NewLine (⟨x, y0⟩ : Vec2 ℝ) ⟨x, y1⟩).Normal t = ⟨-(y1 - y0), 0⟩ := by
    simp [Line.Normal, Line.Tangent, NewLine, vec2.Rotate90DegLeft, vec2.Sub]
  have hl : vec2.LengthSqr (⟨-(y1 - y0), 0⟩ : Vec2 ℝ) = (y1 - y0) * (y1 - y0) := by
    simp only [vec2.LengthSqr]
    ring
  have hne : y1 - y0 ≠ 0 := sub_ne_zero.2 (Ne.symm h)
  have hpos : 0 < (y1 - y0) * (y1 - y0) := mul_self_pos.2 hne
  rw [Line.NNormal, hv, real_normalize _ (by rw [hl]; exact hpos), hl,
    Real.sqrt_mul_self_eq_abs]
  rcases lt_or_gt_of_ne h with hlt | hgt
  · rw [if_pos hlt, abs_of_pos (sub_pos.2 hlt)]
    simp only [Vec2.mk.injEq]
    constructor <;> field_simp
  · have hne2 : y0 - y1 ≠ 0 := sub_ne_zero.2 h
    rw [if_neg (not_lt.2 hgt.le), abs_of_neg (sub_neg.2 hgt)]
    simp only [Vec2.mk.injEq]
    constructor
    · rw [div_eq_iff (by simpa using hne2)]
      ring
    · field_simp

end RectangleLemmas

section RectangleCases

theorem rect_contains_self {K : Type} [LinearOrderedField K] (r : Rect K) :
    r.Contains r = true := by
  simp [Rect.Contains]

theorem rectRing_bbox (horizFirst : Bool) (ax ay cx cy : ℝ) (s : SubPath ℝ)
    (hseg : s.Segments = rectRing horizFirst ax ay cx cy) :
    s.BBox = ⟨⟨min ax cx, min ay cy⟩, ⟨max ax cx, max ay cy⟩⟩ := by
  unfold SubPath.BBox
  rw [hseg]
  cases horizFirst
  · simp only [rectRing, Bool.false_eq_true, if_false, List.foldl_cons, List.foldl_nil, T.BBox,
      Line.BBox, NewLine, vec2.Joined, vec2_Min_eq, vec2_Max_eq, Rect.mk.injEq, Vec2.mk.injEq]
    refine ⟨⟨?_, ?_⟩, ⟨?_, ?_⟩⟩
    · rcases le_total ax cx with h | h <;> simp [h]
    · rcases le_total ay cy with h | h <;> simp [h]
    · rcases le_total ax cx with h | h <;> simp [h]
    · rcases le_total ay cy with h | h <;> simp [h]
  · simp only [rectRing, if_true, List.foldl_cons, List.foldl_nil, T.BBox,
      Line.BBox, NewLine, vec2.Joined, vec2_Min_eq, vec2_Max_eq, Rect.mk.injEq, Vec2.mk.injEq]
    refine ⟨⟨?_, ?_⟩, ⟨?_, ?_⟩⟩
    · rcases le_total ax cx with h | h <;> simp [h]
    · rcases le_total ay cy with h | h <;> simp [h]
    · rcases le_total ax cx with h | h <;> simp [h]
    · rcases le_total ay cy with h | h <;> simp [h]

end RectangleCases

section RectangleMain

/-- On a rectangle with sides of length at least 1, either every offset end
point lies in the box and the normals point inward, or some offset end point
lies outside the box and the normals point outward. -/
theorem rectRing_cases (horizFirst : Bool) (ax ay cx cy : ℝ) (s : SubPath ℝ)
    (hseg : s.Segments = rectRing horizFirst ax ay cx cy)
    (hw : 1 ≤ |cx - ax|) (hh : 1 ≤ |cy - ay|) :
    ((∀ seg ∈ s.Segments,
          InBox s.BBox (vec2.Add (seg.At 0) (seg.NNormal realOps 0)) ∧
            InBox s.BBox (vec2.Add (seg.At 1) (seg.NNormal realOps 1))) ∧
        normalsInward realOps s ∧ ¬ normalsOutward realOps s) ∨
      (¬ (∀ seg ∈ s.Segments,
          InBox s.BBox (vec2.Add (seg.At 0) (seg.NNormal realOps 0)) ∧
            InBox s.BBox (vec2.Add (seg.At 1) (seg.NNormal realOps 1))) ∧
        ¬ normalsInward realOps s ∧ normalsOutward realOps s) := by
  have hx : ax ≠ cx := by
    rintro rfl
    norm_num at hw
  have hy : ay ≠ cy := by
    rintro rfl
    norm_num at hh
  have hbox := rectRing_bbox horizFirst ax ay cx cy s hseg
  unfold normalsInward normalsOutward
  rw [hbox, hseg]
  cases horizFirst
  · simp only [rectRing, Bool.false_eq_true, if_false, List.mem_cons, List.mem_singleton,
      forall_eq_or_imp, forall_eq, T.At, T.NNormal, line_At,
      nnormal_horizontal ax cx _ _ hx, nnormal_horizontal cx ax _ _ hx.symm,
      nnormal_vertical _ ay cy _ hy, nnormal_vertical _ cy ay _ hy.symm,
      InBox, vec2.Add, vec2.Dot, vec2.Sub, Rect.centre, List.not_mem_nil, false_imp_iff,
      implies_true, and_true]
    rcases lt_or_gt_of_ne hx with h1 | h1 <;> rcases lt_or_gt_of_ne hy with h2 | h2
    · have e1 : |cx - ax| = cx - ax := abs_of_pos (sub_pos.2 h1)
      have e2 : |cy - ay| = cy - ay := abs_of_pos (sub_pos.2 h2)
      rw [e1] at hw
      rw [e2] at hh
      simp only [h1, h1.le, not_lt.2 h1.le, min_eq_left h1.le, max_eq_right h1.le,
        h2, h2.le, not_lt.2 h2.le, min_eq_left h2.le, max_eq_right h2.le, gt_iff_lt, if_true, if_false]
      refine Or.inr ⟨?_, ?_, ?_⟩
      · intro h
        casesm* _ ∧ _
        linarith
      · intro h
        casesm* _ ∧ _
        linarith
      · repeat' (first | refine And.intro ?_ ?_)
        all_goals linarith
    · have e1 : |cx - ax| = cx - ax := abs_of_pos (sub_pos.2 h1)
      have e2 : |cy - ay| = -(cy - ay) := abs_of_neg (sub_neg.2 h2)
      rw [e1] at hw
      rw [e2] at hh
      simp only [h1, h1.le, not_lt.2 h1.le, min_eq_left h1.le, max_eq_right h1.le,
        h2, not_lt.2 (le_of_lt h2), min_eq_right (le_of_lt h2), max_eq_left (le_of_lt h2), gt_iff_lt, if_true, if_false]
      refine Or.inl ⟨?_, ?_, ?_⟩
      · repeat' (first | refine And.intro ?_ ?_)
        all_goals linarith
      · repeat' (first | refine And.intro ?_ ?_)
        all_goals linarith
      · intro h
        casesm* _ ∧ _
        linarith
    · have e1 : |cx - ax| = -(cx - ax) := abs_of_neg (sub_neg.2 h1)
      have e2 : |cy - ay| = cy - ay := abs_of_pos (sub_pos.2 h2)
      rw [e1] at hw
      rw [e2] at hh
      simp only [h1, not_lt.2 (le_of_lt h1), min_eq_right (le_of_lt h1), max_eq_left (le_of_lt h1),
        h2, h2.le, not_lt.2 h2.le, min_eq_left h2.le, max_eq_right h2.le, gt_iff_lt, if_true, if_false]
      refine Or.inl ⟨?_, ?_, ?_⟩
      · repeat' (first | refine And.intro ?_ ?_)
        all_goals linarith
      · repeat' (first | refine And.intro ?_ ?_)
        all_goals linarith
      · intro h
        casesm* _ ∧ _
        linarith
    · have e1 : |cx - ax| = -(cx - ax) := abs_of_neg (sub_neg.2 h1)
      have e2 : |cy - ay| = -(cy - ay) := abs_of_neg (sub_neg.2 h2)
      rw [e1] at hw
      rw [e2] at hh
      simp only [h1, not_lt.2 (le_of_lt h1), min_eq_right (le_of_lt h1), max_eq_left (le_of_lt h1),
        h2, not_lt.2 (le_of_lt h2), min_eq_right (le_of_lt h2), max_eq_left (le_of_lt h2), gt_iff_lt, if_true, if_false]
      refine Or.inr ⟨?_, ?_, ?_⟩
      · intro h
        casesm* _ ∧ _
        linarith
      · intro h
        casesm* _ ∧ _
        linarith
      · repeat' (first | refine And.intro ?_ ?_)
        all_goals linarith
  · simp only [rectRing, if_true, List.mem_cons, List.mem_singleton,
      forall_eq_or_imp, forall_eq, T.At, T.NNormal, line_At,
      nnormal_horizontal ax cx _ _ hx, nnormal_horizontal cx ax _ _ hx.symm,
      nnormal_vertical _ ay cy _ hy, nnormal_vertical _ cy ay _ hy.symm,
      InBox, vec2.Add, vec2.Dot, vec2.Sub, Rect.centre, List.not_mem_nil, false_imp_iff,
      implies_true, and_true]
    rcases lt_or_gt_of_ne hx with h1 | h1 <;> rcases lt_or_gt_of_ne hy with h2 | h2
    · have e1 : |cx - ax| = cx - ax := abs_of_pos (sub_pos.2 h1)
      have e2 : |cy - ay| = cy - ay := abs_of_pos (sub_pos.2 h2)
      rw [e1] at hw
      rw [e2] at hh
      simp only [h1, h1.le, not_lt.2 h1.le, min_eq_left h1.le, max_eq_right h1.le,
        h2, h2.le, not_lt.2 h2.le, min_eq_left h2.le, max_eq_right h2.le, gt_iff_lt, if_true, if_false]
      refine Or.inl ⟨?_, ?_, ?_⟩
      · repeat' (first | refine And.intro ?_ ?_)
        all_goals linarith
      · repeat' (first | refine And.intro ?_ ?_)
        all_goals linarith
      · intro h
        casesm* _ ∧ _
        linarith
    · have e1 : |cx - ax| = cx - ax := abs_of_pos (sub_pos.2 h1)
      have e2 : |cy - ay| = -(cy - ay) := abs_of_neg (sub_neg.2 h2)
      rw [e1] at hw
      rw [e2] at hh
      simp only [h1, h1.le, not_lt.2 h1.le, min_eq_left h1.le, max_eq_right h1.le,
        h2, not_lt.2 (le_of_lt h2), min_eq_right (le_of_lt h2), max_eq_left (le_of_lt h2), gt_iff_lt, if_true, if_false]
      refine Or.inr ⟨?_, ?_, ?_⟩
      · intro h
        casesm* _ ∧ _
        linarith
      · intro h
        casesm* _ ∧ _
        linarith
      · repeat' (first | refine And.intro ?_ ?_)
        all_goals linarith
    · have e1 : |cx - ax| = -(cx - ax) := abs_of_neg (sub_neg.2 h1)
      have e2 : |cy - ay| = cy - ay := abs_of_pos (sub_pos.2 h2)
      rw [e1] at hw
      rw [e2] at hh
      simp only [h1, not_lt.2 (le_of_lt h1), min_eq_right (le_of_lt h1), max_eq_left (le_of_lt h1),
        h2, h2.le, not_lt.2 h2.le, min_eq_left h2.le, max_eq_right h2.le, gt_iff_lt, if_true, if_false]
      refine Or.inr ⟨?_, ?_, ?_⟩
      · intro h
        casesm* _ ∧ _
        linarith
      · intro h
        casesm* _ ∧ _
        linarith
      · repeat' (first | refine And.intro ?_ ?_)
        all_goals linarith
    · have e1 : |cx - ax| = -(cx - ax) := abs_of_neg (sub_neg.2 h1)
      have e2 : |cy - ay| = -(cy - ay) := abs_of_neg (sub_neg.2 h2)
      rw [e1] at hw
      rw [e2] at hh
      simp only [h1, not_lt.2 (le_of_lt h1), min_eq_right (le_of_lt h1), max_eq_left (le_of_lt h1),
        h2, not_lt.2 (le_of_lt h2), min_eq_right (le_of_lt h2), max_eq_left (le_of_lt h2), gt_iff_lt, if_true, if_false]
      refine Or.inl ⟨?_, ?_, ?_⟩
      · repeat' (first | refine And.intro ?_ ?_)
        all_goals linarith
      · repeat' (first | refine And.intro ?_ ?_)
        all_goals linarith
      · intro h
        casesm* _ ∧ _
        linarith

end RectangleMain

section RectangleClaim

/-- The flag after `AutoFlipNormals` on a rectangle whose flag was clear is
decided by the direction of the left normals. -/
theorem rectRing_flag (horizFirst : Bool) (ax ay cx cy : ℝ) (s : SubPath ℝ)
    (hseg : s.Segments = rectRing horizFirst ax ay cx cy)
    (hflag : s.FlipNormals = false)
    (hw : 1 ≤ |cx - ax|) (hh : 1 ≤ |cy - ay|) :
    ((s.AutoFlipNormals realOps).FlipNormals = false ∧
        normalsInward realOps s ∧ ¬ normalsOutward realOps s) ∨
      ((s.AutoFlipNormals realOps).FlipNormals = true ∧
        ¬ normalsInward realOps s ∧ normalsOutward realOps s) := by
  have hc := contains_flipped_iff realOps s
  rw [subpath_autoflip_flag, hflag]
  rcases rectRing_cases horizFirst ax ay cx cy s hseg hw hh with ⟨h1, h2, h3⟩ | ⟨h1, h2, h3⟩
  · left
    have : s.BBox.Contains (SubPath.flippedBBox realOps s) = true :=
      hc.2 ⟨rect_contains_self _, h1⟩
    exact ⟨by simp [this], h2, h3⟩
  · right
    have : ¬ s.BBox.Contains (SubPath.flippedBBox realOps s) = true :=
      fun h => h1 (hc.1 h).2
    exact ⟨by simp [this], h2, h3⟩

/-- C17 (amended): for a closed axis-aligned rectangle of four Lines with sides
of length at least 1 and `FlipNormals` initially false, `AutoFlipNormals` leaves
`FlipNormals` false exactly when the left normals point inward, towards the
rectangle's interior, and sets it to true exactly when they point outward. -/
theorem autoflip_rectangle (horizFirst : Bool) (ax ay cx cy : ℝ) (s : SubPath ℝ)
    (hseg : s.Segments = rectRing horizFirst ax ay cx cy)
    (hflag : s.FlipNormals = false)
    (hw : 1 ≤ |cx - ax|) (hh : 1 ≤ |cy - ay|) :
    ((s.AutoFlipNormals realOps).FlipNormals = false ↔ normalsInward realOps s) ∧
      ((s.AutoFlipNormals realOps).FlipNormals = true ↔ normalsOutward realOps s) := by
  rcases rectRing_flag horizFirst ax ay cx cy s hseg hflag hw hh with
    ⟨h1, h2, h3⟩ | ⟨h1, h2, h3⟩
  · refine ⟨⟨fun _ => h2, fun _ => h1⟩, ⟨fun h => ?_, fun h => absurd h h3⟩⟩
    rw [h1] at h
    exact absurd h (by decide)
  · refine ⟨⟨fun h => ?_, fun h => absurd h h2⟩, ⟨fun _ => h3, fun _ => h1⟩⟩
    rw [h1] at h
    exact absurd h (by decide)

/-- The amended C17 statement applied to the clockwise square (0,0), (0,2),
(2,2), (2,0). -/
theorem autoflip_rectangle_witness :
    (cwSquare : SubPath ℝ).Segments = rectRing false 0 0 2 2 ∧
      (cwSquare : SubPath ℝ).FlipNormals = false ∧
      (1 : ℝ) ≤ |2 - 0| ∧ (1 : ℝ) ≤ |2 - 0| ∧
      (((cwSquare : SubPath ℝ).AutoFlipNormals realOps).FlipNormals = false ↔
        normalsInward realOps (cwSquare : SubPath ℝ)) ∧
      (((cwSquare : SubPath ℝ).AutoFlipNormals realOps).FlipNormals = true ↔
        normalsOutward realOps (cwSquare : SubPath ℝ)) :=
  ⟨rfl, rfl, by norm_num, by norm_num,
    autoflip_rectangle false 0 0 2 2 cwSquare rfl rfl (by norm_num) (by norm_num)⟩

/-- C17 (counterexample): on the counter-clockwise square (0,0), (2,0), (2,2),
(0,2), with sides of length 2 and `FlipNormals` false, the left normals point
inward and not outward, and `AutoFlipNormals` leaves `FlipNormals` false. -/
theorem autoflip_ccw_square :
    (ccwSquare : SubPath ℝ).Segments = rectRing true 0 0 2 2 ∧
      (ccwSquare : SubPath ℝ).FlipNormals = false ∧
      normalsInward realOps (ccwSquare : SubPath ℝ) ∧
      ¬ normalsOutward realOps (ccwSquare : SubPath ℝ) ∧
      ((ccwSquare : SubPath ℝ).AutoFlipNormals realOps).FlipNormals = false := by
  refine ⟨rfl, rfl, ?_⟩
  rcases rectRing_flag true 0 0 2 2 ccwSquare rfl rfl (by norm_num) (by norm_num) with
    ⟨h1, h2, h3⟩ | ⟨_, _, h3⟩
  · exact ⟨h2, h3, h1⟩
  · exfalso
    have h := h3 (T.line (NewLine ⟨0, 0⟩ ⟨2, 0⟩)) (by simp [ccwSquare, rectRing])
    have hb := rectRing_bbox true 0 0 2 2 (ccwSquare : SubPath ℝ) rfl
    rw [hb] at h
    simp only [T.NNormal, T.At, line_At, nnormal_horizontal 0 2 0 _ (by norm_num),
      vec2.Dot, vec2.Sub, Rect.centre] at h
    norm_num at h

end RectangleClaim

/-! ## The panic of `Curve.Bevel` -/

section BevelPanic

variable {K : Type} [LinearOrderedField K]

theorem bevelSlice_panic (ops : MathOps K) (seg : T K) (height offset deg : K)
    (flipNormals : Bool) (prevNN nextNN : Vec2 K) (ts : List K)
    (acc : List (Triangle3D K) × List (Vec2 K)) (i : Nat)
    (h : T.interiorHit ops seg offset flipNormals prevNN nextNN ts i) :
    T.bevelSlice ops seg height offset deg flipNormals prevNN nextNN ts acc i
      = .panic "curve2d.go: unhandled problem" := by
  obtain ⟨h0, h1, h2⟩ := h
  have hi : ¬ i = 0 := by omega
  have hl : ¬ i + 1 = ts.length - 1 := by omega
  simp only [T.bevelSlice, h2, if_true, hi, hl, if_false]

theorem bevelSlice_ok (ops : MathOps K) (seg : T K) (height offset deg : K)
    (flipNormals : Bool) (prevNN nextNN : Vec2 K) (ts : List K)
    (acc : List (Triangle3D K) × List (Vec2 K)) (i : Nat) (hi : i < ts.length - 1)
    (h : ¬ T.interiorHit ops seg offset flipNormals prevNN nextNN ts i) :
    ∃ acc1, T.bevelSlice ops seg height offset deg flipNormals prevNN nextNN ts acc i
      = .ok acc1 := by
  simp only [T.bevelSlice]
  by_cases hs : segmentsIntersect
      (T.bevelLegs ops seg offset flipNormals prevNN nextNN ts i).1
      (T.bevelLegs ops seg offset flipNormals prevNN nextNN ts i).2.2.1
      (T.bevelLegs ops seg offset flipNormals prevNN nextNN ts i).2.1
      (T.bevelLegs ops seg offset flipNormals prevNN nextNN ts i).2.2.2 = true
  · by_cases h0 : i = 0
    · rw [if_pos hs, if_pos h0]
      exact ⟨_, rfl⟩
    · by_cases h1 : i + 1 = ts.length - 1
      · rw [if_pos hs, if_neg h0, if_pos h1]
        exact ⟨_, rfl⟩
      · exact absurd ⟨Nat.pos_of_ne_zero h0, by omega, hs⟩ h
  · rw [if_neg hs]
    exact ⟨_, rfl⟩

theorem bevelLoop_panic (ops : MathOps K) (seg : T K) (height offset deg : K)
    (flipNormals : Bool) (prevNN nextNN : Vec2 K) (ts : List K) :
    ∀ (l : List Nat) (acc : List (Triangle3D K) × List (Vec2 K)),
      (∀ i ∈ l, i < ts.length - 1) →
      (∃ i ∈ l, T.interiorHit ops seg offset flipNormals prevNN nextNN ts i) →
      T.bevelLoop ops seg height offset deg flipNormals prevNN nextNN ts l acc
        = .panic "curve2d.go: unhandled problem"
  | [], _, _, h => by
    obtain ⟨i, hi, _⟩ := h
    simp at hi
  | j :: rest, acc, hb, h => by
    by_cases hj : T.interiorHit ops seg offset flipNormals prevNN nextNN ts j
    · rw [T.bevelLoop, bevelSlice_panic ops seg height offset deg flipNormals prevNN nextNN ts
        acc j hj]
    · obtain ⟨acc1, h1⟩ := bevelSlice_ok ops seg height offset deg flipNormals prevNN nextNN ts
        acc j (hb j (List.mem_cons_self _ _)) hj
      rw [T.bevelLoop, h1]
      refine bevelLoop_panic ops seg height offset deg flipNormals prevNN nextNN ts rest acc1
        (fun i hi => hb i (List.mem_cons_of_mem _ hi)) ?_
      obtain ⟨i, hi, hit⟩ := h
      rcases List.mem_cons.1 hi with rfl | hi
      · exact absurd hit hj
      · exact ⟨i, hi, hit⟩

theorem bevelLoop_ok (ops : MathOps K) (seg : T K) (height offset deg : K)
    (flipNormals : Bool) (prevNN nextNN : Vec2 K) (ts : List K) :
    ∀ (l : List Nat) (acc : List (Triangle3D K) × List (Vec2 K)),
      (∀ i ∈ l, i < ts.length - 1) →
      (∀ i ∈ l, ¬ T.interiorHit ops seg offset flipNormals prevNN nextNN ts i) →
      ∃ r, T.bevelLoop ops seg height offset deg flipNormals prevNN nextNN ts l acc = .ok r
  | [], acc, _, _ => ⟨acc, rfl⟩
  | j :: rest, acc, hb, h => by
    obtain ⟨acc1, h1⟩ := bevelSlice_ok ops seg height offset deg flipNormals prevNN nextNN ts
      acc j (hb j (List.mem_cons_self _ _)) (h j (List.mem_cons_self _ _))
    rw [T.bevelLoop, h1]
    exact bevelLoop_ok ops seg height offset deg flipNormals prevNN nextNN ts rest acc1
      (fun i hi => hb i (List.mem_cons_of_mem _ hi))
      (fun i hi => h i (List.mem_cons_of_mem _ hi))

/-- What `Curve.Bevel` returns once `Subdivide` has returned `ts`: the panic with
its one fixed message when some interior slice is hit, a normal result
otherwise. -/
theorem curve_bevel_cases (ops : MathOps K) (s : Curve K) (height offset deg maxDegrees : K)
    (flipNormals : Bool) (prevNN nextNN : Vec2 K) (fuel : Nat) (ts : List K)
    (hts : s.Subdivide ops maxDegrees fuel = some ts) :
    ((∃ i, T.interiorHit ops (.curve s) offset flipNormals prevNN nextNN ts i) ∧
        s.Bevel ops height offset deg maxDegrees flipNormals prevNN nextNN fuel
          = .panic "curve2d.go: unhandled problem") ∨
      ((¬ ∃ i, T.interiorHit ops (.curve s) offset flipNormals prevNN nextNN ts i) ∧
        ∃ r, s.Bevel ops height offset deg maxDegrees flipNormals prevNN nextNN fuel
          = .ok r) := by
  unfold Curve.Bevel
  rw [hts]
  by_cases hn : ts.length ≤ 0
  · right
    refine ⟨?_, ?_⟩
    · rintro ⟨i, _, h1, _⟩
      omega
    · simp only [hn, if_true]
      exact ⟨_, rfl⟩
  · simp only [hn, if_false]
    have hb : ∀ i ∈ List.range (ts.length - 1), i < ts.length - 1 :=
      fun i hi => List.mem_range.1 hi
    by_cases h : ∃ i, T.interiorHit ops (.curve s) offset flipNormals prevNN nextNN ts i
    · left
      refine ⟨h, ?_⟩
      obtain ⟨i, hit⟩ := h
      have hi : i ∈ List.range (ts.length - 1) := by
        have := hit.2.1
        exact List.mem_range.2 (by omega)
      rw [bevelLoop_panic ops (.curve s) height offset deg flipNormals prevNN nextNN ts _ _ hb
        ⟨i, hi, hit⟩]
    · right
      refine ⟨h, ?_⟩
      obtain ⟨r, hr⟩ := bevelLoop_ok ops (.curve s) height offset deg flipNormals prevNN nextNN
        ts (List.range (ts.length - 1)) ([], []) hb (fun i _ hit => h ⟨i, hit⟩)
      rw [hr]
      exact ⟨_, rfl⟩

/-- C13 (amended): with fuel for 255 iterations `Subdivide` returns a list `ts`,
and `Curve.Bevel` panics if and only if some interior slice `i` (`0 < i` and
`i + 1 < len(ts) - 1`) has its leg `p0-p2` intersecting its leg `p1-p3`
according to `segmentsIntersect`; with no such slice it returns normally; and
the value of every panic is the one fixed string "curve2d.go: unhandled
problem", the same for every slice index. -/
theorem curve_bevel_panic_iff (ops : MathOps K) (s : Curve K)
    (height offset deg maxDegrees : K) (flipNormals : Bool) (prevNN nextNN : Vec2 K)
    (fuel : Nat) (hfuel : 255 ≤ fuel) :
    ∃ ts, s.Subdivide ops maxDegrees fuel = some ts ∧
      ((∃ msg, s.Bevel ops height offset deg maxDegrees flipNormals prevNN nextNN fuel
            = .panic msg) ↔
          ∃ i, T.interiorHit ops (.curve s) offset flipNormals prevNN nextNN ts i) ∧
      ((¬ ∃ i, T.interiorHit ops (.curve s) offset flipNormals prevNN nextNN ts i) →
          ∃ r, s.Bevel ops height offset deg maxDegrees flipNormals prevNN nextNN fuel
            = .ok r) ∧
      (∀ msg, s.Bevel ops height offset deg maxDegrees flipNormals prevNN nextNN fuel
            = .panic msg → msg = "curve2d.go: unhandled problem") := by
  obtain ⟨out, hts, _⟩ := subdivide_spec ops s maxDegrees fuel hfuel
  refine ⟨0 :: out, hts, ?_⟩
  rcases curve_bevel_cases ops s height offset deg maxDegrees flipNormals prevNN nextNN fuel
    (0 :: out) hts with ⟨hit, hp⟩ | ⟨hno, r, hr⟩
  · refine ⟨⟨fun _ => hit, fun _ => ⟨_, hp⟩⟩, fun hno => absurd hit hno, ?_⟩
    intro msg hmsg
    rw [hp] at hmsg
    exact (Outcome.panic.inj hmsg).symm
  · refine ⟨⟨?_, fun hit => absurd hit hno⟩, fun _ => ⟨r, hr⟩, ?_⟩
    · rintro ⟨msg, hmsg⟩
      rw [hr] at hmsg
      exact Outcome.noConfusion hmsg
    · intro msg hmsg
      rw [hr] at hmsg
      exact Outcome.noConfusion hmsg

/-- The amended C13 statement applied to the curve (0,0), (0,1), (2,1), (2,0)
of the package's tests over the reals, with 255 iterations of fuel. -/
theorem curve_bevel_panic_iff_witness :
    255 ≤ 255 ∧
    ∃ ts, (NewCurve (⟨0, 0⟩ : Vec2 ℝ) ⟨0, 1⟩ ⟨2, 1⟩ ⟨2, 0⟩).Subdivide realOps 45 255
        = some ts ∧
      ((∃ msg, (NewCurve (⟨0, 0⟩ : Vec2 ℝ) ⟨0, 1⟩ ⟨2, 1⟩ ⟨2, 0⟩).Bevel realOps 0 1 45 45
            false ⟨-1, 0⟩ ⟨1, 0⟩ 255 = .panic msg) ↔
          ∃ i, T.interiorHit realOps (.curve (NewCurve (⟨0, 0⟩ : Vec2 ℝ) ⟨0, 1⟩ ⟨2, 1⟩ ⟨2, 0⟩))
            1 false ⟨-1, 0⟩ ⟨1, 0⟩ ts i) ∧
      ((¬ ∃ i, T.interiorHit realOps
            (.curve (NewCurve (⟨0, 0⟩ : Vec2 ℝ) ⟨0, 1⟩ ⟨2, 1⟩ ⟨2, 0⟩))
            1 false ⟨-1, 0⟩ ⟨1, 0⟩ ts i) →
          ∃ r, (NewCurve (⟨0, 0⟩ : Vec2 ℝ) ⟨0, 1⟩ ⟨2, 1⟩ ⟨2, 0⟩).Bevel realOps 0 1 45 45
            false ⟨-1, 0⟩ ⟨1, 0⟩ 255 = .ok r) ∧
      (∀ msg, (NewCurve (⟨0, 0⟩ : Vec2 ℝ) ⟨0, 1⟩ ⟨2, 1⟩ ⟨2, 0⟩).Bevel realOps 0 1 45 45
            false ⟨-1, 0⟩ ⟨1, 0⟩ 255 = .panic msg →
          msg = "curve2d.go: unhandled problem") :=
  ⟨le_refl 255, curve_bevel_panic_iff realOps _ 0 1 45 45 false ⟨-1, 0⟩ ⟨1, 0⟩ 255 (le_refl 255)⟩

end BevelPanic

section BevelPanicExample

theorem pinchCurve_Tangent (t : ℝ) :
    (pinchCurve : Curve ℝ).Tangent t
      = ⟨99 * (t * t) - 3 * ((1 - t) * (1 - t)), 12 * (1 - 2 * t)⟩ := by
  norm_num [pinchCurve, NewCurve, Curve.Tangent, bezier2.Tangent, vec2.Add, vec2.Scale,
    vec2.Sub]
  constructor <;> ring

theorem pinchCurve_At (t : ℝ) :
    (pinchCurve : Curve ℝ).At t
      = ⟨32 * (t * t * t) - 3 * (t * (1 - t)), 12 * (t * (1 - t))⟩ := by
  norm_num [pinchCurve, NewCurve, Curve.At, bezier2.Point, vec2.Add, vec2.Scale]
  constructor <;> ring

theorem real_tolerance_90 : |90 * realOps.pi / 180| = Real.pi / 2 := by
  rw [realOps_pi, abs_of_nonneg (by positivity)]
  ring

/-- Two non-zero vectors with a negative dot product have normalised forms more
than 90 degrees apart. -/
theorem obtuse_of (u v : Vec2 ℝ) (hu : 0 < vec2.LengthSqr u) (hv : 0 < vec2.LengthSqr v)
    (h : vec2.Dot u v < 0) :
    |vec2.Angle realOps (vec2.Normalize realOps u) (vec2.Normalize realOps v)|
      > |90 * realOps.pi / 180| := by
  have hq : 0 < Real.sqrt (vec2.LengthSqr u) * Real.sqrt (vec2.LengthSqr v) :=
    mul_pos (Real.sqrt_pos.2 hu) (Real.sqrt_pos.2 hv)
  rw [real_angle_normalize u v hu hv, real_tolerance_90, abs_of_nonneg (Real.arccos_nonneg _),
    gt_iff_lt, ← not_le, Real.arccos_le_pi_div_two, not_le]
  exact div_neg_of_neg_of_pos h hq

/-- Two non-zero vectors with a non-negative dot product have normalised forms at
most 90 degrees apart. -/
theorem not_obtuse_of (u v : Vec2 ℝ) (hu : 0 < vec2.LengthSqr u)
    (hv : 0 < vec2.LengthSqr v) (h : 0 ≤ vec2.Dot u v) :
    ¬ |vec2.Angle realOps (vec2.Normalize realOps u) (vec2.Normalize realOps v)|
      > |90 * realOps.pi / 180| := by
  have hq : 0 < Real.sqrt (vec2.LengthSqr u) * Real.sqrt (vec2.LengthSqr v) :=
    mul_pos (Real.sqrt_pos.2 hu) (Real.sqrt_pos.2 hv)
  rw [real_angle_normalize u v hu hv, real_tolerance_90, abs_of_nonneg (Real.arccos_nonneg _),
    gt_iff_lt, not_lt, Real.arccos_le_pi_div_two]
  exact div_nonneg h hq.le

theorem pinchCurve_obtuse (a b : ℝ)
    (hu : 0 < vec2.LengthSqr
      (⟨99 * (a * a) - 3 * ((1 - a) * (1 - a)), 12 * (1 - 2 * a)⟩ : Vec2 ℝ))
    (hv : 0 < vec2.LengthSqr
      (⟨99 * (b * b) - 3 * ((1 - b) * (1 - b)), 12 * (1 - 2 * b)⟩ : Vec2 ℝ))
    (h : vec2.Dot (⟨99 * (a * a) - 3 * ((1 - a) * (1 - a)), 12 * (1 - 2 * a)⟩ : Vec2 ℝ)
      ⟨99 * (b * b) - 3 * ((1 - b) * (1 - b)), 12 * (1 - 2 * b)⟩ < 0) :
    |vec2.Angle realOps ((pinchCurve : Curve ℝ).NTangent realOps a)
        ((pinchCurve : Curve ℝ).NTangent realOps b)|
      > |90 * realOps.pi / 180| := by
  unfold Curve.NTangent
  rw [pinchCurve_Tangent, pinchCurve_Tangent]
  exact obtuse_of _ _ hu hv h

theorem pinchCurve_not_obtuse (a b : ℝ)
    (hu : 0 < vec2.LengthSqr
      (⟨99 * (a * a) - 3 * ((1 - a) * (1 - a)), 12 * (1 - 2 * a)⟩ : Vec2 ℝ))
    (hv : 0 < vec2.LengthSqr
      (⟨99 * (b * b) - 3 * ((1 - b) * (1 - b)), 12 * (1 - 2 * b)⟩ : Vec2 ℝ))
    (h : 0 ≤ vec2.Dot (⟨99 * (a * a) - 3 * ((1 - a) * (1 - a)), 12 * (1 - 2 * a)⟩ : Vec2 ℝ)
      ⟨99 * (b * b) - 3 * ((1 - b) * (1 - b)), 12 * (1 - 2 * b)⟩) :
    ¬ |vec2.Angle realOps ((pinchCurve : Curve ℝ).NTangent realOps a)
        ((pinchCurve : Curve ℝ).NTangent realOps b)|
      > |90 * realOps.pi / 180| := by
  unfold Curve.NTangent
  rw [pinchCurve_Tangent, pinchCurve_Tangent]
  exact not_obtuse_of _ _ hu hv h

/-- For the curve (0,0), (-1,4), (-1,4), (32,0), `Subdivide(90)` returns
`[0, 0.25, 0.5, 1]`; the loop ends after 5 iterations. -/
theorem pinchCurve_Subdivide (fuel : ℕ) (hfuel : 5 ≤ fuel) :
    (pinchCurve : Curve ℝ).Subdivide realOps 90 fuel = some [0, 1 / 4, 1 / 2, 1] := by
  obtain ⟨n, rfl⟩ : ∃ n, fuel = n + 5 := ⟨fuel - 5, by omega⟩
  have start : (pinchCurve : Curve ℝ).Subdivide realOps 90 (n + 5)
      = Curve.subdivideLoop realOps (pinchCurve : Curve ℝ) |90 * realOps.pi / 180| (n + 5)
          (subdivideAt realOps (pinchCurve : Curve ℝ) [] 0 [1 / 2, 1]) := rfl
  rw [start]
  calc Curve.subdivideLoop realOps _ |90 * realOps.pi / 180| (n + 5)
          (subdivideAt realOps _ [] 0 [1 / 2, 1])
      = Curve.subdivideLoop realOps _ |90 * realOps.pi / 180| (n + 4)
          (subdivideAt realOps _ [] 0 [1 / 4, 1 / 2, 1]) :=
        loop_insert _ _ _ (n + 4) [] 0 (1 / 2) [1] (1 / 4) (by norm_num)
          (pinchCurve_obtuse 0 (1 / 2) (by norm_num [vec2.LengthSqr])
            (by norm_num [vec2.LengthSqr]) (by norm_num [vec2.Dot]))
          (by norm_num)
    _ = Curve.subdivideLoop realOps _ |90 * realOps.pi / 180| (n + 3)
          (subdivideAt realOps _ [0] (1 / 4) [1 / 2, 1]) :=
        loop_advance _ _ _ (n + 3) [] 0 (1 / 4) [1 / 2, 1] (by norm_num)
          (pinchCurve_not_obtuse 0 (1 / 4) (by norm_num [vec2.LengthSqr])
            (by norm_num [vec2.LengthSqr]) (by norm_num [vec2.Dot]))
    _ = Curve.subdivideLoop realOps _ |90 * realOps.pi / 180| (n + 2)
          (subdivideAt realOps _ [0, 1 / 4] (1 / 2) [1]) :=
        loop_advance _ _ _ (n + 2) [0] (1 / 4) (1 / 2) [1] (by norm_num)
          (pinchCurve_not_obtuse (1 / 4) (1 / 2) (by norm_num [vec2.LengthSqr])
            (by norm_num [vec2.LengthSqr]) (by norm_num [vec2.Dot]))
    _ = Curve.subdivideLoop realOps _ |90 * realOps.pi / 180| (n + 1)
          (subdivideAt realOps _ [0, 1 / 4, 1 / 2] 1 []) :=
        loop_advance _ _ _ (n + 1) [0, 1 / 4] (1 / 2) 1 [] (by norm_num)
          (pinchCurve_not_obtuse (1 / 2) 1 (by norm_num [vec2.LengthSqr])
            (by norm_num [vec2.LengthSqr]) (by norm_num [vec2.Dot]))
    _ = some [0, 1 / 4, 1 / 2, 1] := loop_exit _ _ _ n [0, 1 / 4, 1 / 2] 1

end BevelPanicExample

section BevelPanicResult

theorem real_normalize_of_sq (v : Vec2 ℝ) (l : ℝ) (hl : 0 < l)
    (h : vec2.LengthSqr v = l * l) :
    vec2.Normalize realOps v = ⟨v.x / l, v.y / l⟩ := by
  rw [real_normalize v (by rw [h]; exact mul_pos hl hl), h, Real.sqrt_mul_self hl.le]

theorem pinchCurve_NNormal_quarter :
    (pinchCurve : Curve ℝ).NNormal realOps (1 / 4) = ⟨-(4 / 5), 3 / 5⟩ := by
  unfold Curve.NNormal Curve.Normal
  rw [pinchCurve_Tangent, real_normalize_of_sq _ (15 / 2) (by norm_num)
    (by norm_num [vec2.LengthSqr, vec2.Rotate90DegLeft])]
  norm_num [vec2.Rotate90DegLeft]

theorem pinchCurve_NNormal_half :
    (pinchCurve : Curve ℝ).NNormal realOps (1 / 2) = ⟨0, 1⟩ := by
  unfold Curve.NNormal Curve.Normal
  rw [pinchCurve_Tangent, real_normalize_of_sq _ 24 (by norm_num)
    (by norm_num [vec2.LengthSqr, vec2.Rotate90DegLeft])]
  norm_num [vec2.Rotate90DegLeft]

/-- The points `p0`, `p1`, `p2`, `p3` of slice 1 of the curve (0,0), (-1,4),
(-1,4), (32,0) for the parameters `[0, 0.25, 0.5, 1]`, offset 5 and flipped
normals. -/
theorem pinchCurve_legs (prevNN nextNN : Vec2 ℝ) :
    T.bevelLegs realOps (T.curve (pinchCurve : Curve ℝ)) 5 true prevNN nextNN
        [0, 1 / 4, 1 / 2, 1] 1
      = (⟨-(1 / 16), 9 / 4⟩, ⟨13 / 4, 3⟩, ⟨63 / 16, -(3 / 4)⟩, ⟨13 / 4, -2⟩) := by
  simp only [T.bevelLegs, T.At, T.NNormal, pinchCurve_NNormal_quarter, pinchCurve_NNormal_half,
    pinchCurve_At, List.getD_cons_zero, List.getD_cons_succ, if_true, List.length_cons,
    List.length_nil, one_ne_zero, if_false, vec2.Add, vec2.Scale]
  norm_num

theorem pinchCurve_hit (prevNN nextNN : Vec2 ℝ) :
    T.interiorHit realOps (T.curve (pinchCurve : Curve ℝ)) 5 true prevNN nextNN
      [0, 1 / 4, 1 / 2, 1] 1 := by
  refine ⟨by norm_num, by norm_num, ?_⟩
  rw [pinchCurve_legs]
  norm_num [segmentsIntersect]

/-- The curve (0,0), (-1,4), (-1,4), (32,0) bevelled with offset 5, 90 degrees
between parameters and flipped normals panics, whatever the other arguments. -/
theorem pinchCurve_Bevel (height deg : ℝ) (prevNN nextNN : Vec2 ℝ) :
    (pinchCurve : Curve ℝ).Bevel realOps height 5 deg 90 true prevNN nextNN 255
      = .panic "curve2d.go: unhandled problem" := by
  rcases curve_bevel_cases realOps (pinchCurve : Curve ℝ) height 5 deg 90 true prevNN nextNN
    255 [0, 1 / 4, 1 / 2, 1] (pinchCurve_Subdivide 255 (by norm_num)) with ⟨_, hp⟩ | ⟨hno, _⟩
  · exact hp
  · exact absurd ⟨1, pinchCurve_hit prevNN nextNN⟩ hno

/-- C13 (counterexample): the curve (0,0), (-1,4), (-1,4), (32,0) bevelled with
`Bevel(0, 5, 45, 90, true, &{1,0}, &{1,0})` is subdivided at `[0, 0.25, 0.5, 1]`,
its interior slice 1 has the legs (-1/16, 9/4)-(63/16, -3/4) and
(13/4, 3)-(13/4, -2), which intersect, and the call panics with the value
"curve2d.go: unhandled problem", which does not name slice 1. -/
theorem curve_bevel_panic_message :
    (pinchCurve : Curve ℝ).Subdivide realOps 90 255 = some [0, 1 / 4, 1 / 2, 1] ∧
      T.interiorHit realOps (T.curve (pinchCurve : Curve ℝ)) 5 true ⟨1, 0⟩ ⟨1, 0⟩
        [0, 1 / 4, 1 / 2, 1] 1 ∧
      segmentsIntersect (⟨-(1 / 16), 9 / 4⟩ : Vec2 ℝ) ⟨63 / 16, -(3 / 4)⟩ ⟨13 / 4, 3⟩
        ⟨13 / 4, -2⟩ = true ∧
      (pinchCurve : Curve ℝ).Bevel realOps 0 5 45 90 true ⟨1, 0⟩ ⟨1, 0⟩ 255
        = .panic "curve2d.go: unhandled problem" ∧
      ¬ ('1' ∈ "curve2d.go: unhandled problem".toList) :=
  ⟨pinchCurve_Subdivide 255 (by norm_num), pinchCurve_hit ⟨1, 0⟩ ⟨1, 0⟩,
    by norm_num [segmentsIntersect], pinchCurve_Bevel 0 45 ⟨1, 0⟩ ⟨1, 0⟩, by decide⟩

end BevelPanicResult

/-! ## The triangulation sessions of `Path.Wall` and `Path.Bevel` -/

section TriangulateAppend

theorem triangulate_append {K : Type} (m : List (poly2tri.Triangle K)) (z : K) :
    ∀ r : List (Triangle3D K), Triangulate m r z = r ++ Triangulate m [] z := by
  unfold Triangulate
  induction m using List.reverseRecOn with
  | nil => intro r; simp
  | append_singleton m t ih =>
    intro r
    simp only [List.foldl_append, List.foldl_cons, List.foldl_nil]
    rw [ih r]
    simp

end TriangulateAppend

section PathSessions

variable {K : Type} [LinearOrderedField K]

theorem sessions_length (bbox : Rect K) :
    ∀ (l : List (SubPath K)) (pts : SubPath K → List (Vec2 K)) (cur : poly2tri.SweepContext K),
      (sessions bbox cur (l.map (fun sp => (sp.BBox, pts sp)))).length
        = 1 + outsideCount bbox l
  | [], _, _ => by simp [sessions, outsideCount]
  | sp :: rest, pts, cur => by
    by_cases h : bbox.Contains sp.BBox = true
    · simp only [List.map_cons, sessions, h, if_true, outsideCount, List.countP_cons,
        Bool.not_true, Bool.false_eq_true, if_false, add_zero]
      exact sessions_length bbox rest pts _
    · have hf : bbox.Contains sp.BBox = false := by simpa using h
      simp only [List.map_cons, sessions, hf, Bool.false_eq_true, if_false, outsideCount,
        List.countP_cons, List.length_cons, Bool.not_false, if_true]
      rw [sessions_length bbox rest pts _]
      simp only [outsideCount]
      ring

theorem subpath_wall_some (ops : MathOps K) (s : SubPath K) (height maxDegrees : K)
    (fuel : ℕ) (hfuel : 255 ≤ fuel) :
    ∃ w, s.Wall ops height maxDegrees fuel = some w := by
  have hex : ∀ seg : T K, ∃ w, seg.Wall ops height maxDegrees s.FlipNormals fuel = some w :=
    fun seg => T.wall_some ops seg height maxDegrees s.FlipNormals fuel hfuel
  choose f hf using hex
  have hloop := subpath_wallLoop_eq ops height maxDegrees s.FlipNormals fuel f hf
  simp only [SubPath.Wall, hloop]
  exact ⟨_, rfl⟩

theorem path_wallLoop_spec (ops : MathOps K)
    (tri : poly2tri.SweepContext K → List (poly2tri.Triangle K))
    (bbox : Rect K) (first : SubPath K) (height maxDegrees : K) (fuel : ℕ)
    (W : SubPath K → List (Triangle3D K) × SubPath K)
    (hW : ∀ sp, sp.Wall ops height maxDegrees fuel = some (W sp)) :
    ∀ (rest : List (SubPath K)) (st : PathState K),
      ∃ st1, Path.wallLoop ops tri bbox first height maxDegrees fuel rest st = some st1 ∧
        st1.calls ++ [st1.sc]
          = st.calls ++ sessions bbox st.sc
              (rest.map (fun sp => (sp.BBox, (W sp).2.FloorPts))) ∧
        ((∀ sp ∈ rest, bbox.Contains sp.BBox = true) →
          st1.r = st.r ++ rest.flatMap (fun sp => (W sp).1) ∧
          st1.sc = ⟨st.sc.contour, st.sc.holes ++ rest.map (fun sp => (W sp).2.FloorPts)⟩ ∧
          st1.calls = st.calls)
  | [], st => by
    refine ⟨st, rfl, by simp [sessions], fun _ => ?_⟩
    simp
  | sp :: rest, st => by
    rw [Path.wallLoop, hW sp]
    by_cases h : bbox.Contains sp.BBox = true
    · simp only [h, if_true]
      obtain ⟨st1, h1, h2, h3⟩ := path_wallLoop_spec ops tri bbox first height maxDegrees fuel
        W hW rest ⟨st.r ++ (W sp).1, st.sc.AddHole (W sp).2.FloorPts,
          st.subPaths ++ [(W sp).2], st.calls⟩
      refine ⟨st1, h1, ?_, fun hall => ?_⟩
      · rw [h2]
        simp only [List.map_cons, sessions, h, if_true]
      · obtain ⟨e1, e2, e3⟩ := h3 (fun sp1 hm => hall sp1 (List.mem_cons_of_mem _ hm))
        refine ⟨?_, ?_, e3⟩
        · rw [e1]
          simp
        · rw [e2]
          simp [poly2tri.SweepContext.AddHole]
    · simp only [h, if_false]
      obtain ⟨st1, h1, h2, _⟩ := path_wallLoop_spec ops tri bbox first height maxDegrees fuel
        W hW rest ⟨Triangulate (tri st.sc) (st.r ++ (W sp).1) first.FloorZ,
          poly2tri.New (W sp).2.FloorPts, st.subPaths ++ [(W sp).2], st.calls ++ [st.sc]⟩
      refine ⟨st1, h1, ?_, fun hall => ?_⟩
      · rw [h2]
        simp only [List.map_cons, sessions, h, Bool.false_eq_true, if_false,
          List.append_assoc, List.singleton_append]
      · exact absurd (hall sp (List.mem_cons_self _ _)) h

theorem path_bevelLoop_spec (ops : MathOps K)
    (tri : poly2tri.SweepContext K → List (poly2tri.Triangle K))
    (bbox : Rect K) (first : SubPath K) (height offset deg maxDegrees : K) (fuel : ℕ)
    (B : SubPath K → List (Triangle3D K) × SubPath K) :
    ∀ (rest : List (SubPath K)) (st : PathState K),
      (∀ sp ∈ rest, sp.Bevel ops height offset deg maxDegrees fuel = .ok (B sp)) →
      ∃ st1, Path.bevelLoop ops tri bbox first height offset deg maxDegrees fuel rest st
          = (st1.calls, .ok st1) ∧
        st1.calls ++ [st1.sc]
          = st.calls ++ sessions bbox st.sc
              (rest.map (fun sp => (sp.BBox, (B sp).2.BevelPts))) ∧
        ((∀ sp ∈ rest, bbox.Contains sp.BBox = true) →
          st1.r = st.r ++ rest.flatMap (fun sp => (B sp).1) ∧
          st1.sc = ⟨st.sc.contour, st.sc.holes ++ rest.map (fun sp => (B sp).2.BevelPts)⟩ ∧
          st1.calls = st.calls)
  | [], st, _ => by
    refine ⟨st, rfl, by simp [sessions], fun _ => ?_⟩
    simp
  | sp :: rest, st, hB => by
    rw [Path.bevelLoop, hB sp (List.mem_cons_self _ _)]
    have hB1 : ∀ sp1 ∈ rest, sp1.Bevel ops height offset deg maxDegrees fuel = .ok (B sp1) :=
      fun sp1 hm => hB sp1 (List.mem_cons_of_mem _ hm)
    by_cases h : bbox.Contains sp.BBox = true
    · simp only [h, if_true]
      obtain ⟨st1, h1, h2, h3⟩ := path_bevelLoop_spec ops tri bbox first height offset deg
        maxDegrees fuel B rest ⟨st.r ++ (B sp).1, st.sc.AddHole (B sp).2.BevelPts,
          st.subPaths ++ [(B sp).2], st.calls⟩ hB1
      refine ⟨st1, h1, ?_, fun hall => ?_⟩
      · rw [h2]
        simp only [List.map_cons, sessions, h, if_true]
      · obtain ⟨e1, e2, e3⟩ := h3 (fun sp1 hm => hall sp1 (List.mem_cons_of_mem _ hm))
        refine ⟨?_, ?_, e3⟩
        · rw [e1]
          simp
        · rw [e2]
          simp [poly2tri.SweepContext.AddHole]
    · simp only [h, if_false]
      obtain ⟨st1, h1, h2, _⟩ := path_bevelLoop_spec ops tri bbox first height offset deg
        maxDegrees fuel B rest ⟨Triangulate (tri st.sc) (st.r ++ (B sp).1) first.BevelZ,
          poly2tri.New (B sp).2.BevelPts, st.subPaths ++ [(B sp).2], st.calls ++ [st.sc]⟩ hB1
      refine ⟨st1, h1, ?_, fun hall => ?_⟩
      · rw [h2]
        simp only [List.map_cons, sessions, h, Bool.false_eq_true, if_false,
          List.append_assoc, List.singleton_append]
      · exact absurd (hall sp (List.mem_cons_self _ _)) h

end PathSessions

section BevelFuel

variable {K : Type} [LinearOrderedField K]

/-- With fuel for 255 iterations the `Bevel` of a segment returns or panics: it
does not run out of fuel. -/
theorem T.bevel_fuel (ops : MathOps K) (seg : T K) (height offset deg maxDegrees : K)
    (flipNormals : Bool) (prevNN nextNN : Vec2 K) (fuel : ℕ) (hfuel : 255 ≤ fuel) :
    seg.Bevel ops height offset deg maxDegrees flipNormals prevNN nextNN fuel
      ≠ .outOfFuel := by
  cases seg with
  | line l =>
    intro h
    exact Outcome.noConfusion h
  | curve c =>
    obtain ⟨out, hts, _⟩ := subdivide_spec ops c maxDegrees fuel hfuel
    intro h
    rcases curve_bevel_cases ops c height offset deg maxDegrees flipNormals prevNN nextNN fuel
      (0 :: out) hts with ⟨_, hp⟩ | ⟨_, r, hr⟩
    · rw [T.Bevel, hp] at h
      exact Outcome.noConfusion h
    · rw [T.Bevel, hr] at h
      exact Outcome.noConfusion h

theorem subpath_bevelLoop_fuel (ops : MathOps K) (s : SubPath K)
    (height offset deg maxDegrees : K) (fuel : ℕ) (hfuel : 255 ≤ fuel) :
    ∀ (l : List (ℕ × T K)) (acc : List (Triangle3D K) × List (Vec2 K)),
      SubPath.bevelLoop ops s height offset deg maxDegrees fuel l acc ≠ .outOfFuel
  | [], acc => by
    intro h
    exact Outcome.noConfusion h
  | (i, seg) :: rest, acc => by
    simp only [SubPath.bevelLoop]
    split
    · exact subpath_bevelLoop_fuel ops s height offset deg maxDegrees fuel hfuel rest _
    · intro h
      exact Outcome.noConfusion h
    · rename_i heq
      exact absurd heq (T.bevel_fuel ops seg height offset deg maxDegrees _ _ _ fuel hfuel)

/-- With fuel for 255 iterations `SubPath.Bevel` returns or panics: it does not
run out of fuel. -/
theorem subpath_bevel_fuel (ops : MathOps K) (s : SubPath K)
    (height offset deg maxDegrees : K) (fuel : ℕ) (hfuel : 255 ≤ fuel) :
    s.Bevel ops height offset deg maxDegrees fuel ≠ .outOfFuel := by
  unfold SubPath.Bevel
  dsimp only
  split
  · intro h
    exact Outcome.noConfusion h
  · intro h
    exact Outcome.noConfusion h
  · rename_i heq
    exact absurd heq (subpath_bevelLoop_fuel ops _ height offset deg maxDegrees fuel hfuel _ _)

/-- The loop of `Path.Bevel` on subpaths one of whose `Bevel` panics: the loop
ends in the panic of a subpath, after at most as many invocations of the
triangulator as there are later subpaths outside the first box. -/
theorem path_bevelLoop_panic (ops : MathOps K)
    (tri : poly2tri.SweepContext K → List (poly2tri.Triangle K))
    (bbox : Rect K) (first : SubPath K) (height offset deg maxDegrees : K) (fuel : ℕ)
    (hfuel : 255 ≤ fuel) :
    ∀ (rest : List (SubPath K)) (st : PathState K),
      (∃ sp ∈ rest, ∃ msg, sp.Bevel ops height offset deg maxDegrees fuel = .panic msg) →
      ∃ calls msg,
        Path.bevelLoop ops tri bbox first height offset deg maxDegrees fuel rest st
          = (calls, .panic msg) ∧
        (∃ sp ∈ rest, sp.Bevel ops height offset deg maxDegrees fuel = .panic msg) ∧
        calls.length ≤ st.calls.length + outsideCount bbox rest
  | [], _, h => by
    obtain ⟨sp, hsp, _⟩ := h
    simp at hsp
  | sp :: rest, st, h => by
    rw [Path.bevelLoop]
    cases hb : sp.Bevel ops height offset deg maxDegrees fuel with
    | panic msg =>
      exact ⟨st.calls, msg, rfl, ⟨sp, List.mem_cons_self _ _, hb⟩, Nat.le_add_right _ _⟩
    | outOfFuel =>
      exact absurd hb (subpath_bevel_fuel ops sp height offset deg maxDegrees fuel hfuel)
    | ok w =>
      have hrest : ∃ sp1 ∈ rest, ∃ msg,
          sp1.Bevel ops height offset deg maxDegrees fuel = .panic msg := by
        obtain ⟨sp1, hm, msg, hmsg⟩ := h
        rcases List.mem_cons.1 hm with rfl | hm
        · rw [hb] at hmsg
          exact Outcome.noConfusion hmsg
        · exact ⟨sp1, hm, msg, hmsg⟩
      by_cases hc : bbox.Contains sp.BBox = true
      · simp only [hc, if_true]
        obtain ⟨calls, msg, h1, ⟨sp1, hm, hp⟩, h2⟩ := path_bevelLoop_panic ops tri bbox first
          height offset deg maxDegrees fuel hfuel rest
          ⟨st.r ++ w.1, st.sc.AddHole w.2.BevelPts, st.subPaths ++ [w.2], st.calls⟩ hrest
        refine ⟨calls, msg, h1, ⟨sp1, List.mem_cons_of_mem _ hm, hp⟩, ?_⟩
        simp only [outsideCount, List.countP_cons, hc, Bool.not_true, Bool.false_eq_true,
          if_false, add_zero] at h2 ⊢
        exact h2
      · have hf : bbox.Contains sp.BBox = false := by simpa using hc
        simp only [hf, Bool.false_eq_true, if_false]
        obtain ⟨calls, msg, h1, ⟨sp1, hm, hp⟩, h2⟩ := path_bevelLoop_panic ops tri bbox first
          height offset deg maxDegrees fuel hfuel rest
          ⟨Triangulate (tri st.sc) (st.r ++ w.1) first.BevelZ, poly2tri.New w.2.BevelPts,
            st.subPaths ++ [w.2], st.calls ++ [st.sc]⟩ hrest
        refine ⟨calls, msg, h1, ⟨sp1, List.mem_cons_of_mem _ hm, hp⟩, ?_⟩
        simp only [outsideCount, List.countP_cons, hf, Bool.not_false, if_true,
          List.length_append, List.length_singleton] at h2 ⊢
        omega

/-- When the `Bevel` of a subpath of a non-empty path panics, `Path.Bevel`
panics with the value of a subpath's panic, after at most `k` invocations of
the triangulator, `k` the number of later subpaths outside the first box. -/
theorem path_bevel_first_panic (ops : MathOps K)
    (tri : poly2tri.SweepContext K → List (poly2tri.Triangle K))
    (sp0 : SubPath K) (rest : List (SubPath K)) (height offset deg maxDegrees : K)
    (fuel : ℕ) (hfuel : 255 ≤ fuel)
    (h : ∃ sp ∈ sp0 :: rest, ∃ msg,
      sp.Bevel ops height offset deg maxDegrees fuel = .panic msg) :
    ∃ calls msg,
      Path.Bevel ops tri ⟨sp0 :: rest⟩ height offset deg maxDegrees fuel
        = (calls, .panic msg) ∧
      (∃ sp ∈ sp0 :: rest, sp.Bevel ops height offset deg maxDegrees fuel = .panic msg) ∧
      calls.length < 1 + outsideCount sp0.BBox rest := by
  cases hb : sp0.Bevel ops height offset deg maxDegrees fuel with
  | panic msg =>
    refine ⟨[], msg, ?_, ⟨sp0, List.mem_cons_self _ _, hb⟩, ?_⟩
    · simp only [Path.Bevel, hb]
    · simp
  | outOfFuel =>
    exact absurd hb (subpath_bevel_fuel ops sp0 height offset deg maxDegrees fuel hfuel)
  | ok w =>
    have hrest : ∃ sp1 ∈ rest, ∃ msg,
        sp1.Bevel ops height offset deg maxDegrees fuel = .panic msg := by
      obtain ⟨sp1, hm, msg, hmsg⟩ := h
      rcases List.mem_cons.1 hm with rfl | hm
      · rw [hb] at hmsg
        exact Outcome.noConfusion hmsg
      · exact ⟨sp1, hm, msg, hmsg⟩
    obtain ⟨calls, msg, h1, ⟨sp1, hm, hp⟩, h2⟩ := path_bevelLoop_panic ops tri sp0.BBox w.2
      height offset deg maxDegrees fuel hfuel rest
      ⟨w.1, poly2tri.New w.2.BevelPts, [w.2], []⟩ hrest
    refine ⟨calls, msg, ?_, ⟨sp1, List.mem_cons_of_mem _ hm, hp⟩, ?_⟩
    · simp only [Path.Bevel, hb, h1]
    · simp only [List.length_nil, zero_add] at h2
      omega

end BevelFuel

section PathSessionsClaim

variable {K : Type} [LinearOrderedField K]

/-- C19 (amended): for a non-empty path `sp0 :: rest`, with the triangulator an
abstract function `tri` of a session, `Path.Wall` invokes the triangulator
exactly `1 + k` times, `k` the number of later subpaths whose box is not
contained in the box of `sp0`, on the sessions the specification describes (a
contained later subpath is a hole of the session open at that moment); when
every later box is contained, the result is all subpaths' wall triangles in
order followed by one batch of cap triangles at `z = sp0.FloorZ`.  The same holds
for `Path.Bevel`, with `BevelPts` and `BevelZ`, whenever the `Bevel` of every
subpath returns normally.  When the `Bevel` of some subpath panics, `Path.Bevel`
panics with the value of a subpath's panic and has invoked the triangulator
fewer than `1 + k` times. -/
theorem path_sessions (ops : MathOps K)
    (tri : poly2tri.SweepContext K → List (poly2tri.Triangle K))
    (sp0 : SubPath K) (rest : List (SubPath K)) (height offset deg maxDegrees : K)
    (fuel : ℕ) (hfuel : 255 ≤ fuel) :
    (∃ (W : SubPath K → List (Triangle3D K) × SubPath K) (st : PathState K),
      (∀ sp, sp.Wall ops height maxDegrees fuel = some (W sp)) ∧
      Path.Wall ops tri ⟨sp0 :: rest⟩ height maxDegrees fuel = some st ∧
      st.calls.length = 1 + outsideCount sp0.BBox rest ∧
      st.calls = sessions sp0.BBox (poly2tri.New (W sp0).2.FloorPts)
        (rest.map (fun sp => (sp.BBox, (W sp).2.FloorPts))) ∧
      ((∀ sp ∈ rest, sp0.BBox.Contains sp.BBox = true) →
        st.calls = [⟨(W sp0).2.FloorPts, rest.map (fun sp => (W sp).2.FloorPts)⟩] ∧
        st.r = (sp0 :: rest).flatMap (fun sp => (W sp).1)
          ++ Triangulate (tri ⟨(W sp0).2.FloorPts, rest.map (fun sp => (W sp).2.FloorPts)⟩)
              [] (W sp0).2.FloorZ)) ∧
    ((∀ sp ∈ sp0 :: rest, ∃ b, sp.Bevel ops height offset deg maxDegrees fuel = .ok b) →
      ∃ (B : SubPath K → List (Triangle3D K) × SubPath K) (st : PathState K),
        (∀ sp ∈ sp0 :: rest, sp.Bevel ops height offset deg maxDegrees fuel = .ok (B sp)) ∧
        Path.Bevel ops tri ⟨sp0 :: rest⟩ height offset deg maxDegrees fuel
          = (st.calls, .ok st) ∧
        st.calls.length = 1 + outsideCount sp0.BBox rest ∧
        st.calls = sessions sp0.BBox (poly2tri.New (B sp0).2.BevelPts)
          (rest.map (fun sp => (sp.BBox, (B sp).2.BevelPts))) ∧
        ((∀ sp ∈ rest, sp0.BBox.Contains sp.BBox = true) →
          st.calls = [⟨(B sp0).2.BevelPts, rest.map (fun sp => (B sp).2.BevelPts)⟩] ∧
          st.r = (sp0 :: rest).flatMap (fun sp => (B sp).1)
            ++ Triangulate (tri ⟨(B sp0).2.BevelPts, rest.map (fun sp => (B sp).2.BevelPts)⟩)
                [] (B sp0).2.BevelZ)) ∧
    ((∃ sp ∈ sp0 :: rest, ∃ msg,
        sp.Bevel ops height offset deg maxDegrees fuel = .panic msg) →
      ∃ calls msg,
        Path.Bevel ops tri ⟨sp0 :: rest⟩ height offset deg maxDegrees fuel
          = (calls, .panic msg) ∧
        (∃ sp ∈ sp0 :: rest, sp.Bevel ops height offset deg maxDegrees fuel = .panic msg) ∧
        calls.length < 1 + outsideCount sp0.BBox rest) := by
  refine ⟨?_, ?_, path_bevel_first_panic ops tri sp0 rest height offset deg maxDegrees fuel
    hfuel⟩
  · have hex : ∀ sp : SubPath K, ∃ w, sp.Wall ops height maxDegrees fuel = some w :=
      fun sp => subpath_wall_some ops sp height maxDegrees fuel hfuel
    choose W hW using hex
    obtain ⟨st1, h1, h2, h3⟩ := path_wallLoop_spec ops tri sp0.BBox (W sp0).2 height maxDegrees
      fuel W hW rest ⟨(W sp0).1, poly2tri.New (W sp0).2.FloorPts, [(W sp0).2], []⟩
    simp only [List.nil_append] at h2
    refine ⟨W, ⟨Triangulate (tri st1.sc) st1.r (W sp0).2.FloorZ, st1.sc, st1.subPaths,
      st1.calls ++ [st1.sc]⟩, hW, ?_, ?_, h2, fun hall => ?_⟩
    · simp only [Path.Wall, hW sp0, h1]
    · show (st1.calls ++ [st1.sc]).length = _
      rw [h2]
      exact sessions_length sp0.BBox rest (fun sp => (W sp).2.FloorPts) _
    · obtain ⟨e1, e2, e3⟩ := h3 hall
      simp only [poly2tri.New, List.nil_append] at e2
      refine ⟨?_, ?_⟩
      · show st1.calls ++ [st1.sc] = _
        rw [e3, e2]
        rfl
      · show Triangulate (tri st1.sc) st1.r (W sp0).2.FloorZ = _
        rw [triangulate_append, e1, e2]
        simp
  · intro hex
    have hex1 : ∀ sp : SubPath K, ∃ b, sp ∈ sp0 :: rest →
        sp.Bevel ops height offset deg maxDegrees fuel = .ok b := by
      intro sp
      by_cases hm : sp ∈ sp0 :: rest
      · obtain ⟨b, hb⟩ := hex sp hm
        exact ⟨b, fun _ => hb⟩
      · exact ⟨([], sp), fun h => absurd h hm⟩
    choose B hB using hex1
    obtain ⟨st1, h1, h2, h3⟩ := path_bevelLoop_spec ops tri sp0.BBox (B sp0).2 height offset deg
      maxDegrees fuel B rest ⟨(B sp0).1, poly2tri.New (B sp0).2.BevelPts, [(B sp0).2], []⟩
      (fun sp hm => hB sp (List.mem_cons_of_mem _ hm))
    simp only [List.nil_append] at h2
    refine ⟨B, ⟨Triangulate (tri st1.sc) st1.r (B sp0).2.BevelZ, st1.sc, st1.subPaths,
      st1.calls ++ [st1.sc]⟩, hB, ?_, ?_, h2, fun hall => ?_⟩
    · simp only [Path.Bevel, hB sp0 (List.mem_cons_self _ _), h1]
    · show (st1.calls ++ [st1.sc]).length = _
      rw [h2]
      exact sessions_length sp0.BBox rest (fun sp => (B sp).2.BevelPts) _
    · obtain ⟨e1, e2, e3⟩ := h3 hall
      simp only [poly2tri.New, List.nil_append] at e2
      refine ⟨?_, ?_⟩
      · show st1.calls ++ [st1.sc] = _
        rw [e3, e2]
        rfl
      · show Triangulate (tri st1.sc) st1.r (B sp0).2.BevelZ = _
        rw [triangulate_append, e1, e2]
        simp

end PathSessionsClaim

section PathSessionsExamples

/-- The amended C19 statement applied to the path of the three one-line subpaths
(0,0)-(3,3), (1,1)-(2,2) and (5,5)-(6,6) over the reals, none of whose `Bevel`
can panic. -/
theorem path_sessions_witness :
    255 ≤ 255 ∧
    (∀ sp ∈ [lineSubPath (⟨0, 0⟩ : Vec2 ℝ) ⟨3, 3⟩, lineSubPath ⟨1, 1⟩ ⟨2, 2⟩,
        lineSubPath ⟨5, 5⟩ ⟨6, 6⟩], ∃ b, sp.Bevel realOps 0 1 45 45 255 = .ok b) ∧
    ((∃ (W : SubPath ℝ → List (Triangle3D ℝ) × SubPath ℝ) (st : PathState ℝ),
      (∀ sp, sp.Wall realOps 0 45 255 = some (W sp)) ∧
      Path.Wall realOps (fun _ => []) ⟨lineSubPath ⟨0, 0⟩ ⟨3, 3⟩ ::
          [lineSubPath ⟨1, 1⟩ ⟨2, 2⟩, lineSubPath ⟨5, 5⟩ ⟨6, 6⟩]⟩ 0 45 255 = some st ∧
      st.calls.length = 1 + outsideCount (lineSubPath (⟨0, 0⟩ : Vec2 ℝ) ⟨3, 3⟩).BBox
        [lineSubPath ⟨1, 1⟩ ⟨2, 2⟩, lineSubPath ⟨5, 5⟩ ⟨6, 6⟩] ∧
      st.calls = sessions (lineSubPath (⟨0, 0⟩ : Vec2 ℝ) ⟨3, 3⟩).BBox
        (poly2tri.New (W (lineSubPath ⟨0, 0⟩ ⟨3, 3⟩)).2.FloorPts)
        ([lineSubPath ⟨1, 1⟩ ⟨2, 2⟩, lineSubPath ⟨5, 5⟩ ⟨6, 6⟩].map
          (fun sp => (sp.BBox, (W sp).2.FloorPts))) ∧
      ((∀ sp ∈ [lineSubPath (⟨1, 1⟩ : Vec2 ℝ) ⟨2, 2⟩, lineSubPath ⟨5, 5⟩ ⟨6, 6⟩],
          (lineSubPath (⟨0, 0⟩ : Vec2 ℝ) ⟨3, 3⟩).BBox.Contains sp.BBox = true) →
        st.calls = [⟨(W (lineSubPath ⟨0, 0⟩ ⟨3, 3⟩)).2.FloorPts,
          [lineSubPath ⟨1, 1⟩ ⟨2, 2⟩, lineSubPath ⟨5, 5⟩ ⟨6, 6⟩].map
            (fun sp => (W sp).2.FloorPts)⟩] ∧
        st.r = (lineSubPath ⟨0, 0⟩ ⟨3, 3⟩ ::
              [lineSubPath ⟨1, 1⟩ ⟨2, 2⟩, lineSubPath ⟨5, 5⟩ ⟨6, 6⟩]).flatMap
            (fun sp => (W sp).1)
          ++ Triangulate ((fun _ => []) (⟨(W (lineSubPath ⟨0, 0⟩ ⟨3, 3⟩)).2.FloorPts,
                [lineSubPath ⟨1, 1⟩ ⟨2, 2⟩, lineSubPath ⟨5, 5⟩ ⟨6, 6⟩].map
                  (fun sp => (W sp).2.FloorPts)⟩ : poly2tri.SweepContext ℝ))
              [] (W (lineSubPath ⟨0, 0⟩ ⟨3, 3⟩)).2.FloorZ)) ∧
    ((∀ sp ∈ lineSubPath (⟨0, 0⟩ : Vec2 ℝ) ⟨3, 3⟩ ::
          [lineSubPath ⟨1, 1⟩ ⟨2, 2⟩, lineSubPath ⟨5, 5⟩ ⟨6, 6⟩],
        ∃ b, sp.Bevel realOps 0 1 45 45 255 = .ok b) →
      ∃ (B : SubPath ℝ → List (Triangle3D ℝ) × SubPath ℝ) (st : PathState ℝ),
        (∀ sp ∈ lineSubPath (⟨0, 0⟩ : Vec2 ℝ) ⟨3, 3⟩ ::
            [lineSubPath ⟨1, 1⟩ ⟨2, 2⟩, lineSubPath ⟨5, 5⟩ ⟨6, 6⟩],
          sp.Bevel realOps 0 1 45 45 255 = .ok (B sp)) ∧
        Path.Bevel realOps (fun _ => []) ⟨lineSubPath ⟨0, 0⟩ ⟨3, 3⟩ ::
            [lineSubPath ⟨1, 1⟩ ⟨2, 2⟩, lineSubPath ⟨5, 5⟩ ⟨6, 6⟩]⟩ 0 1 45 45 255
          = (st.calls, .ok st) ∧
        st.calls.length = 1 + outsideCount (lineSubPath (⟨0, 0⟩ : Vec2 ℝ) ⟨3, 3⟩).BBox
          [lineSubPath ⟨1, 1⟩ ⟨2, 2⟩, lineSubPath ⟨5, 5⟩ ⟨6, 6⟩] ∧
        st.calls = sessions (lineSubPath (⟨0, 0⟩ : Vec2 ℝ) ⟨3, 3⟩).BBox
          (poly2tri.New (B (lineSubPath ⟨0, 0⟩ ⟨3, 3⟩)).2.BevelPts)
          ([lineSubPath ⟨1, 1⟩ ⟨2, 2⟩, lineSubPath ⟨5, 5⟩ ⟨6, 6⟩].map
            (fun sp => (sp.BBox, (B sp).2.BevelPts))) ∧
        ((∀ sp ∈ [lineSubPath (⟨1, 1⟩ : Vec2 ℝ) ⟨2, 2⟩, lineSubPath ⟨5, 5⟩ ⟨6, 6⟩],
            (lineSubPath (⟨0, 0⟩ : Vec2 ℝ) ⟨3, 3⟩).BBox.Contains sp.BBox = true) →
          st.calls = [⟨(B (lineSubPath ⟨0, 0⟩ ⟨3, 3⟩)).2.BevelPts,
            [lineSubPath ⟨1, 1⟩ ⟨2, 2⟩, lineSubPath ⟨5, 5⟩ ⟨6, 6⟩].map
              (fun sp => (B sp).2.BevelPts)⟩] ∧
          st.r = (lineSubPath ⟨0, 0⟩ ⟨3, 3⟩ ::
                [lineSubPath ⟨1, 1⟩ ⟨2, 2⟩, lineSubPath ⟨5, 5⟩ ⟨6, 6⟩]).flatMap
              (fun sp => (B sp).1)
            ++ Triangulate ((fun _ => []) (⟨(B (lineSubPath ⟨0, 0⟩ ⟨3, 3⟩)).2.BevelPts,
                  [lineSubPath ⟨1, 1⟩ ⟨2, 2⟩, lineSubPath ⟨5, 5⟩ ⟨6, 6⟩].map
                    (fun sp => (B sp).2.BevelPts)⟩ : poly2tri.SweepContext ℝ))
                [] (B (lineSubPath ⟨0, 0⟩ ⟨3, 3⟩)).2.BevelZ)) ∧
    ((∃ sp ∈ lineSubPath (⟨0, 0⟩ : Vec2 ℝ) ⟨3, 3⟩ ::
          [lineSubPath ⟨1, 1⟩ ⟨2, 2⟩, lineSubPath ⟨5, 5⟩ ⟨6, 6⟩],
        ∃ msg, sp.Bevel realOps 0 1 45 45 255 = .panic msg) →
      ∃ calls msg,
        Path.Bevel realOps (fun _ => []) ⟨lineSubPath ⟨0, 0⟩ ⟨3, 3⟩ ::
            [lineSubPath ⟨1, 1⟩ ⟨2, 2⟩, lineSubPath ⟨5, 5⟩ ⟨6, 6⟩]⟩ 0 1 45 45 255
          = (calls, .panic msg) ∧
        (∃ sp ∈ lineSubPath (⟨0, 0⟩ : Vec2 ℝ) ⟨3, 3⟩ ::
            [lineSubPath ⟨1, 1⟩ ⟨2, 2⟩, lineSubPath ⟨5, 5⟩ ⟨6, 6⟩],
          sp.Bevel realOps 0 1 45 45 255 = .panic msg) ∧
        calls.length < 1 + outsideCount (lineSubPath (⟨0, 0⟩ : Vec2 ℝ) ⟨3, 3⟩).BBox
          [lineSubPath ⟨1, 1⟩ ⟨2, 2⟩, lineSubPath ⟨5, 5⟩ ⟨6, 6⟩])) := by
  refine ⟨le_refl 255, ?_,
    path_sessions realOps (fun _ => []) (lineSubPath ⟨0, 0⟩ ⟨3, 3⟩)
      [lineSubPath ⟨1, 1⟩ ⟨2, 2⟩, lineSubPath ⟨5, 5⟩ ⟨6, 6⟩] 0 1 45 45 255 (le_refl 255)⟩
  intro sp hsp
  simp only [List.mem_cons, List.mem_singleton, List.not_mem_nil, or_false] at hsp
  rcases hsp with rfl | rfl | rfl <;> exact ⟨_, rfl⟩

/-- C19 (counterexample): the path whose one subpath is the curve (0,0), (-1,4),
(-1,4), (32,0) with flipped normals has no later subpath, so `k = 0`, but
`Path.Bevel(0, 5, 45, 90)` panics in the `Bevel` of that subpath and the
triangulator is invoked 0 times, not 1. -/
theorem path_bevel_panics :
    Path.Bevel realOps (fun _ => []) ⟨[(pinchSubPath : SubPath ℝ)]⟩ 0 5 45 90 255
        = ([], .panic "curve2d.go: unhandled problem") ∧
      (Path.Bevel realOps (fun _ => []) ⟨[(pinchSubPath : SubPath ℝ)]⟩ 0 5 45 90 255).1.length
        = 0 ∧
      1 + outsideCount (pinchSubPath : SubPath ℝ).BBox [] = 1 := by
  have h : Path.Bevel realOps (fun _ => []) ⟨[(pinchSubPath : SubPath ℝ)]⟩ 0 5 45 90 255
      = ([], .panic "curve2d.go: unhandled problem") := by
    have hr : List.range 1 = [0] := rfl
    simp only [Path.Bevel, SubPath.Bevel, pinchSubPath, List.length_singleton, hr,
      List.zip_cons_cons, List.zip_nil_right, SubPath.bevelLoop, T.Bevel, pinchCurve_Bevel]
  refine ⟨h, ?_, rfl⟩
  rw [h]
  rfl

end PathSessionsExamples

/-! ## `segmentsIntersect` -/

section Intersect

variable {K : Type} [LinearOrderedField K]

theorem between_iff (p q v : K) :
    (if p ≥ q then ¬ (q ≤ v ∧ v ≤ p) else ¬ (p ≤ v ∧ v ≤ q))
      ↔ ¬ (min p q ≤ v ∧ v ≤ max p q) := by
  by_cases h : p ≥ q
  · rw [if_pos h, min_eq_right h, max_eq_left h]
  · have h1 : p ≤ q := le_of_lt (not_le.1 h)
    rw [if_neg h, min_eq_left h1, max_eq_right h1]

/-- What the tests of `segmentsIntersect` amount to: `div` is not zero and the
computed point lies in the bounding extent of each segment. -/
theorem segmentsIntersect_iff (a b c d : Vec2 K) :
    segmentsIntersect a b c d = true ↔
      (a.x - b.x) * (c.y - d.y) - (a.y - b.y) * (c.x - d.x) ≠ 0 ∧
      (min a.x b.x ≤ (intersectionPoint a b c d).x ∧
        (intersectionPoint a b c d).x ≤ max a.x b.x) ∧
      (min a.y b.y ≤ (intersectionPoint a b c d).y ∧
        (intersectionPoint a b c d).y ≤ max a.y b.y) ∧
      (min c.x d.x ≤ (intersectionPoint a b c d).x ∧
        (intersectionPoint a b c d).x ≤ max c.x d.x) ∧
      (min c.y d.y ≤ (intersectionPoint a b c d).y ∧
        (intersectionPoint a b c d).y ≤ max c.y d.y) := by
  unfold segmentsIntersect
  by_cases hdiv : (a.x - b.x) * (c.y - d.y) - (a.y - b.y) * (c.x - d.x) = 0
  · simp [hdiv]
  · simp only [hdiv, if_false, between_iff, ne_eq, not_false_eq_true, true_and]
    simp only [intersectionPoint]
    by_cases h1 : (min a.x b.x ≤ ((a.x * b.y - a.y * b.x) * (c.x - d.x)
          - (a.x - b.x) * (c.x * d.y - c.y * d.x))
          / ((a.x - b.x) * (c.y - d.y) - (a.y - b.y) * (c.x - d.x)) ∧
        ((a.x * b.y - a.y * b.x) * (c.x - d.x) - (a.x - b.x) * (c.x * d.y - c.y * d.x))
          / ((a.x - b.x) * (c.y - d.y) - (a.y - b.y) * (c.x - d.x)) ≤ max a.x b.x)
    · by_cases h2 : (min a.y b.y ≤ ((a.x * b.y - a.y * b.x) * (c.y - d.y)
            - (a.y - b.y) * (c.x * d.y - c.y * d.x))
            / ((a.x - b.x) * (c.y - d.y) - (a.y - b.y) * (c.x - d.x)) ∧
          ((a.x * b.y - a.y * b.x) * (c.y - d.y) - (a.y - b.y) * (c.x * d.y - c.y * d.x))
            / ((a.x - b.x) * (c.y - d.y) - (a.y - b.y) * (c.x - d.x)) ≤ max a.y b.y)
      · by_cases h3 : (min c.x d.x ≤ ((a.x * b.y - a.y * b.x) * (c.x - d.x)
              - (a.x - b.x) * (c.x * d.y - c.y * d.x))
              / ((a.x - b.x) * (c.y - d.y) - (a.y - b.y) * (c.x - d.x)) ∧
            ((a.x * b.y - a.y * b.x) * (c.x - d.x) - (a.x - b.x) * (c.x * d.y - c.y * d.x))
              / ((a.x - b.x) * (c.y - d.y) - (a.y - b.y) * (c.x - d.x)) ≤ max c.x d.x)
        · by_cases h4 : (min c.y d.y ≤ ((a.x * b.y - a.y * b.x) * (c.y - d.y)
                - (a.y - b.y) * (c.x * d.y - c.y * d.x))
                / ((a.x - b.x) * (c.y - d.y) - (a.y - b.y) * (c.x - d.x)) ∧
              ((a.x * b.y - a.y * b.x) * (c.y - d.y) - (a.y - b.y) * (c.x * d.y - c.y * d.x))
                / ((a.x - b.x) * (c.y - d.y) - (a.y - b.y) * (c.x - d.x)) ≤ max c.y d.y)
          · rw [if_neg (not_not.2 h1), if_neg (not_not.2 h2), if_neg (not_not.2 h3),
              if_neg (not_not.2 h4)]
            exact ⟨fun _ => ⟨h1, h2, h3, h4⟩, fun _ => rfl⟩
          · rw [if_neg (not_not.2 h1), if_neg (not_not.2 h2), if_neg (not_not.2 h3),
              if_pos h4]
            exact ⟨fun h => absurd h (by decide), fun h => absurd h.2.2.2 h4⟩
        · rw [if_neg (not_not.2 h1), if_neg (not_not.2 h2), if_pos h3]
          exact ⟨fun h => absurd h (by decide), fun h => absurd h.2.2.1 h3⟩
      · rw [if_neg (not_not.2 h1), if_pos h2]
        exact ⟨fun h => absurd h (by decide), fun h => absurd h.2.1 h2⟩
    · rw [if_pos h1]
      exact ⟨fun h => absurd h (by decide), fun h => absurd h.1 h1⟩

/-- The point computed by `segmentsIntersect` lies on the line through `a` and
`b` and on the line through `c` and `d`. -/
theorem intersectionPoint_on_lines (a b c d : Vec2 K)
    (hdiv : (a.x - b.x) * (c.y - d.y) - (a.y - b.y) * (c.x - d.x) ≠ 0) :
    ((intersectionPoint a b c d).x - a.x) * (b.y - a.y)
        = ((intersectionPoint a b c d).y - a.y) * (b.x - a.x) ∧
      ((intersectionPoint a b c d).x - c.x) * (d.y - c.y)
        = ((intersectionPoint a b c d).y - c.y) * (d.x - c.x) := by
  simp only [intersectionPoint]
  constructor
  · field_simp
    ring
  · field_simp
    ring

/-- A point of the line through `a` and `b`, `a ≠ b`, that lies in the
bounding extent of the segment `ab` is a point `a + s (b - a)` with `s` in
`[0, 1]`. -/
theorem on_segment (a b p : Vec2 K) (hab : a ≠ b)
    (hline : (p.x - a.x) * (b.y - a.y) = (p.y - a.y) * (b.x - a.x))
    (hx : min a.x b.x ≤ p.x ∧ p.x ≤ max a.x b.x)
    (hy : min a.y b.y ≤ p.y ∧ p.y ≤ max a.y b.y) :
    ∃ s : K, 0 ≤ s ∧ s ≤ 1 ∧ vec2.Add a (vec2.Scale (vec2.Sub b a) s) = p := by
  cases a with
  | mk ax ay =>
  cases b with
  | mk bx b_y =>
  cases p with
  | mk px py =>
  simp only at hline hx hy
  simp only [vec2.Add, vec2.Scale, vec2.Sub, Vec2.mk.injEq]
  by_cases h1 : ax = bx
  · have h2 : ay ≠ b_y := by
      intro h
      exact hab (by rw [h1, h])
    subst h1
    have hpx : px = ax := by
      simp only [min_self, max_self] at hx
      exact le_antisymm hx.2 hx.1
    have hd : b_y - ay ≠ 0 := sub_ne_zero.2 (Ne.symm h2)
    refine ⟨(py - ay) / (b_y - ay), ?_, ?_, ?_, ?_⟩
    · rcases lt_or_gt_of_ne h2 with h | h
      · rw [min_eq_left h.le] at hy
        exact div_nonneg (by linarith [hy.1]) (by linarith)
      · rw [max_eq_left h.le] at hy
        exact div_nonneg_of_nonpos (by linarith [hy.2]) (by linarith)
    · rcases lt_or_gt_of_ne h2 with h | h
      · rw [max_eq_right h.le] at hy
        rw [div_le_one (by linarith)]
        linarith [hy.2]
      · rw [min_eq_right h.le] at hy
        rw [div_le_one_of_neg (by linarith)]
        linarith [hy.1]
    · rw [hpx]
      ring
    · field_simp
  · have hd : bx - ax ≠ 0 := sub_ne_zero.2 (Ne.symm h1)
    refine ⟨(px - ax) / (bx - ax), ?_, ?_, ?_, ?_⟩
    · rcases lt_or_gt_of_ne h1 with h | h
      · rw [min_eq_left h.le] at hx
        exact div_nonneg (by linarith [hx.1]) (by linarith)
      · rw [max_eq_left h.le] at hx
        exact div_nonneg_of_nonpos (by linarith [hx.2]) (by linarith)
    · rcases lt_or_gt_of_ne h1 with h | h
      · rw [max_eq_right h.le] at hx
        rw [div_le_one (by linarith)]
        linarith [hx.2]
      · rw [min_eq_right h.le] at hx
        rw [div_le_one_of_neg (by linarith)]
        linarith [hx.1]
    · field_simp
    · field_simp
      linear_combination hline

/-- C21: if `segmentsIntersect(a, b, c, d)` returns true, then the determinant
`div` is not zero (so neither segment has length zero and the lines are not
parallel), the computed point `(x, y)` is `a + s (b - a)` and `c + u (d - c)` for
some `s` and `u` in `[0, 1]`, and the bounding extents of the two segments are
not disjoint. -/
theorem segmentsIntersect_sound (a b c d : Vec2 K)
    (h : segmentsIntersect a b c d = true) :
    (a.x - b.x) * (c.y - d.y) - (a.y - b.y) * (c.x - d.x) ≠ 0 ∧ a ≠ b ∧ c ≠ d ∧
      (∃ s u : K, 0 ≤ s ∧ s ≤ 1 ∧ 0 ≤ u ∧ u ≤ 1 ∧
        vec2.Add a (vec2.Scale (vec2.Sub b a) s) = intersectionPoint a b c d ∧
        vec2.Add c (vec2.Scale (vec2.Sub d c) u) = intersectionPoint a b c d) ∧
      ¬ extentsDisjoint a b c d := by
  obtain ⟨hdiv, hx1, hy1, hx2, hy2⟩ := (segmentsIntersect_iff a b c d).1 h
  obtain ⟨hl1, hl2⟩ := intersectionPoint_on_lines a b c d hdiv
  have hab : a ≠ b := by
    rintro rfl
    exact hdiv (by ring)
  have hcd : c ≠ d := by
    rintro rfl
    exact hdiv (by ring)
  obtain ⟨s, hs0, hs1, hs⟩ := on_segment a b (intersectionPoint a b c d) hab hl1 hx1 hy1
  obtain ⟨u, hu0, hu1, hu⟩ := on_segment c d (intersectionPoint a b c d) hcd hl2 hx2 hy2
  refine ⟨hdiv, hab, hcd, ⟨s, u, hs0, hs1, hu0, hu1, hs, hu⟩, ?_⟩
  rintro (hd | hd | hd | hd)
  · exact absurd (lt_of_le_of_lt (hx2.1.trans hx1.2) hd) (lt_irrefl _)
  · exact absurd (lt_of_le_of_lt (hx1.1.trans hx2.2) hd) (lt_irrefl _)
  · exact absurd (lt_of_le_of_lt (hy2.1.trans hy1.2) hd) (lt_irrefl _)
  · exact absurd (lt_of_le_of_lt (hy1.1.trans hy2.2) hd) (lt_irrefl _)

/-- The statement of C21 at the diagonals (0,0)-(2,2) and (0,2)-(2,0) of a
square, over the rationals. -/
theorem segmentsIntersect_sound_witness :
    segmentsIntersect (⟨0, 0⟩ : Vec2 ℚ) ⟨2, 2⟩ ⟨0, 2⟩ ⟨2, 0⟩ = true ∧
      (((0 : ℚ) - 2) * (2 - 0) - (0 - 2) * (0 - 2) ≠ 0 ∧
        (⟨0, 0⟩ : Vec2 ℚ) ≠ ⟨2, 2⟩ ∧ (⟨0, 2⟩ : Vec2 ℚ) ≠ ⟨2, 0⟩ ∧
        (∃ s u : ℚ, 0 ≤ s ∧ s ≤ 1 ∧ 0 ≤ u ∧ u ≤ 1 ∧
          vec2.Add ⟨0, 0⟩ (vec2.Scale (vec2.Sub ⟨2, 2⟩ ⟨0, 0⟩) s)
            = intersectionPoint (⟨0, 0⟩ : Vec2 ℚ) ⟨2, 2⟩ ⟨0, 2⟩ ⟨2, 0⟩ ∧
          vec2.Add ⟨0, 2⟩ (vec2.Scale (vec2.Sub ⟨2, 0⟩ ⟨0, 2⟩) u)
            = intersectionPoint (⟨0, 0⟩ : Vec2 ℚ) ⟨2, 2⟩ ⟨0, 2⟩ ⟨2, 0⟩) ∧
        ¬ extentsDisjoint (⟨0, 0⟩ : Vec2 ℚ) ⟨2, 2⟩ ⟨0, 2⟩ ⟨2, 0⟩) :=
  ⟨by norm_num [segmentsIntersect],
    segmentsIntersect_sound ⟨0, 0⟩ ⟨2, 2⟩ ⟨0, 2⟩ ⟨2, 0⟩ (by norm_num [segmentsIntersect])⟩

end Intersect

section IntersectComplete

variable {K : Type} [LinearOrderedField K]

theorem lerp_between (p q s : K) (h0 : 0 ≤ s) (h1 : s ≤ 1) :
    min p q ≤ p + (q - p) * s ∧ p + (q - p) * s ≤ max p q := by
  rcases le_total p q with h | h
  · rw [min_eq_left h, max_eq_right h]
    constructor
    · nlinarith [mul_nonneg (sub_nonneg.2 h) h0]
    · nlinarith [mul_nonneg (sub_nonneg.2 h) (sub_nonneg.2 h1)]
  · rw [min_eq_right h, max_eq_left h]
    constructor
    · nlinarith [mul_nonneg (sub_nonneg.2 h) (sub_nonneg.2 h1)]
    · nlinarith [mul_nonneg (sub_nonneg.2 h) h0]

/-- A point shared by the lines through `a`, `b` and through `c`, `d` is the
point that `segmentsIntersect` computes, when `div` is not zero. -/
theorem intersectionPoint_eq (a b c d : Vec2 K) (s u : K)
    (hdiv : (a.x - b.x) * (c.y - d.y) - (a.y - b.y) * (c.x - d.x) ≠ 0)
    (hp : vec2.Add a (vec2.Scale (vec2.Sub b a) s) = vec2.Add c (vec2.Scale (vec2.Sub d c) u)) :
    intersectionPoint a b c d = vec2.Add a (vec2.Scale (vec2.Sub b a) s) := by
  simp only [vec2.Add, vec2.Scale, vec2.Sub, Vec2.mk.injEq] at hp
  obtain ⟨e1, e2⟩ := hp
  simp only [intersectionPoint, vec2.Add, vec2.Scale, vec2.Sub, Vec2.mk.injEq]
  constructor
  · rw [div_eq_iff hdiv]
    linear_combination (a.x - b.x) * (c.x - d.x) * e2 - (a.x - b.x) * (c.y - d.y) * e1
  · rw [div_eq_iff hdiv]
    linear_combination (a.y - b.y) * (c.x - d.x) * e2 - (a.y - b.y) * (c.y - d.y) * e1

/-- C22: if the segments `ab` and `cd` are not parallel (`div` is not zero) and
share a point `a + s (b - a) = c + u (d - c)` with `s` and `u` in `[0, 1]`, end
points included, then `segmentsIntersect(a, b, c, d)` returns true. -/
theorem segmentsIntersect_complete (a b c d : Vec2 K) (s u : K)
    (hdiv : (a.x - b.x) * (c.y - d.y) - (a.y - b.y) * (c.x - d.x) ≠ 0)
    (hs0 : 0 ≤ s) (hs1 : s ≤ 1) (hu0 : 0 ≤ u) (hu1 : u ≤ 1)
    (hp : vec2.Add a (vec2.Scale (vec2.Sub b a) s) = vec2.Add c (vec2.Scale (vec2.Sub d c) u)) :
    segmentsIntersect a b c d = true := by
  rw [segmentsIntersect_iff]
  have e1 := intersectionPoint_eq a b c d s u hdiv hp
  have e2 : intersectionPoint a b c d = vec2.Add c (vec2.Scale (vec2.Sub d c) u) := by
    rw [e1, hp]
  refine ⟨hdiv, ?_, ?_, ?_, ?_⟩
  · rw [e1]
    exact lerp_between a.x b.x s hs0 hs1
  · rw [e1]
    exact lerp_between a.y b.y s hs0 hs1
  · rw [e2]
    exact lerp_between c.x d.x u hu0 hu1
  · rw [e2]
    exact lerp_between c.y d.y u hu0 hu1

/-- The statement of C22 at the segments (0,0)-(2,0) and (2,0)-(2,3), which
share the end point (2,0), over the rationals. -/
theorem segmentsIntersect_complete_witness :
    ((0 : ℚ) - 2) * (0 - 3) - (0 - 0) * (2 - 2) ≠ 0 ∧
      (0 : ℚ) ≤ 1 ∧ (1 : ℚ) ≤ 1 ∧ (0 : ℚ) ≤ 0 ∧ (0 : ℚ) ≤ 1 ∧
      vec2.Add (⟨0, 0⟩ : Vec2 ℚ) (vec2.Scale (vec2.Sub ⟨2, 0⟩ ⟨0, 0⟩) 1)
        = vec2.Add ⟨2, 0⟩ (vec2.Scale (vec2.Sub ⟨2, 3⟩ ⟨2, 0⟩) 0) ∧
      segmentsIntersect (⟨0, 0⟩ : Vec2 ℚ) ⟨2, 0⟩ ⟨2, 0⟩ ⟨2, 3⟩ = true :=
  ⟨by norm_num, by norm_num, by norm_num, by norm_num, by norm_num,
    by norm_num [vec2.Add, vec2.Scale, vec2.Sub],
    segmentsIntersect_complete ⟨0, 0⟩ ⟨2, 0⟩ ⟨2, 0⟩ ⟨2, 3⟩ 1 0 (by norm_num) (by norm_num)
      (by norm_num) (by norm_num) (by norm_num)
      (by norm_num [vec2.Add, vec2.Scale, vec2.Sub])⟩

end IntersectComplete

/-! ## The slices of `Curve.Bevel` -/

section BevelSlices

variable {K : Type} [LinearOrderedField K]

theorem bevelSlice_eq_spec (ops : MathOps K) (seg : T K) (height offset deg : K)
    (prevNN nextNN : Vec2 K) (ts : List K)
    (acc : List (Triangle3D K) × List (Vec2 K)) (i : Nat) (hi : i < ts.length - 1)
    (h : ¬ T.interiorHit ops seg offset false prevNN nextNN ts i) :
    T.bevelSlice ops seg height offset deg false prevNN nextNN ts acc i
      = .ok (acc.1 ++ (T.sliceSpec ops seg height offset deg prevNN nextNN ts i).1,
          acc.2 ++ (T.sliceSpec ops seg height offset deg prevNN nextNN ts i).2) := by
  simp only [T.bevelSlice, T.sliceSpec, bevelSliceSpec, T.legsHit, Bool.false_eq_true,
    if_false, poly2tri.NewPoint]
  by_cases hs : segmentsIntersect
      (T.bevelLegs ops seg offset false prevNN nextNN ts i).1
      (T.bevelLegs ops seg offset false prevNN nextNN ts i).2.2.1
      (T.bevelLegs ops seg offset false prevNN nextNN ts i).2.1
      (T.bevelLegs ops seg offset false prevNN nextNN ts i).2.2.2 = true
  · by_cases h0 : i = 0
    · subst h0
      simp [hs]
    · by_cases h1 : i + 1 = ts.length - 1
      · simp [hs, h0, h1]
      · exact absurd ⟨Nat.pos_of_ne_zero h0, by omega, hs⟩ h
  · simp [hs]

theorem bevelLoop_eq_spec (ops : MathOps K) (seg : T K) (height offset deg : K)
    (prevNN nextNN : Vec2 K) (ts : List K) :
    ∀ (l : List Nat) (acc : List (Triangle3D K) × List (Vec2 K)),
      (∀ i ∈ l, i < ts.length - 1) →
      (∀ i ∈ l, ¬ T.interiorHit ops seg offset false prevNN nextNN ts i) →
      T.bevelLoop ops seg height offset deg false prevNN nextNN ts l acc
        = .ok (acc.1 ++ l.flatMap
              (fun i => (T.sliceSpec ops seg height offset deg prevNN nextNN ts i).1),
            acc.2 ++ l.flatMap
              (fun i => (T.sliceSpec ops seg height offset deg prevNN nextNN ts i).2))
  | [], acc, _, _ => by simp [T.bevelLoop]
  | j :: rest, acc, hb, h => by
    rw [T.bevelLoop, bevelSlice_eq_spec ops seg height offset deg prevNN nextNN ts acc j
      (hb j (List.mem_cons_self _ _)) (h j (List.mem_cons_self _ _))]
    simp only
    rw [bevelLoop_eq_spec ops seg height offset deg prevNN nextNN ts rest _
      (fun i hi => hb i (List.mem_cons_of_mem _ hi))
      (fun i hi => h i (List.mem_cons_of_mem _ hi))]
    simp

theorem length_flatMap_ones {α β : Type} (g : α → List β) :
    ∀ l : List α, (∀ x ∈ l, (g x).length = 1) → (l.flatMap g).length = l.length
  | [], _ => rfl
  | x :: rest, h => by
    rw [List.flatMap_cons, List.length_append, h x (List.mem_cons_self _ _),
      length_flatMap_ones g rest (fun y hy => h y (List.mem_cons_of_mem _ hy)),
      List.length_cons, add_comm]

theorem bevelSliceSpec_z (height r : K) (p0 p1 p2 p3 : Vec2 K) (hit first last : Bool)
    (t : Triangle3D K) (ht : t ∈ (bevelSliceSpec height r p0 p1 p2 p3 hit first last).1) :
    (t.v0.z = height ∨ t.v0.z = height + r) ∧ (t.v1.z = height ∨ t.v1.z = height + r) ∧
      (t.v2.z = height ∨ t.v2.z = height + r) := by
  unfold bevelSliceSpec at ht
  cases hit <;> cases first <;> cases last <;>
    simp only [Bool.not_false, Bool.not_true, if_true, if_false, Bool.false_eq_true,
      List.mem_cons, List.mem_singleton, List.not_mem_nil, or_false] at ht
  all_goals (rcases ht with rfl | rfl <;> simp)

theorem subdivide_length (ops : MathOps K) (s : Curve K) (maxDegrees : K) (fuel : ℕ)
    (hfuel : 255 ≤ fuel) :
    ∃ ts, s.Subdivide ops maxDegrees fuel = some ts ∧ 3 ≤ ts.length := by
  obtain ⟨out, hts, _, _, _, hhalf, hone⟩ := subdivide_spec ops s maxDegrees fuel hfuel
  refine ⟨0 :: out, hts, ?_⟩
  match out, hhalf, hone with
  | [], hhalf, _ => simp at hhalf
  | [x], hhalf, hone =>
    simp only [List.mem_singleton] at hhalf hone
    rw [← hhalf] at hone
    norm_num at hone
  | _ :: _ :: _, _, _ => simp

theorem sliceSpec_pts_length (ops : MathOps K) (seg : T K) (height offset deg : K)
    (prevNN nextNN : Vec2 K) (ts : List K) (i : Nat) (hi : i < ts.length - 1)
    (h : ¬ T.interiorHit ops seg offset false prevNN nextNN ts i) :
    (T.sliceSpec ops seg height offset deg prevNN nextNN ts i).2.length
      = if i = 0 ∧ T.legsHit ops seg offset false prevNN nextNN ts i = true then 0 else 1 := by
  unfold T.sliceSpec bevelSliceSpec
  by_cases hs : T.legsHit ops seg offset false prevNN nextNN ts i = true
  · by_cases h0 : i = 0
    · subst h0
      simp [hs]
    · by_cases h1 : i + 1 = ts.length - 1
      · simp [hs, h0, h1]
      · exact absurd ⟨Nat.pos_of_ne_zero h0, by omega, hs⟩ h
  · simp [hs]

/-- C23: with fuel for 255 iterations `Subdivide` returns parameters `ts` with at
least two slices, and whenever `Curve.Bevel` with `flipNormals = false` returns
(as it does when no interior slice has intersecting legs), its triangles and
contour points are, slice after slice, those of `bevelSliceSpec` with rise
`offset * tan(deg * pi / 180)`: two triangles and `p3` for a slice whose legs do
not intersect, one triangle and no point for an intersection at the first slice,
one triangle and `p3` for an intersection at the last slice.  The number of
contour points is the number of slices, less one if the legs of the first slice
intersect, and every vertex has `z` equal to `height` or to `height` plus the
rise. -/
theorem curve_bevel_slices (ops : MathOps K) (s : Curve K)
    (height offset deg maxDegrees : K) (prevNN nextNN : Vec2 K) (fuel : ℕ)
    (hfuel : 255 ≤ fuel) :
    ∃ ts, s.Subdivide ops maxDegrees fuel = some ts ∧ 3 ≤ ts.length ∧
      ((¬ ∃ i, T.interiorHit ops (.curve s) offset false prevNN nextNN ts i) →
        ∃ r, s.Bevel ops height offset deg maxDegrees false prevNN nextNN fuel = .ok r) ∧
      ∀ r, s.Bevel ops height offset deg maxDegrees false prevNN nextNN fuel = .ok r →
        r.tris = (List.range (ts.length - 1)).flatMap
          (fun i => (T.sliceSpec ops (.curve s) height offset deg prevNN nextNN ts i).1) ∧
        r.pts = (List.range (ts.length - 1)).flatMap
          (fun i => (T.sliceSpec ops (.curve s) height offset deg prevNN nextNN ts i).2) ∧
        r.pts.length = (ts.length - 1)
          - (if T.legsHit ops (.curve s) offset false prevNN nextNN ts 0 = true then 1 else 0) ∧
        ∀ t ∈ r.tris,
          (t.v0.z = height ∨ t.v0.z = height + offset * ops.tan (deg * ops.pi / 180)) ∧
          (t.v1.z = height ∨ t.v1.z = height + offset * ops.tan (deg * ops.pi / 180)) ∧
          (t.v2.z = height ∨ t.v2.z = height + offset * ops.tan (deg * ops.pi / 180)) := by
  obtain ⟨ts, hts, hlen⟩ := subdivide_length ops s maxDegrees fuel hfuel
  refine ⟨ts, hts, hlen, ?_, ?_⟩
  · intro hno
    rcases curve_bevel_cases ops s height offset deg maxDegrees false prevNN nextNN fuel ts hts
      with ⟨hit, _⟩ | ⟨_, hr⟩
    · exact absurd hit hno
    · exact hr
  · intro r hr
    have hno : ¬ ∃ i, T.interiorHit ops (.curve s) offset false prevNN nextNN ts i := by
      rcases curve_bevel_cases ops s height offset deg maxDegrees false prevNN nextNN fuel ts
        hts with ⟨_, hp⟩ | ⟨hno, _⟩
      · rw [hp] at hr
        exact Outcome.noConfusion hr
      · exact hno
    have hb : ∀ i ∈ List.range (ts.length - 1), i < ts.length - 1 :=
      fun i hi => List.mem_range.1 hi
    have hloop := bevelLoop_eq_spec ops (.curve s) height offset deg prevNN nextNN ts
      (List.range (ts.length - 1)) ([], []) hb (fun i _ hit => hno ⟨i, hit⟩)
    have hn : ¬ ts.length ≤ 0 := by omega
    simp only [Curve.Bevel, hts, hn, if_false, hloop, List.nil_append,
      Outcome.ok.injEq] at hr
    subst hr
    refine ⟨rfl, rfl, ?_, ?_⟩
    · obtain ⟨k, hk⟩ : ∃ k, ts.length - 1 = k + 1 := ⟨ts.length - 2, by omega⟩
      have h0 := sliceSpec_pts_length ops (.curve s) height offset deg prevNN nextNN ts 0
        (by omega) (fun hit => hno ⟨0, hit⟩)
      have hrest : ((List.map Nat.succ (List.range k)).flatMap
          (fun i => (T.sliceSpec ops (.curve s) height offset deg prevNN nextNN ts i).2)).length
          = k := by
        rw [length_flatMap_ones, List.length_map, List.length_range]
        intro x hx
        obtain ⟨j, hj, rfl⟩ := List.mem_map.1 hx
        have hj1 : j < k := List.mem_range.1 hj
        rw [sliceSpec_pts_length ops (.curve s) height offset deg prevNN nextNN ts (j + 1)
          (by omega) (fun hit => hno ⟨j + 1, hit⟩)]
        simp
      show ((List.range (ts.length - 1)).flatMap _).length = _
      rw [hk, List.range_succ_eq_map, List.flatMap_cons, List.length_append, hrest, h0]
      by_cases hs : T.legsHit ops (.curve s) offset false prevNN nextNN ts 0 = true
      · simp [hs]
      · simp [hs]
        omega
    · intro t ht
      obtain ⟨i, _, hti⟩ := List.mem_flatMap.1 ht
      exact bevelSliceSpec_z _ _ _ _ _ _ _ _ _ t hti

/-- The statement of C23 applied to the curve (0,0), (0,1), (2,1), (2,0) of the
package's tests over the reals, with 255 iterations of fuel. -/
theorem curve_bevel_slices_witness :
    255 ≤ 255 ∧
    ∃ ts, (NewCurve (⟨0, 0⟩ : Vec2 ℝ) ⟨0, 1⟩ ⟨2, 1⟩ ⟨2, 0⟩).Subdivide realOps 45 255
        = some ts ∧ 3 ≤ ts.length ∧
      ((¬ ∃ i, T.interiorHit realOps
            (.curve (NewCurve (⟨0, 0⟩ : Vec2 ℝ) ⟨0, 1⟩ ⟨2, 1⟩ ⟨2, 0⟩)) 1 false ⟨-1, 0⟩
            ⟨1, 0⟩ ts i) →
        ∃ r, (NewCurve (⟨0, 0⟩ : Vec2 ℝ) ⟨0, 1⟩ ⟨2, 1⟩ ⟨2, 0⟩).Bevel realOps 0 1 45 45 false
          ⟨-1, 0⟩ ⟨1, 0⟩ 255 = .ok r) ∧
      ∀ r, (NewCurve (⟨0, 0⟩ : Vec2 ℝ) ⟨0, 1⟩ ⟨2, 1⟩ ⟨2, 0⟩).Bevel realOps 0 1 45 45 false
          ⟨-1, 0⟩ ⟨1, 0⟩ 255 = .ok r →
        r.tris = (List.range (ts.length - 1)).flatMap
          (fun i => (T.sliceSpec realOps
            (.curve (NewCurve (⟨0, 0⟩ : Vec2 ℝ) ⟨0, 1⟩ ⟨2, 1⟩ ⟨2, 0⟩)) 0 1 45 ⟨-1, 0⟩
            ⟨1, 0⟩ ts i).1) ∧
        r.pts = (List.range (ts.length - 1)).flatMap
          (fun i => (T.sliceSpec realOps
            (.curve (NewCurve (⟨0, 0⟩ : Vec2 ℝ) ⟨0, 1⟩ ⟨2, 1⟩ ⟨2, 0⟩)) 0 1 45 ⟨-1, 0⟩
            ⟨1, 0⟩ ts i).2) ∧
        r.pts.length = (ts.length - 1)
          - (if T.legsHit realOps (.curve (NewCurve (⟨0, 0⟩ : Vec2 ℝ) ⟨0, 1⟩ ⟨2, 1⟩ ⟨2, 0⟩))
              1 false ⟨-1, 0⟩ ⟨1, 0⟩ ts 0 = true then 1 else 0) ∧
        ∀ t ∈ r.tris,
          (t.v0.z = 0 ∨ t.v0.z = 0 + 1 * realOps.tan (45 * realOps.pi / 180)) ∧
          (t.v1.z = 0 ∨ t.v1.z = 0 + 1 * realOps.tan (45 * realOps.pi / 180)) ∧
          (t.v2.z = 0 ∨ t.v2.z = 0 + 1 * realOps.tan (45 * realOps.pi / 180)) :=
  ⟨le_refl 255,
    curve_bevel_slices realOps _ 0 1 45 45 ⟨-1, 0⟩ ⟨1, 0⟩ 255 (le_refl 255)⟩

end BevelSlices

/-! ## The miter -/

section Miter

theorem vec2_add_comm {K : Type} [LinearOrderedField K] (a b : Vec2 K) :
    vec2.Add a b = vec2.Add b a := by
  simp only [vec2.Add, Vec2.mk.injEq]
  exact ⟨add_comm _ _, add_comm _ _⟩

theorem vec2_angle_comm {K : Type} [LinearOrderedField K] (ops : MathOps K) (a b : Vec2 K) :
    vec2.Angle ops a b = vec2.Angle ops b a := by
  have hd : vec2.Dot a b = vec2.Dot b a := by
    simp only [vec2.Dot]
    ring
  simp only [vec2.Angle, hd, mul_comm (vec2.Length ops a)]

theorem vec2_sub_add_cancel {K : Type} [LinearOrderedField K] (w p : Vec2 K) :
    vec2.Sub (vec2.Add w p) p = w := by
  cases w with
  | mk x y => simp [vec2.Sub, vec2.Add]

/-- The dot product of two unit vectors lies in `[-1, 1]`. -/
theorem real_unit_dot_bounds (n m : Vec2 ℝ) (hn : vec2.LengthSqr n = 1)
    (hm : vec2.LengthSqr m = 1) : -1 ≤ vec2.Dot n m ∧ vec2.Dot n m ≤ 1 := by
  simp only [vec2.LengthSqr, vec2.Dot] at hn hm ⊢
  constructor
  · nlinarith [sq_nonneg (n.x + m.x), sq_nonneg (n.y + m.y)]
  · nlinarith [sq_nonneg (n.x - m.x), sq_nonneg (n.y - m.y)]

theorem real_angle_unit (n m : Vec2 ℝ) (hn : vec2.LengthSqr n = 1)
    (hm : vec2.LengthSqr m = 1) :
    vec2.Angle realOps n m = Real.arccos (vec2.Dot n m) := by
  obtain ⟨h1, h2⟩ := real_unit_dot_bounds n m hn hm
  simp only [vec2.Angle, vec2.Length, hn, hm, realOps_sqrt, Real.sqrt_one, mul_one, div_one,
    realOps_acos, gt_iff_lt, not_lt.2 h2, not_lt.2 h1, if_false]

/-- The miter identity: for unit vectors `n` and `m` with `n + m` not zero, the
vector `normalize(n + m)` scaled by `offset / cos(θ / 2)`, `θ` the angle between
them, has dot product `offset` with `n` and with `m`. -/
theorem real_miter_dot (n m : Vec2 ℝ) (offset : ℝ) (hn : vec2.LengthSqr n = 1)
    (hm : vec2.LengthSqr m = 1) (hne : vec2.Add n m ≠ ⟨0, 0⟩) :
    vec2.Dot (vec2.Scale (vec2.Normalize realOps (vec2.Add n m))
        (offset / realOps.cos (1 / 2 * vec2.Angle realOps n m))) n = offset ∧
      vec2.Dot (vec2.Scale (vec2.Normalize realOps (vec2.Add n m))
        (offset / realOps.cos (1 / 2 * vec2.Angle realOps n m))) m = offset := by
  obtain ⟨hc1, hc2⟩ := real_unit_dot_bounds n m hn hm
  have hL : vec2.LengthSqr (vec2.Add n m) = 2 + 2 * vec2.Dot n m := by
    simp only [vec2.LengthSqr, vec2.Add, vec2.Dot] at hn hm ⊢
    linear_combination hn + hm
  have hLpos : 0 < vec2.LengthSqr (vec2.Add n m) := real_lengthSqr_pos _ hne
  have hc : 0 < 1 + vec2.Dot n m := by
    rw [hL] at hLpos
    linarith
  have hcos : realOps.cos (1 / 2 * vec2.Angle realOps n m)
      = Real.sqrt ((1 + vec2.Dot n m) / 2) := by
    rw [real_angle_unit n m hn hm]
    have h2 : (1 / 2 * Real.arccos (vec2.Dot n m) : ℝ) = Real.arccos (vec2.Dot n m) / 2 := by
      ring
    show Real.cos (1 / 2 * Real.arccos (vec2.Dot n m)) = _
    rw [h2, Real.cos_half (by linarith [Real.arccos_nonneg (vec2.Dot n m), Real.pi_pos])
      (Real.arccos_le_pi _), Real.cos_arccos hc1 hc2]
  have hA : 0 < Real.sqrt (2 + 2 * vec2.Dot n m) := Real.sqrt_pos.2 (by linarith)
  have hB : 0 < Real.sqrt ((1 + vec2.Dot n m) / 2) := Real.sqrt_pos.2 (by linarith)
  have hAB : Real.sqrt (2 + 2 * vec2.Dot n m) * Real.sqrt ((1 + vec2.Dot n m) / 2)
      = 1 + vec2.Dot n m := by
    rw [← Real.sqrt_mul (by linarith)]
    have : (2 + 2 * vec2.Dot n m) * ((1 + vec2.Dot n m) / 2)
        = (1 + vec2.Dot n m) * (1 + vec2.Dot n m) := by ring
    rw [this, Real.sqrt_mul_self hc.le]
  rw [hcos, real_normalize _ hLpos, hL]
  have hnn : n.x * n.x + n.y * n.y = 1 := hn
  have hmm : m.x * m.x + m.y * m.y = 1 := hm
  simp only [vec2.Dot, vec2.Scale, vec2.Add] at hAB hA hB ⊢
  generalize Real.sqrt (2 + 2 * (n.x * m.x + n.y * m.y)) = A at hAB hA ⊢
  generalize Real.sqrt ((1 + (n.x * m.x + n.y * m.y)) / 2) = B at hAB hB ⊢
  have hA0 : A ≠ 0 := ne_of_gt hA
  have hB0 : B ≠ 0 := ne_of_gt hB
  constructor
  · field_simp
    linear_combination offset * hnn - offset * hAB
  · field_simp
    linear_combination offset * hmm - offset * hAB

end Miter

section MiterClaim

theorem real_scale_unit_dot (n : Vec2 ℝ) (offset : ℝ) (hn : vec2.LengthSqr n = 1) :
    vec2.Dot (vec2.Scale n offset) n = offset := by
  simp only [vec2.Dot, vec2.Scale, vec2.LengthSqr] at hn ⊢
  linear_combination offset * hn

theorem add_ne_zero_of_ne_neg (n m : Vec2 ℝ) (hne : n ≠ ⟨-m.x, -m.y⟩) :
    vec2.Add n m ≠ ⟨0, 0⟩ := by
  intro h
  apply hne
  simp only [vec2.Add, Vec2.mk.injEq] at h
  cases n with
  | mk x y =>
    simp only [Vec2.mk.injEq]
    constructor <;> linarith [h.1, h.2]

/-- Over the reals, with exact `sqrt`, `acos` and `cos`: for vectors `n` (the
segment's own normal at the joint, after the flip) of squared length exactly 1
and `m` (the neighbour's normal passed in) likewise, with `n ≠ -m`, the miter vector
`normalize(n + m) * (offset / cos(θ / 2))`, `θ` the angle between them, has dot
product `offset` with `n` and with `m`; and so has the vector from `p0` to `p2`
and from `p1` to `p3` computed by `Line.Bevel` and by the first and the last
slice of `Curve.Bevel`. -/
theorem miter_distance (n m : Vec2 ℝ) (offset : ℝ) (hn : vec2.LengthSqr n = 1)
    (hm : vec2.LengthSqr m = 1) (hne : n ≠ ⟨-m.x, -m.y⟩) :
    (vec2.Dot (vec2.Scale (vec2.Normalize realOps (vec2.Add n m))
          (offset / realOps.cos (1 / 2 * vec2.Angle realOps n m))) n = offset ∧
      vec2.Dot (vec2.Scale (vec2.Normalize realOps (vec2.Add n m))
          (offset / realOps.cos (1 / 2 * vec2.Angle realOps n m))) m = offset) ∧
    (∀ (l : Line ℝ) (height deg maxDegrees : ℝ) (flipNormals : Bool) (nextNN : Vec2 ℝ),
      flipNormal flipNormals (l.NNormal realOps 0) = n →
      vec2.Dot (vec2.Sub
          (l.Bevel realOps height offset deg maxDegrees flipNormals m nextNN).prevNN
          (l.At 0)) n = offset ∧
        vec2.Dot (vec2.Sub
          (l.Bevel realOps height offset deg maxDegrees flipNormals m nextNN).prevNN
          (l.At 0)) m = offset) ∧
    (∀ (l : Line ℝ) (height deg maxDegrees : ℝ) (flipNormals : Bool) (prevNN : Vec2 ℝ),
      flipNormal flipNormals (l.NNormal realOps 1) = n →
      vec2.Dot (vec2.Sub
          (l.Bevel realOps height offset deg maxDegrees flipNormals prevNN m).nextNN
          (l.At 1)) n = offset ∧
        vec2.Dot (vec2.Sub
          (l.Bevel realOps height offset deg maxDegrees flipNormals prevNN m).nextNN
          (l.At 1)) m = offset) ∧
    (∀ (c : Curve ℝ) (flipNormals : Bool) (nextNN : Vec2 ℝ) (ts : List ℝ),
      flipNormal flipNormals (c.NNormal realOps (ts.getD 0 0)) = n →
      vec2.Dot (vec2.Sub
          (T.bevelLegs realOps (.curve c) offset flipNormals m nextNN ts 0).2.2.1
          (T.bevelLegs realOps (.curve c) offset flipNormals m nextNN ts 0).1) n = offset ∧
        vec2.Dot (vec2.Sub
          (T.bevelLegs realOps (.curve c) offset flipNormals m nextNN ts 0).2.2.1
          (T.bevelLegs realOps (.curve c) offset flipNormals m nextNN ts 0).1) m = offset) ∧
    (∀ (c : Curve ℝ) (flipNormals : Bool) (prevNN : Vec2 ℝ) (ts : List ℝ) (i : ℕ),
      i + 1 = ts.length - 1 →
      flipNormal flipNormals (c.NNormal realOps (ts.getD (i + 1) 0)) = n →
      vec2.Dot (vec2.Sub
          (T.bevelLegs realOps (.curve c) offset flipNormals prevNN m ts i).2.2.2
          (T.bevelLegs realOps (.curve c) offset flipNormals prevNN m ts i).2.1) n = offset ∧
        vec2.Dot (vec2.Sub
          (T.bevelLegs realOps (.curve c) offset flipNormals prevNN m ts i).2.2.2
          (T.bevelLegs realOps (.curve c) offset flipNormals prevNN m ts i).2.1) m
          = offset) := by
  have hsum := add_ne_zero_of_ne_neg n m hne
  have hmit := real_miter_dot n m offset hn hm hsum
  have hmn : vec2.Dot (vec2.Scale n offset) n = offset := real_scale_unit_dot n offset hn
  refine ⟨hmit, ?_, ?_, ?_, ?_⟩
  · intro l height deg maxDegrees flipNormals nextNN hfl
    have hfl1 : (if flipNormals = true
        then (⟨-(l.NNormal realOps 0).x, -(l.NNormal realOps 0).y⟩ : Vec2 ℝ)
        else l.NNormal realOps 0) = n := hfl
    simp only [Line.Bevel, hfl1, vec2_sub_add_cancel]
    rw [vec2_add_comm m n, vec2_angle_comm realOps m n]
    exact hmit
  · intro l height deg maxDegrees flipNormals prevNN hfl
    have hfl1 : (if flipNormals = true
        then (⟨-(l.NNormal realOps 1).x, -(l.NNormal realOps 1).y⟩ : Vec2 ℝ)
        else l.NNormal realOps 1) = n := hfl
    simp only [Line.Bevel, hfl1, vec2_sub_add_cancel]
    rw [vec2_add_comm m n]
    exact hmit
  · intro c flipNormals nextNN ts hfl
    have hfl1 : (if flipNormals = true
        then (⟨-(c.NNormal realOps (ts.getD 0 0)).x,
          -(c.NNormal realOps (ts.getD 0 0)).y⟩ : Vec2 ℝ)
        else c.NNormal realOps (ts.getD 0 0)) = n := hfl
    simp only [T.bevelLegs, T.NNormal, hfl1, if_true, vec2_sub_add_cancel]
    by_cases hmn1 : m = n
    · subst hmn1
      simp only [ne_eq, not_true_eq_false, if_false]
      exact ⟨hmn, hmn⟩
    · simp only [ne_eq, hmn1, not_false_eq_true, if_true]
      rw [vec2_angle_comm realOps m n]
      exact hmit
  · intro c flipNormals prevNN ts i hi hfl
    have hfl1 : (if flipNormals = true
        then (⟨-(c.NNormal realOps (ts.getD (i + 1) 0)).x,
          -(c.NNormal realOps (ts.getD (i + 1) 0)).y⟩ : Vec2 ℝ)
        else c.NNormal realOps (ts.getD (i + 1) 0)) = n := hfl
    rw [hi] at hfl1
    simp only [T.bevelLegs, T.NNormal, hi, hfl1, if_true, vec2_sub_add_cancel]
    by_cases hmn1 : n = m
    · subst hmn1
      simp only [ne_eq, not_true_eq_false, if_false]
      exact ⟨hmn, hmn⟩
    · simp only [ne_eq, hmn1, not_false_eq_true, if_true]
      exact hmit

/-- The exact miter distance at the unit normals (0,1) and (1,0) of a right-angled
joint, with offset 2. -/
theorem miter_distance_witness :
    vec2.LengthSqr (⟨0, 1⟩ : Vec2 ℝ) = 1 ∧ vec2.LengthSqr (⟨1, 0⟩ : Vec2 ℝ) = 1 ∧
    (⟨0, 1⟩ : Vec2 ℝ) ≠ ⟨-(⟨1, 0⟩ : Vec2 ℝ).x, -(⟨1, 0⟩ : Vec2 ℝ).y⟩ ∧
    ((vec2.Dot (vec2.Scale (vec2.Normalize realOps (vec2.Add (⟨0, 1⟩ : Vec2 ℝ) (⟨1, 0⟩ : Vec2 ℝ)))
          (2 / realOps.cos (1 / 2 * vec2.Angle realOps (⟨0, 1⟩ : Vec2 ℝ) (⟨1, 0⟩ : Vec2 ℝ))))
              (⟨0, 1⟩ : Vec2 ℝ) = 2 ∧
      vec2.Dot (vec2.Scale (vec2.Normalize realOps (vec2.Add (⟨0, 1⟩ : Vec2 ℝ) (⟨1, 0⟩ : Vec2 ℝ)))
          (2 / realOps.cos (1 / 2 * vec2.Angle realOps (⟨0, 1⟩ : Vec2 ℝ) (⟨1, 0⟩ : Vec2 ℝ))))
              (⟨1, 0⟩ : Vec2 ℝ) = 2) ∧
    (∀ (l : Line ℝ) (height deg maxDegrees : ℝ) (flipNormals : Bool) (nextNN : Vec2 ℝ),
      flipNormal flipNormals (l.NNormal realOps 0) = (⟨0, 1⟩ : Vec2 ℝ) →
      vec2.Dot (vec2.Sub
          (l.Bevel realOps height 2 deg maxDegrees flipNormals (⟨1, 0⟩ : Vec2 ℝ) nextNN).prevNN
          (l.At 0)) (⟨0, 1⟩ : Vec2 ℝ) = 2 ∧
        vec2.Dot (vec2.Sub
          (l.Bevel realOps height 2 deg maxDegrees flipNormals (⟨1, 0⟩ : Vec2 ℝ) nextNN).prevNN
          (l.At 0)) (⟨1, 0⟩ : Vec2 ℝ) = 2) ∧
    (∀ (l : Line ℝ) (height deg maxDegrees : ℝ) (flipNormals : Bool) (prevNN : Vec2 ℝ),
      flipNormal flipNormals (l.NNormal realOps 1) = (⟨0, 1⟩ : Vec2 ℝ) →
      vec2.Dot (vec2.Sub
          (l.Bevel realOps height 2 deg maxDegrees flipNormals prevNN (⟨1, 0⟩ : Vec2 ℝ)).nextNN
          (l.At 1)) (⟨0, 1⟩ : Vec2 ℝ) = 2 ∧
        vec2.Dot (vec2.Sub
          (l.Bevel realOps height 2 deg maxDegrees flipNormals prevNN (⟨1, 0⟩ : Vec2 ℝ)).nextNN
          (l.At 1)) (⟨1, 0⟩ : Vec2 ℝ) = 2) ∧
    (∀ (c : Curve ℝ) (flipNormals : Bool) (nextNN : Vec2 ℝ) (ts : List ℝ),
      flipNormal flipNormals (c.NNormal realOps (ts.getD 0 0)) = (⟨0, 1⟩ : Vec2 ℝ) →
      vec2.Dot (vec2.Sub
          (T.bevelLegs realOps (.curve c) 2 flipNormals (⟨1, 0⟩ : Vec2 ℝ) nextNN ts 0).2.2.1
          (T.bevelLegs realOps (.curve c) 2 flipNormals (⟨1, 0⟩ : Vec2 ℝ) nextNN ts 0).1) (⟨0, 1⟩ :
              Vec2 ℝ) = 2 ∧
        vec2.Dot (vec2.Sub
          (T.bevelLegs realOps (.curve c) 2 flipNormals (⟨1, 0⟩ : Vec2 ℝ) nextNN ts 0).2.2.1
          (T.bevelLegs realOps (.curve c) 2 flipNormals (⟨1, 0⟩ : Vec2 ℝ) nextNN ts 0).1) (⟨1, 0⟩ :
              Vec2 ℝ) = 2) ∧
    (∀ (c : Curve ℝ) (flipNormals : Bool) (prevNN : Vec2 ℝ) (ts : List ℝ) (i : ℕ),
      i + 1 = ts.length - 1 →
      flipNormal flipNormals (c.NNormal realOps (ts.getD (i + 1) 0)) = (⟨0, 1⟩ : Vec2 ℝ) →
      vec2.Dot (vec2.Sub
          (T.bevelLegs realOps (.curve c) 2 flipNormals prevNN (⟨1, 0⟩ : Vec2 ℝ) ts i).2.2.2
          (T.bevelLegs realOps (.curve c) 2 flipNormals prevNN (⟨1, 0⟩ : Vec2 ℝ) ts i).2.1) (⟨0, 1⟩
              : Vec2 ℝ) = 2 ∧
        vec2.Dot (vec2.Sub
          (T.bevelLegs realOps (.curve c) 2 flipNormals prevNN (⟨1, 0⟩ : Vec2 ℝ) ts i).2.2.2
          (T.bevelLegs realOps (.curve c) 2 flipNormals prevNN (⟨1, 0⟩ : Vec2 ℝ) ts i).2.1) (⟨1, 0⟩
              : Vec2 ℝ)
          = 2)) :=
  ⟨by norm_num [vec2.LengthSqr], by norm_num [vec2.LengthSqr], by simp,
    miter_distance ⟨0, 1⟩ ⟨1, 0⟩ 2 (by norm_num [vec2.LengthSqr])
      (by norm_num [vec2.LengthSqr]) (by simp)⟩

end MiterClaim

/-! ## The joints of `SubPath.Bevel` -/

section Joints

variable {K : Type} [LinearOrderedField K]

/-- The loop of `SubPath.Bevel` passes the normals of `neighbourNormals` to the
`Bevel` of each segment. -/
theorem subpath_bevelLoop_step (ops : MathOps K) (s : SubPath K)
    (height offset deg maxDegrees : K) (fuel : ℕ) (i : ℕ) (seg : T K)
    (rest : List (ℕ × T K)) (acc : List (Triangle3D K) × List (Vec2 K)) :
    SubPath.bevelLoop ops s height offset deg maxDegrees fuel ((i, seg) :: rest) acc
      = match seg.Bevel ops height offset deg maxDegrees s.FlipNormals
          (s.neighbourNormals ops i seg).1 (s.neighbourNormals ops i seg).2 fuel with
        | .ok b =>
          SubPath.bevelLoop ops s height offset deg maxDegrees fuel rest
            (acc.1 ++ b.tris, acc.2 ++ b.pts)
        | .panic msg => .panic msg
        | .outOfFuel => .outOfFuel :=
  rfl

theorem line_startOffset (ops : MathOps K) (l : Line K) (height offset deg maxDegrees : K)
    (flipNormals : Bool) (prevNN nextNN : Vec2 K) (fuel : ℕ) :
    T.startOffset ops (.line l) height offset deg maxDegrees flipNormals prevNN nextNN fuel
      = some (jointOffset ops offset (l.At 0) prevNN
          (flipNormal flipNormals (l.NNormal ops 0)) false) := by
  simp only [T.startOffset, Line.Bevel, jointOffset, flipNormal, Bool.false_eq_true, if_false]

theorem line_endOffset (ops : MathOps K) (l : Line K) (height offset deg maxDegrees : K)
    (flipNormals : Bool) (prevNN nextNN : Vec2 K) (fuel : ℕ) :
    T.endOffset ops (.line l) height offset deg maxDegrees flipNormals prevNN nextNN fuel
      = some (jointOffset ops offset (l.At 1)
          (flipNormal flipNormals (l.NNormal ops 1)) nextNN false) := by
  simp only [T.endOffset, Line.Bevel, jointOffset, flipNormal, Bool.false_eq_true, if_false]
  rw [vec2_add_comm nextNN]

theorem getD_last {α : Type} (l : List α) (x d : α) (h : l.getLast? = some x) :
    l.getD (l.length - 1) d = x := by
  rw [List.getLast?_eq_getElem?] at h
  rw [List.getD_eq_getElem?_getD, h]
  rfl

theorem curve_startOffset (ops : MathOps K) (c : Curve K) (height offset deg maxDegrees : K)
    (flipNormals : Bool) (prevNN nextNN : Vec2 K) (fuel : ℕ) (hfuel : 255 ≤ fuel) :
    T.startOffset ops (.curve c) height offset deg maxDegrees flipNormals prevNN nextNN fuel
      = some (jointOffset ops offset (c.At 0) prevNN
          (flipNormal flipNormals (c.NNormal ops 0))
          (decide (prevNN = flipNormal flipNormals (c.NNormal ops 0)))) := by
  obtain ⟨out, hts, _⟩ := subdivide_spec ops c maxDegrees fuel hfuel
  simp only [T.startOffset, hts, T.bevelLegs, T.At, T.NNormal, List.getD_cons_zero, if_true,
    jointOffset, flipNormal, ne_eq, Option.some.injEq]
  by_cases h : prevNN = (if flipNormals = true
      then (⟨-(c.NNormal ops 0).x, -(c.NNormal ops 0).y⟩ : Vec2 K) else c.NNormal ops 0)
  · simp only [h, not_true_eq_false, if_false, decide_True, if_true]
  · simp only [h, not_false_eq_true, if_true, decide_False, Bool.false_eq_true, if_false]
    rw [vec2_add_comm prevNN]

theorem curve_endOffset (ops : MathOps K) (c : Curve K) (height offset deg maxDegrees : K)
    (flipNormals : Bool) (prevNN nextNN : Vec2 K) (fuel : ℕ) (hfuel : 255 ≤ fuel) :
    T.endOffset ops (.curve c) height offset deg maxDegrees flipNormals prevNN nextNN fuel
      = some (jointOffset ops offset (c.At 1)
          (flipNormal flipNormals (c.NNormal ops 1)) nextNN
          (decide (flipNormal flipNormals (c.NNormal ops 1) = nextNN))) := by
  obtain ⟨ts, hts, hlen⟩ := subdivide_length ops c maxDegrees fuel hfuel
  obtain ⟨out, hts1, _, _, hlast, _⟩ := subdivide_spec ops c maxDegrees fuel hfuel
  have hts2 : ts = 0 :: out := Option.some.inj (hts.symm.trans hts1)
  have h1 : ts.getD (ts.length - 1) 0 = 1 := getD_last ts 1 0 (hts2 ▸ hlast)
  have h2 : ts.length - 2 + 1 = ts.length - 1 := by omega
  have h3 : ¬ ts.length - 2 = 0 := by omega
  simp only [T.endOffset, hts, T.bevelLegs, T.At, T.NNormal, h1, h2, h3, if_true, if_false,
    jointOffset, flipNormal, ne_eq, Option.some.injEq]
  by_cases h : (if flipNormals = true
      then (⟨-(c.NNormal ops 1).x, -(c.NNormal ops 1).y⟩ : Vec2 K) else c.NNormal ops 1)
      = nextNN
  · simp only [h, not_true_eq_false, if_false, decide_True, if_true]
  · simp only [h, not_false_eq_true, if_true, decide_False, Bool.false_eq_true, if_false]

end Joints

section JointsClaim

theorem mod_pred_succ (i n : ℕ) (hi : i < n) : ((i + 1) % n + n - 1) % n = i := by
  rcases Nat.lt_or_ge (i + 1) n with h | h
  · rw [Nat.mod_eq_of_lt h]
    have e : i + 1 + n - 1 = i + n := by omega
    rw [e, Nat.add_mod_right, Nat.mod_eq_of_lt hi]
  · have e : i + 1 = n := by omega
    rw [e, Nat.mod_self, Nat.zero_add, Nat.mod_eq_of_lt (by omega)]
    omega

/-- Over the reals a normalised vector is the zero vector or has length 1. -/
theorem real_normalize_zero_or_unit (v : Vec2 ℝ) :
    vec2.Normalize realOps v = ⟨0, 0⟩ ∨ vec2.LengthSqr (vec2.Normalize realOps v) = 1 := by
  by_cases h : v = ⟨0, 0⟩
  · left
    subst h
    simp [vec2.Normalize, vec2.LengthSqr]
  · right
    exact real_lengthSqr_normalize v (real_lengthSqr_pos v h)

theorem flipNormal_zero_or_unit (flag : Bool) (v : Vec2 ℝ)
    (h : v = ⟨0, 0⟩ ∨ vec2.LengthSqr v = 1) :
    flipNormal flag v = ⟨0, 0⟩ ∨ vec2.LengthSqr (flipNormal flag v) = 1 := by
  cases flag
  · exact h
  · rcases h with h | h
    · left
      subst h
      simp [flipNormal]
    · right
      simp only [flipNormal, if_true, vec2.LengthSqr] at h ⊢
      linear_combination h

/-- At a joint whose two normals are the same vector `a`, zero or of length 1,
the miter moves the point by `offset * a`, as skipping the miter does. -/
theorem real_jointOffset_skip (offset : ℝ) (p a : Vec2 ℝ) (skip1 skip2 : Bool)
    (h : a = ⟨0, 0⟩ ∨ vec2.LengthSqr a = 1) :
    jointOffset realOps offset p a a skip1 = jointOffset realOps offset p a a skip2 := by
  have key : vec2.Add (vec2.Scale (vec2.Normalize realOps (vec2.Add a a))
      (offset / realOps.cos (1 / 2 * vec2.Angle realOps a a))) p
      = vec2.Add (vec2.Scale a offset) p := by
    rcases h with h | h
    · subst h
      simp [vec2.Normalize, vec2.LengthSqr, vec2.Add, vec2.Scale]
    · rw [real_miter_straight a p offset h]
      simp only [vec2.Add, vec2.Scale, Vec2.mk.injEq]
      constructor <;> ring
  cases skip1 <;> cases skip2 <;>
    simp only [jointOffset, if_true, if_false, Bool.false_eq_true, key]

theorem T.endOffset_eq (seg : T ℝ) (height offset deg maxDegrees : ℝ) (flipNormals : Bool)
    (prevNN nextNN : Vec2 ℝ) (fuel : ℕ) (hfuel : 255 ≤ fuel) :
    ∃ skip : Bool, (skip = true → flipNormal flipNormals (seg.NNormal realOps 1) = nextNN) ∧
      T.endOffset realOps seg height offset deg maxDegrees flipNormals prevNN nextNN fuel
        = some (jointOffset realOps offset (seg.At 1)
            (flipNormal flipNormals (seg.NNormal realOps 1)) nextNN skip) := by
  cases seg with
  | line l =>
    exact ⟨false, fun h => absurd h (by decide),
      line_endOffset realOps l height offset deg maxDegrees flipNormals prevNN nextNN fuel⟩
  | curve c =>
    exact ⟨_, fun h => of_decide_eq_true h,
      curve_endOffset realOps c height offset deg maxDegrees flipNormals prevNN nextNN fuel
        hfuel⟩

theorem T.startOffset_eq (seg : T ℝ) (height offset deg maxDegrees : ℝ) (flipNormals : Bool)
    (prevNN nextNN : Vec2 ℝ) (fuel : ℕ) (hfuel : 255 ≤ fuel) :
    ∃ skip : Bool, (skip = true → prevNN = flipNormal flipNormals (seg.NNormal realOps 0)) ∧
      T.startOffset realOps seg height offset deg maxDegrees flipNormals prevNN nextNN fuel
        = some (jointOffset realOps offset (seg.At 0) prevNN
            (flipNormal flipNormals (seg.NNormal realOps 0)) skip) := by
  cases seg with
  | line l =>
    exact ⟨false, fun h => absurd h (by decide),
      line_startOffset realOps l height offset deg maxDegrees flipNormals prevNN nextNN fuel⟩
  | curve c =>
    exact ⟨_, fun h => of_decide_eq_true h,
      curve_startOffset realOps c height offset deg maxDegrees flipNormals prevNN nextNN fuel
        hfuel⟩

theorem T.NNormal_zero_or_unit (seg : T ℝ) (t : ℝ) :
    seg.NNormal realOps t = ⟨0, 0⟩ ∨ vec2.LengthSqr (seg.NNormal realOps t) = 1 := by
  cases seg with
  | line l => exact real_normalize_zero_or_unit _
  | curve c => exact real_normalize_zero_or_unit _

/-- Over the reals, with exact `sqrt`, `acos` and `cos`: in a subpath, for the
segment of index `i` and its ring successor of
index `k = (i + 1) mod n` (so a one-segment ring neighbours itself), with the
first ending where the second starts, the end offset point `p3` computed for the
(last slice of the) segment `i` equals the start offset point `p2` computed for
the (first slice of the) segment `k`, the neighbour normals being those that
`SubPath.Bevel` passes, for either value of `FlipNormals`. -/
theorem bevel_joint_continuous (s : SubPath ℝ) (i : ℕ) (segi segk : T ℝ)
    (height offset deg maxDegrees : ℝ) (fuel : ℕ) (hfuel : 255 ≤ fuel)
    (hi : s.Segments[i]? = some segi)
    (hk : s.Segments[(i + 1) % s.Segments.length]? = some segk)
    (hjoint : segi.At 1 = segk.At 0) :
    ∃ p, T.endOffset realOps segi height offset deg maxDegrees s.FlipNormals
        (s.neighbourNormals realOps i segi).1 (s.neighbourNormals realOps i segi).2 fuel
          = some p ∧
      T.startOffset realOps segk height offset deg maxDegrees s.FlipNormals
        (s.neighbourNormals realOps ((i + 1) % s.Segments.length) segk).1
        (s.neighbourNormals realOps ((i + 1) % s.Segments.length) segk).2 fuel = some p := by
  have hlt : i < s.Segments.length := by
    rcases Nat.lt_or_ge i s.Segments.length with h | h
    · exact h
    · rw [List.getElem?_eq_none h] at hi
      exact Option.noConfusion hi
  have hnext : (s.neighbourNormals realOps i segi).2
      = flipNormal s.FlipNormals (segk.NNormal realOps 0) := by
    simp only [SubPath.neighbourNormals, flipNormal, List.getD_eq_getElem?_getD, hk,
      Option.getD_some]
  have hprev : (s.neighbourNormals realOps ((i + 1) % s.Segments.length) segk).1
      = flipNormal s.FlipNormals (segi.NNormal realOps 1) := by
    simp only [SubPath.neighbourNormals, flipNormal, List.getD_eq_getElem?_getD,
      mod_pred_succ i s.Segments.length hlt, hi, Option.getD_some]
  obtain ⟨sk1, hs1, he⟩ := T.endOffset_eq segi height offset deg maxDegrees s.FlipNormals
    (s.neighbourNormals realOps i segi).1 (s.neighbourNormals realOps i segi).2 fuel hfuel
  obtain ⟨sk2, hs2, hst⟩ := T.startOffset_eq segk height offset deg maxDegrees s.FlipNormals
    (s.neighbourNormals realOps ((i + 1) % s.Segments.length) segk).1
    (s.neighbourNormals realOps ((i + 1) % s.Segments.length) segk).2 fuel hfuel
  rw [hnext] at he hs1
  rw [hprev] at hst hs2
  rw [← hjoint] at hst
  rw [hnext, hprev]
  refine ⟨_, he, ?_⟩
  rw [hst]
  by_cases hab : flipNormal s.FlipNormals (segi.NNormal realOps 1)
      = flipNormal s.FlipNormals (segk.NNormal realOps 0)
  · rw [← hab]
    exact congrArg some (real_jointOffset_skip offset _ _ sk2 sk1
      (flipNormal_zero_or_unit _ _ (T.NNormal_zero_or_unit segi 1)))
  · have e1 : sk1 = false := by
      cases sk1
      · rfl
      · exact absurd (hs1 rfl) hab
    have e2 : sk2 = false := by
      cases sk2
      · rfl
      · exact absurd (hs2 rfl) hab
    rw [e1, e2]

/-- The exact joint at the first corner of the counter-clockwise square
(0,0), (2,0), (2,2), (0,2): the joint between the lines (0,0)-(2,0) and
(2,0)-(2,2). -/
theorem bevel_joint_continuous_witness :
    255 ≤ 255 ∧
    (ccwSquare : SubPath ℝ).Segments[0]? = some (T.line (NewLine ⟨0, 0⟩ ⟨2, 0⟩)) ∧
    (ccwSquare : SubPath ℝ).Segments[(0 + 1) % (ccwSquare : SubPath ℝ).Segments.length]?
      = some (T.line (NewLine ⟨2, 0⟩ ⟨2, 2⟩)) ∧
    (T.line (NewLine (⟨0, 0⟩ : Vec2 ℝ) ⟨2, 0⟩)).At 1
      = (T.line (NewLine (⟨2, 0⟩ : Vec2 ℝ) ⟨2, 2⟩)).At 0 ∧
    ∃ p, T.endOffset realOps (T.line (NewLine ⟨0, 0⟩ ⟨2, 0⟩)) 0 1 45 45
        (ccwSquare : SubPath ℝ).FlipNormals
        ((ccwSquare : SubPath ℝ).neighbourNormals realOps 0
          (T.line (NewLine ⟨0, 0⟩ ⟨2, 0⟩))).1
        ((ccwSquare : SubPath ℝ).neighbourNormals realOps 0
          (T.line (NewLine ⟨0, 0⟩ ⟨2, 0⟩))).2 255 = some p ∧
      T.startOffset realOps (T.line (NewLine ⟨2, 0⟩ ⟨2, 2⟩)) 0 1 45 45
        (ccwSquare : SubPath ℝ).FlipNormals
        ((ccwSquare : SubPath ℝ).neighbourNormals realOps
          ((0 + 1) % (ccwSquare : SubPath ℝ).Segments.length)
          (T.line (NewLine ⟨2, 0⟩ ⟨2, 2⟩))).1
        ((ccwSquare : SubPath ℝ).neighbourNormals realOps
          ((0 + 1) % (ccwSquare : SubPath ℝ).Segments.length)
          (T.line (NewLine ⟨2, 0⟩ ⟨2, 2⟩))).2 255 = some p :=
  ⟨le_refl 255, rfl, rfl,
    by norm_num [T.At, Line.At, vec2.Interpolate, NewLine],
    bevel_joint_continuous ccwSquare 0 _ _ 0 1 45 45 255 (le_refl 255) rfl rfl
      (by norm_num [T.At, Line.At, vec2.Interpolate, NewLine])⟩

end JointsClaim


/-! ## `Line.Bevel` with a correctly rounded square root -/

section Rounding

theorem float64Round_eq (x : ℝ) (e k : ℤ) (hlo : (2 : ℝ) ^ e ≤ x) (hhi : x < (2 : ℝ) ^ (e + 1))
    (hk1 : (k : ℝ) ≤ x * (2 : ℝ) ^ (52 - e) + 1 / 2)
    (hk2 : x * (2 : ℝ) ^ (52 - e) + 1 / 2 < (k : ℝ) + 1) :
    float64Round x = (k : ℝ) / (2 : ℝ) ^ (52 - e) := by
  have hx : 0 < x := lt_of_lt_of_le (zpow_pos (by norm_num) e) hlo
  have hlog : Int.log 2 x = e := by
    apply le_antisymm
    · have h := (Int.lt_zpow_iff_log_lt (R := ℝ) (b := 2) (by norm_num) (x := e + 1) hx).1
        (by exact_mod_cast hhi)
      omega
    · exact (Int.zpow_le_iff_le_log (R := ℝ) (b := 2) (by norm_num) hx).1
        (by exact_mod_cast hlo)
  unfold float64Round
  rw [hlog, round_eq, Int.floor_eq_iff.2 ⟨hk1, hk2⟩]

theorem roundedOps_sqrt (x : ℝ) : roundedOps.sqrt x = float64Round (Real.sqrt x) := rfl

theorem roundedOps_acos (x : ℝ) : roundedOps.acos x = Real.arccos x := rfl

theorem roundedOps_cos (x : ℝ) : roundedOps.cos x = Real.cos x := rfl

theorem roundedOps_pi : roundedOps.pi = Real.pi := rfl

/-- The rounded square root of `x` is `k / 2^(52 - e)` when `sqrt x` lies in
`[2^e, 2^(e+1))` and within half a unit of `k` after scaling, stated on
squares. -/
theorem roundedOps_sqrt_eq (x : ℝ) (e k : ℤ) (hk : (1 : ℝ) ≤ k)
    (hlo : ((2 : ℝ) ^ e) ^ 2 ≤ x) (hhi : x < ((2 : ℝ) ^ (e + 1)) ^ 2)
    (hk1 : ((k - 1 / 2 : ℝ) / (2 : ℝ) ^ (52 - e)) ^ 2 ≤ x)
    (hk2 : x < ((k + 1 / 2 : ℝ) / (2 : ℝ) ^ (52 - e)) ^ 2) :
    roundedOps.sqrt x = (k : ℝ) / (2 : ℝ) ^ (52 - e) := by
  have hp : (0 : ℝ) < (2 : ℝ) ^ (52 - e) := zpow_pos (by norm_num) _
  have hx : 0 ≤ x := le_trans (sq_nonneg _) hlo
  rw [roundedOps_sqrt]
  apply float64Round_eq
  · exact Real.le_sqrt_of_sq_le hlo  
  · rw [Real.sqrt_lt' (zpow_pos (by norm_num) _)]
    exact hhi
  · have h1 : (k - 1 / 2 : ℝ) / (2 : ℝ) ^ (52 - e) ≤ Real.sqrt x :=
      Real.le_sqrt_of_sq_le hk1
    rw [div_le_iff₀ hp] at h1
    linarith
  · have h2 : Real.sqrt x < (k + 1 / 2 : ℝ) / (2 : ℝ) ^ (52 - e) := by
      rw [Real.sqrt_lt' (div_pos (by linarith) hp)]
      exact hk2
    rw [lt_div_iff₀ hp] at h2
    linarith

theorem roundedOps_sqrt_18 :
    roundedOps.sqrt 18 = 4776788754394329 / 1125899906842624 := by
  have h := roundedOps_sqrt_eq 18 2 4776788754394329 (by norm_num) (by norm_num) (by norm_num)
    (by norm_num) (by norm_num)
  rw [h]
  norm_num

end Rounding


section RoundedDiagonal

theorem roundedDiagonal_lengthSqr :
    vec2.LengthSqr roundedDiagonal
      = 2535301200456458802993406410752 / 2535301200456458353478625262249 := by
  norm_num [vec2.LengthSqr, roundedDiagonal]

theorem roundedOps_sqrt_diagonal :
    roundedOps.sqrt (2535301200456458802993406410752 / 2535301200456458353478625262249) = 1 := by
  have h := roundedOps_sqrt_eq
    (2535301200456458802993406410752 / 2535301200456458353478625262249) 0 4503599627370496
    (by norm_num) (by norm_num) (by norm_num) (by norm_num) (by norm_num)
  rw [h]
  norm_num

theorem roundedOps_sqrt_double :
    roundedOps.sqrt (4 * (2535301200456458802993406410752 / 2535301200456458353478625262249))
      = 2 := by
  have h := roundedOps_sqrt_eq
    (4 * (2535301200456458802993406410752 / 2535301200456458353478625262249)) 1
    4503599627370496 (by norm_num) (by norm_num) (by norm_num) (by norm_num) (by norm_num)
  rw [h]
  norm_num

/-- With the rounded square root, normalising `(-3, 3)` gives `roundedDiagonal`,
whose squared length is a little more than 1. -/
theorem roundedOps_normalize_diagonal :
    vec2.Normalize roundedOps (⟨-3, 3⟩ : Vec2 ℝ) = roundedDiagonal := by
  have hl : vec2.LengthSqr (⟨-3, 3⟩ : Vec2 ℝ) = 18 := by norm_num [vec2.LengthSqr]
  simp only [vec2.Normalize, hl, roundedOps_sqrt_18, vec2.Scale, roundedDiagonal]
  norm_num

/-- The quotient `Dot / (Length * Length)` of `vec2.Angle` at two copies of
`roundedDiagonal` is greater than 1, so `Angle` takes its branch `v - 2` and
returns an angle near `pi` instead of 0. -/
theorem roundedOps_angle_diagonal :
    vec2.Angle roundedOps roundedDiagonal roundedDiagonal
      = Real.arccos (2535301200456458802993406410752 / 2535301200456458353478625262249 - 2) := by
  have hd : vec2.Dot roundedDiagonal roundedDiagonal
      = 2535301200456458802993406410752 / 2535301200456458353478625262249 :=
    roundedDiagonal_lengthSqr
  have hv : (2535301200456458802993406410752 / 2535301200456458353478625262249 : ℝ) > 1 := by
    norm_num
  simp only [vec2.Angle, vec2.Length, hd, roundedDiagonal_lengthSqr, roundedOps_sqrt_diagonal,
    mul_one, div_one, hv, if_true, roundedOps_acos]

theorem roundedOps_normalize_double :
    vec2.Normalize roundedOps (vec2.Add roundedDiagonal roundedDiagonal) = roundedDiagonal := by
  have hl : vec2.LengthSqr (vec2.Add roundedDiagonal roundedDiagonal)
      = 4 * (2535301200456458802993406410752 / 2535301200456458353478625262249) := by
    norm_num [vec2.LengthSqr, vec2.Add, roundedDiagonal]
  simp only [vec2.Normalize, hl, roundedOps_sqrt_double]
  norm_num [vec2.Scale, vec2.Add, roundedDiagonal]

/-- The cosine of half the angle that `vec2.Angle` returns at two copies of
`roundedDiagonal`: about `9.4e-9` instead of 1. -/
theorem roundedOps_cos_half_diagonal :
    roundedOps.cos (1 / 2 * vec2.Angle roundedOps roundedDiagonal roundedDiagonal)
      = Real.sqrt (449514781148503 / 5070602400912916706957250524498) := by
  rw [roundedOps_angle_diagonal, roundedOps_cos]
  generalize hx : (2535301200456458802993406410752 / 2535301200456458353478625262249 - 2 : ℝ)
    = x
  have hx1 : -1 ≤ x := by
    rw [← hx]
    norm_num
  have hx2 : x ≤ 1 := by
    rw [← hx]
    norm_num
  have h2 : 1 / 2 * Real.arccos x = Real.arccos x / 2 := by ring
  have h3 : -Real.pi ≤ Real.arccos x := by
    have := Real.arccos_nonneg x
    have := Real.pi_pos
    linarith
  rw [h2, Real.cos_half h3 (Real.arccos_le_pi _), Real.cos_arccos hx1 hx2, ← hx]
  norm_num

/-- The length that `Line.Bevel` gives to the offset at a straight joint with
normal `roundedDiagonal`, for `offset = 1`: more than `10^8`. -/
theorem roundedOps_miter_length :
    (100000000 : ℝ)
      < 1 / roundedOps.cos (1 / 2 * vec2.Angle roundedOps roundedDiagonal roundedDiagonal) := by
  rw [roundedOps_cos_half_diagonal]
  have hpos : (0 : ℝ) < 449514781148503 / 5070602400912916706957250524498 := by norm_num
  have hs : 0 < Real.sqrt (449514781148503 / 5070602400912916706957250524498) :=
    Real.sqrt_pos.2 hpos
  rw [lt_div_iff₀ hs]
  have h1 : Real.sqrt (449514781148503 / 5070602400912916706957250524498) < 1 / 100000000 := by
    rw [Real.sqrt_lt' (by norm_num)]
    norm_num
  linarith

end RoundedDiagonal


section RoundedLine

/-- With the rounded square root every line of direction (3,3) has the normal
`roundedDiagonal`. -/
theorem roundedOps_line_NNormal (l : Line ℝ) (t : ℝ) (h : l.Tangent t = ⟨3, 3⟩) :
    l.NNormal roundedOps t = roundedDiagonal := by
  rw [Line.NNormal, Line.Normal, h]
  have hr : vec2.Rotate90DegLeft (⟨3, 3⟩ : Vec2 ℝ) = ⟨-3, 3⟩ := rfl
  rw [hr, roundedOps_normalize_diagonal]

/-- What `Line.Bevel` returns, with the rounded square root, for `p2` and `p3`
at two straight joints of a line whose normal is `roundedDiagonal`: the end
points moved along the normal by the length of `roundedOps_miter_length`, not
by `offset`. -/
theorem roundedOps_line_bevel (l : Line ℝ) (height offset deg maxDegrees : ℝ)
    (h : ∀ t, l.NNormal roundedOps t = roundedDiagonal) :
    (l.Bevel roundedOps height offset deg maxDegrees false roundedDiagonal
        roundedDiagonal).prevNN
      = vec2.Add (vec2.Scale roundedDiagonal (offset / roundedOps.cos
          (1 / 2 * vec2.Angle roundedOps roundedDiagonal roundedDiagonal))) (l.At 0) ∧
    (l.Bevel roundedOps height offset deg maxDegrees false roundedDiagonal
        roundedDiagonal).nextNN
      = vec2.Add (vec2.Scale roundedDiagonal (offset / roundedOps.cos
          (1 / 2 * vec2.Angle roundedOps roundedDiagonal roundedDiagonal))) (l.At 1) ∧
    (l.Bevel roundedOps height offset deg maxDegrees false roundedDiagonal
        roundedDiagonal).pts
      = [vec2.Add (vec2.Scale roundedDiagonal (offset / roundedOps.cos
          (1 / 2 * vec2.Angle roundedOps roundedDiagonal roundedDiagonal))) (l.At 1)] := by
  simp only [Line.Bevel, h, Bool.false_eq_true, if_false, roundedOps_normalize_double,
    poly2tri.NewPoint, and_self]

theorem diagonalLine_NNormal (t : ℝ) :
    (NewLine (⟨0, 0⟩ : Vec2 ℝ) ⟨3, 3⟩).NNormal roundedOps t = roundedDiagonal :=
  roundedOps_line_NNormal _ t (by norm_num [Line.Tangent, NewLine, vec2.Sub])

theorem roundedDiagonal_near_unit :
    |vec2.LengthSqr roundedDiagonal - 1| < 1 / 1000000000000000 := by
  rw [roundedDiagonal_lengthSqr, abs_lt]
  constructor <;> norm_num

/-- The guarded procedure of `Curve.Bevel` run on a line with its two neighbour
normals equal to its own normal `roundedDiagonal` skips the miter: it moves
the two end points by `offset` along the normal whatever the libm functions
return. -/
theorem roundedOps_guarded_legs (l : Line ℝ) (offset : ℝ)
    (h : ∀ t, l.NNormal roundedOps t = roundedDiagonal) :
    T.bevelLegs roundedOps (T.line l) offset false roundedDiagonal roundedDiagonal [0, 1] 0
      = (l.At 0, l.At 1, vec2.Add (vec2.Scale roundedDiagonal offset) (l.At 0),
          vec2.Add (vec2.Scale roundedDiagonal offset) (l.At 1)) := by
  simp [T.bevelLegs, T.At, T.NNormal, h]

/-- C7 (failing input): with a correctly rounded square root the line
(0,0)-(3,3) has the normal `n = roundedDiagonal`, of squared length 1 to within
`10^-15`, and `Bevel(4, 1, 45, 1, false, &n, &n)` returns a contour point with
`x < -10^7`, where `p1 + offset * n` has `x > 2`: `vec2.Angle(n, n)` takes its
branch `v > 1` and the miter length becomes `1 / cos(θ / 2) > 10^8`.  The guarded
procedure of `Curve.Bevel` on the same line returns `p1 + offset * n`. -/
theorem line_bevel_straight_overshoots :
    (NewLine (⟨0, 0⟩ : Vec2 ℝ) ⟨3, 3⟩).NNormal roundedOps 0 = roundedDiagonal ∧
    |vec2.LengthSqr roundedDiagonal - 1| < 1 / 1000000000000000 ∧
    (∃ p, ((NewLine (⟨0, 0⟩ : Vec2 ℝ) ⟨3, 3⟩).Bevel roundedOps 4 1 45 1 false roundedDiagonal
        roundedDiagonal).pts = [p] ∧ p.x < -10000000) ∧
    2 < (vec2.Add (vec2.Scale roundedDiagonal 1) (⟨3, 3⟩ : Vec2 ℝ)).x ∧
    T.bevelLegs roundedOps (T.line (NewLine (⟨0, 0⟩ : Vec2 ℝ) ⟨3, 3⟩)) 1 false roundedDiagonal
        roundedDiagonal [0, 1] 0
      = (⟨0, 0⟩, ⟨3, 3⟩, vec2.Add (vec2.Scale roundedDiagonal 1) ⟨0, 0⟩,
          vec2.Add (vec2.Scale roundedDiagonal 1) ⟨3, 3⟩) := by
  have hb := roundedOps_line_bevel (NewLine (⟨0, 0⟩ : Vec2 ℝ) ⟨3, 3⟩) 4 1 45 1
    diagonalLine_NNormal
  have hc := roundedOps_miter_length
  have h0 : (NewLine (⟨0, 0⟩ : Vec2 ℝ) ⟨3, 3⟩).At 0 = ⟨0, 0⟩ := by
    norm_num [Line.At, vec2.Interpolate, NewLine]
  have h1 : (NewLine (⟨0, 0⟩ : Vec2 ℝ) ⟨3, 3⟩).At 1 = ⟨3, 3⟩ := by
    norm_num [Line.At, vec2.Interpolate, NewLine]
  refine ⟨diagonalLine_NNormal 0, roundedDiagonal_near_unit, ⟨_, hb.2.2, ?_⟩, ?_, ?_⟩
  · rw [h1]
    generalize 1 / roundedOps.cos (1 / 2 * vec2.Angle roundedOps roundedDiagonal
      roundedDiagonal) = c at hc
    simp only [vec2.Add, vec2.Scale, roundedDiagonal]
    linarith
  · norm_num [vec2.Add, vec2.Scale, roundedDiagonal]
  · rw [roundedOps_guarded_legs _ 1 diagonalLine_NNormal, h0, h1]

/-- C24 (failing input): with a correctly rounded square root the line
(0,0)-(3,3) has the normal `n = roundedDiagonal`, of squared length 1 to within
`10^-15`; with the neighbour normals `m = n` (so `n ≠ -m`) and `offset = 1` the
vectors from `p0` to `p2` and from `p1` to `p3` of `Line.Bevel` have a dot
product with `n` greater than `10^8`, not `offset`, while for the guarded
procedure of `Curve.Bevel` it is less than 2. -/
theorem line_miter_distance_fails :
    (NewLine (⟨0, 0⟩ : Vec2 ℝ) ⟨3, 3⟩).NNormal roundedOps 0 = roundedDiagonal ∧
    |vec2.LengthSqr roundedDiagonal - 1| < 1 / 1000000000000000 ∧
    roundedDiagonal ≠ ⟨-roundedDiagonal.x, -roundedDiagonal.y⟩ ∧
    100000000 < vec2.Dot (vec2.Sub
        ((NewLine (⟨0, 0⟩ : Vec2 ℝ) ⟨3, 3⟩).Bevel roundedOps 0 1 45 1 false roundedDiagonal
          roundedDiagonal).prevNN
        ((NewLine (⟨0, 0⟩ : Vec2 ℝ) ⟨3, 3⟩).At 0)) roundedDiagonal ∧
    100000000 < vec2.Dot (vec2.Sub
        ((NewLine (⟨0, 0⟩ : Vec2 ℝ) ⟨3, 3⟩).Bevel roundedOps 0 1 45 1 false roundedDiagonal
          roundedDiagonal).nextNN
        ((NewLine (⟨0, 0⟩ : Vec2 ℝ) ⟨3, 3⟩).At 1)) roundedDiagonal ∧
    vec2.Dot (vec2.Sub
        (T.bevelLegs roundedOps (T.line (NewLine (⟨0, 0⟩ : Vec2 ℝ) ⟨3, 3⟩)) 1 false
          roundedDiagonal roundedDiagonal [0, 1] 0).2.2.1
        (T.bevelLegs roundedOps (T.line (NewLine (⟨0, 0⟩ : Vec2 ℝ) ⟨3, 3⟩)) 1 false
          roundedDiagonal roundedDiagonal [0, 1] 0).1) roundedDiagonal < 2 := by
  have hb := roundedOps_line_bevel (NewLine (⟨0, 0⟩ : Vec2 ℝ) ⟨3, 3⟩) 0 1 45 1
    diagonalLine_NNormal
  have hc := roundedOps_miter_length
  have hl : (1 : ℝ) < vec2.Dot roundedDiagonal roundedDiagonal := by
    have h : vec2.Dot roundedDiagonal roundedDiagonal = vec2.LengthSqr roundedDiagonal := rfl
    rw [h, roundedDiagonal_lengthSqr]
    norm_num
  have hdot : ∀ c : ℝ, vec2.Dot (vec2.Scale roundedDiagonal c) roundedDiagonal
      = c * vec2.Dot roundedDiagonal roundedDiagonal := by
    intro c
    simp only [vec2.Dot, vec2.Scale]
    ring
  refine ⟨diagonalLine_NNormal 0, roundedDiagonal_near_unit, ?_, ?_, ?_, ?_⟩
  · intro h
    have hx := congrArg Vec2.x h
    norm_num [roundedDiagonal] at hx
  · rw [hb.1, vec2_sub_add_cancel, hdot]
    generalize 1 / roundedOps.cos (1 / 2 * vec2.Angle roundedOps roundedDiagonal
      roundedDiagonal) = c at hc
    nlinarith
  · rw [hb.2.1, vec2_sub_add_cancel, hdot]
    generalize 1 / roundedOps.cos (1 / 2 * vec2.Angle roundedOps roundedDiagonal
      roundedDiagonal) = c at hc
    nlinarith
  · rw [roundedOps_guarded_legs _ 1 diagonalLine_NNormal]
    simp only [vec2_sub_add_cancel]
    rw [hdot, one_mul]
    have h : vec2.Dot roundedDiagonal roundedDiagonal = vec2.LengthSqr roundedDiagonal := rfl
    rw [h, roundedDiagonal_lengthSqr]
    norm_num

end RoundedLine


section RoundedJoint

theorem curve_bevel_ok_spec {K : Type} [LinearOrderedField K] (ops : MathOps K)
    (s : Curve K) (height offset deg maxDegrees : K) (prevNN nextNN : Vec2 K) (fuel : ℕ)
    (ts : List K) (hts : s.Subdivide ops maxDegrees fuel = some ts) (hlen : 0 < ts.length)
    (hno : ∀ i, ¬ T.interiorHit ops (.curve s) offset false prevNN nextNN ts i) :
    s.Bevel ops height offset deg maxDegrees false prevNN nextNN fuel
      = .ok ⟨(List.range (ts.length - 1)).flatMap
            (fun i => (T.sliceSpec ops (.curve s) height offset deg prevNN nextNN ts i).1),
          (List.range (ts.length - 1)).flatMap
            (fun i => (T.sliceSpec ops (.curve s) height offset deg prevNN nextNN ts i).2),
          prevNN, nextNN⟩ := by
  have hb : ∀ i ∈ List.range (ts.length - 1), i < ts.length - 1 :=
    fun i hi => List.mem_range.1 hi
  have hloop := bevelLoop_eq_spec ops (.curve s) height offset deg prevNN nextNN ts
    (List.range (ts.length - 1)) ([], []) hb (fun i _ => hno i)
  have hn : ¬ ts.length ≤ 0 := by omega
  simp only [Curve.Bevel, hts, hn, if_false, hloop, List.nil_append]

/-- The last slice of a bevelled curve always adds its end offset point `p3`
to the contour. -/
theorem sliceSpec_last_pts {K : Type} [LinearOrderedField K] (ops : MathOps K) (seg : T K)
    (height offset deg : K) (prevNN nextNN : Vec2 K) (ts : List K) (i : ℕ) (h0 : i ≠ 0)
    (h1 : i + 1 = ts.length - 1) :
    (T.sliceSpec ops seg height offset deg prevNN nextNN ts i).2
      = [(T.bevelLegs ops seg offset false prevNN nextNN ts i).2.2.2] := by
  unfold T.sliceSpec bevelSliceSpec
  cases T.legsHit ops seg offset false prevNN nextNN ts i <;> simp [h0, h1]

theorem line_bevel_first_triangle {K : Type} [LinearOrderedField K] (ops : MathOps K)
    (l : Line K) (height offset deg maxDegrees : K) (prevNN nextNN : Vec2 K) :
    ∃ t ∈ (l.Bevel ops height offset deg maxDegrees false prevNN nextNN).tris,
      t.v2 = ⟨(l.Bevel ops height offset deg maxDegrees false prevNN nextNN).prevNN.x,
        (l.Bevel ops height offset deg maxDegrees false prevNN nextNN).prevNN.y,
        height + offset * ops.tan (deg * ops.pi / 180)⟩ := by
  simp only [Line.Bevel, Bool.false_eq_true, if_false]
  exact ⟨_, List.mem_cons_self _ _, rfl⟩

theorem roundedOps_line_bevel_start (l : Line ℝ) (height offset deg maxDegrees : ℝ)
    (nextNN : Vec2 ℝ) (h : ∀ t, l.NNormal roundedOps t = roundedDiagonal) :
    (l.Bevel roundedOps height offset deg maxDegrees false roundedDiagonal nextNN).prevNN
      = vec2.Add (vec2.Scale roundedDiagonal (offset / roundedOps.cos
          (1 / 2 * vec2.Angle roundedOps roundedDiagonal roundedDiagonal))) (l.At 0) := by
  simp only [Line.Bevel, h, Bool.false_eq_true, if_false, roundedOps_normalize_double]

theorem roundedOps_angle_le (a b : Vec2 ℝ) :
    ¬ |vec2.Angle roundedOps a b| > |180 * roundedOps.pi / 180| := by
  obtain ⟨v, hv⟩ : ∃ v, vec2.Angle roundedOps a b = Real.arccos v := ⟨_, rfl⟩
  have hpi : (180 * roundedOps.pi / 180 : ℝ) = Real.pi := by
    rw [roundedOps_pi]
    ring
  rw [hv, hpi, abs_of_nonneg (Real.arccos_nonneg v), abs_of_pos Real.pi_pos, not_lt]
  exact Real.arccos_le_pi v

/-- With 180 degrees between parameters nothing is subdivided. -/
theorem roundedOps_Subdivide_180 (c : Curve ℝ) :
    c.Subdivide roundedOps 180 255 = some [0, 1 / 2, 1] := by
  have start : c.Subdivide roundedOps 180 255
      = Curve.subdivideLoop roundedOps c |180 * roundedOps.pi / 180| (252 + 3)
          (subdivideAt roundedOps c [] 0 [1 / 2, 1]) := rfl
  rw [start]
  calc Curve.subdivideLoop roundedOps c |180 * roundedOps.pi / 180| (252 + 3)
          (subdivideAt roundedOps c [] 0 [1 / 2, 1])
      = Curve.subdivideLoop roundedOps c |180 * roundedOps.pi / 180| (252 + 2)
          (subdivideAt roundedOps c [0] (1 / 2) [1]) :=
        loop_advance _ _ _ (252 + 2) [] 0 (1 / 2) [1] (by norm_num) (roundedOps_angle_le _ _)
    _ = Curve.subdivideLoop roundedOps c |180 * roundedOps.pi / 180| (252 + 1)
          (subdivideAt roundedOps c [0, 1 / 2] 1 []) :=
        loop_advance _ _ _ (252 + 1) [0] (1 / 2) 1 [] (by norm_num) (roundedOps_angle_le _ _)
    _ = some [0, 1 / 2, 1] := loop_exit _ _ _ 252 [0, 1 / 2] 1

theorem smoothCurve_NNormal_one :
    (NewCurve (⟨0, 0⟩ : Vec2 ℝ) ⟨0, 2⟩ ⟨1, 3⟩ ⟨2, 4⟩).NNormal roundedOps 1 = roundedDiagonal := by
  have ht : (NewCurve (⟨0, 0⟩ : Vec2 ℝ) ⟨0, 2⟩ ⟨1, 3⟩ ⟨2, 4⟩).Tangent 1 = ⟨3, 3⟩ := by
    norm_num [NewCurve, Curve.Tangent, bezier2.Tangent, vec2.Add, vec2.Scale, vec2.Sub]
  rw [Curve.NNormal, Curve.Normal, ht]
  have hr : vec2.Rotate90DegLeft (⟨3, 3⟩ : Vec2 ℝ) = ⟨-3, 3⟩ := rfl
  rw [hr, roundedOps_normalize_diagonal]

theorem smoothCurve_At_one :
    (NewCurve (⟨0, 0⟩ : Vec2 ℝ) ⟨0, 2⟩ ⟨1, 3⟩ ⟨2, 4⟩).At 1 = ⟨2, 4⟩ := by
  rw [curve_At_one, newCurve_P3]

theorem smoothLine_NNormal (t : ℝ) :
    (NewLine (⟨2, 4⟩ : Vec2 ℝ) ⟨5, 7⟩).NNormal roundedOps t = roundedDiagonal :=
  roundedOps_line_NNormal _ t (by norm_num [Line.Tangent, NewLine, vec2.Sub])

theorem smoothLine_At_zero : (NewLine (⟨2, 4⟩ : Vec2 ℝ) ⟨5, 7⟩).At 0 = ⟨2, 4⟩ := by
  norm_num [Line.At, vec2.Interpolate, NewLine]

theorem smoothJoint_normals_curve :
    (smoothJoint : SubPath ℝ).neighbourNormals roundedOps 0
        (T.curve (NewCurve ⟨0, 0⟩ ⟨0, 2⟩ ⟨1, 3⟩ ⟨2, 4⟩))
      = (roundedDiagonal, roundedDiagonal) := by
  simp [SubPath.neighbourNormals, smoothJoint, T.NNormal, smoothLine_NNormal]

theorem smoothJoint_normals_line :
    (smoothJoint : SubPath ℝ).neighbourNormals roundedOps 1
        (T.line (NewLine ⟨2, 4⟩ ⟨5, 7⟩))
      = (roundedDiagonal,
          (NewCurve (⟨0, 0⟩ : Vec2 ℝ) ⟨0, 2⟩ ⟨1, 3⟩ ⟨2, 4⟩).NNormal roundedOps 0) := by
  simp [SubPath.neighbourNormals, smoothJoint, T.NNormal, smoothCurve_NNormal_one]

end RoundedJoint


section RoundedJointClaim

theorem subpath_bevel_of_loop {K : Type} [LinearOrderedField K] (ops : MathOps K)
    (s : SubPath K) (height offset deg maxDegrees : K) (fuel : ℕ)
    (r : List (Triangle3D K) × List (Vec2 K))
    (hl : SubPath.bevelLoop ops
        { s with BevelZ := height + offset * ops.tan (deg * ops.pi / 180) }
        height offset deg maxDegrees fuel
        ((List.range s.Segments.length).zip s.Segments) ([], s.BevelPts) = .ok r) :
    SubPath.Bevel ops s height offset deg maxDegrees fuel
      = .ok (r.1, { s with
          BevelZ := height + offset * ops.tan (deg * ops.pi / 180)
          BevelPts := r.2 }) := by
  unfold SubPath.Bevel
  dsimp only at hl ⊢
  rw [hl]

/-- The loop of `SubPath.Bevel` on a curve followed by a line, when the `Bevel`
of the curve returns `b0`. -/
theorem subpath_bevelLoop_curve_line {K : Type} [LinearOrderedField K] (ops : MathOps K)
    (s : SubPath K) (c : Curve K) (l : Line K) (height offset deg maxDegrees : K) (fuel : ℕ)
    (b0 : BevelResult K) (acc : List (Triangle3D K) × List (Vec2 K))
    (hb0 : c.Bevel ops height offset deg maxDegrees s.FlipNormals
      (s.neighbourNormals ops 0 (T.curve c)).1 (s.neighbourNormals ops 0 (T.curve c)).2 fuel
      = .ok b0) :
    SubPath.bevelLoop ops s height offset deg maxDegrees fuel
        [(0, T.curve c), (1, T.line l)] acc
      = .ok (acc.1 ++ b0.tris
            ++ (l.Bevel ops height offset deg maxDegrees s.FlipNormals
              (s.neighbourNormals ops 1 (T.line l)).1
              (s.neighbourNormals ops 1 (T.line l)).2).tris,
          acc.2 ++ b0.pts
            ++ (l.Bevel ops height offset deg maxDegrees s.FlipNormals
              (s.neighbourNormals ops 1 (T.line l)).1
              (s.neighbourNormals ops 1 (T.line l)).2).pts) := by
  rw [subpath_bevelLoop_step]
  simp only [T.Bevel, hb0]
  rw [subpath_bevelLoop_step]
  simp only [T.Bevel, SubPath.bevelLoop]

/-- The two segments of `smoothJoint` bevelled in turn by `SubPath.Bevel`, with
the rounded square root: the call returns, the contour holds the end offset
point of the curve, and the triangles hold the start offset point of the line. -/
theorem smoothJoint_Bevel :
    ∃ (tris : List (Triangle3D ℝ)) (s1 : SubPath ℝ),
      SubPath.Bevel roundedOps smoothJoint 0 1 45 180 255 = .ok (tris, s1) ∧
      (T.bevelLegs roundedOps (T.curve (NewCurve ⟨0, 0⟩ ⟨0, 2⟩ ⟨1, 3⟩ ⟨2, 4⟩)) 1 false
          roundedDiagonal roundedDiagonal [0, 1 / 2, 1] 1).2.2.2 ∈ s1.BevelPts ∧
      ∃ t ∈ tris,
        t.v2 = ⟨((NewLine (⟨2, 4⟩ : Vec2 ℝ) ⟨5, 7⟩).Bevel roundedOps 0 1 45 180 false
              roundedDiagonal
              ((NewCurve (⟨0, 0⟩ : Vec2 ℝ) ⟨0, 2⟩ ⟨1, 3⟩ ⟨2, 4⟩).NNormal roundedOps 0)).prevNN.x,
          ((NewLine (⟨2, 4⟩ : Vec2 ℝ) ⟨5, 7⟩).Bevel roundedOps 0 1 45 180 false
              roundedDiagonal
              ((NewCurve (⟨0, 0⟩ : Vec2 ℝ) ⟨0, 2⟩ ⟨1, 3⟩ ⟨2, 4⟩).NNormal roundedOps 0)).prevNN.y,
          0 + 1 * roundedOps.tan (45 * roundedOps.pi / 180)⟩ := by
  have hts := roundedOps_Subdivide_180 (NewCurve (⟨0, 0⟩ : Vec2 ℝ) ⟨0, 2⟩ ⟨1, 3⟩ ⟨2, 4⟩)
  have hno : ∀ i, ¬ T.interiorHit roundedOps
      (.curve (NewCurve (⟨0, 0⟩ : Vec2 ℝ) ⟨0, 2⟩ ⟨1, 3⟩ ⟨2, 4⟩)) 1 false roundedDiagonal
      roundedDiagonal [0, 1 / 2, 1] i := by
    rintro i ⟨h0, h1, _⟩
    simp only [List.length_cons, List.length_nil] at h1
    omega
  have hb0 := curve_bevel_ok_spec roundedOps (NewCurve (⟨0, 0⟩ : Vec2 ℝ) ⟨0, 2⟩ ⟨1, 3⟩ ⟨2, 4⟩)
    0 1 45 180 roundedDiagonal roundedDiagonal 255 [0, 1 / 2, 1] hts (by simp) hno
  have hlast := sliceSpec_last_pts roundedOps
    (.curve (NewCurve (⟨0, 0⟩ : Vec2 ℝ) ⟨0, 2⟩ ⟨1, 3⟩ ⟨2, 4⟩)) 0 1 45 roundedDiagonal
    roundedDiagonal [0, 1 / 2, 1] 1 (by norm_num) (by simp)
  obtain ⟨t, ht, htv⟩ := line_bevel_first_triangle roundedOps (NewLine (⟨2, 4⟩ : Vec2 ℝ) ⟨5, 7⟩)
    0 1 45 180 roundedDiagonal
    ((NewCurve (⟨0, 0⟩ : Vec2 ℝ) ⟨0, 2⟩ ⟨1, 3⟩ ⟨2, 4⟩).NNormal roundedOps 0)
  have hn0 : SubPath.neighbourNormals roundedOps
      { (smoothJoint : SubPath ℝ) with
        BevelZ := 0 + 1 * roundedOps.tan (45 * roundedOps.pi / 180) } 0
      (T.curve (NewCurve ⟨0, 0⟩ ⟨0, 2⟩ ⟨1, 3⟩ ⟨2, 4⟩))
      = (roundedDiagonal, roundedDiagonal) := smoothJoint_normals_curve
  have hn1 : SubPath.neighbourNormals roundedOps
      { (smoothJoint : SubPath ℝ) with
        BevelZ := 0 + 1 * roundedOps.tan (45 * roundedOps.pi / 180) } 1
      (T.line (NewLine ⟨2, 4⟩ ⟨5, 7⟩))
      = (roundedDiagonal,
          (NewCurve (⟨0, 0⟩ : Vec2 ℝ) ⟨0, 2⟩ ⟨1, 3⟩ ⟨2, 4⟩).NNormal roundedOps 0) :=
    smoothJoint_normals_line
  have hloop := subpath_bevelLoop_curve_line roundedOps
    { (smoothJoint : SubPath ℝ) with
      BevelZ := 0 + 1 * roundedOps.tan (45 * roundedOps.pi / 180) }
    (NewCurve ⟨0, 0⟩ ⟨0, 2⟩ ⟨1, 3⟩ ⟨2, 4⟩) (NewLine ⟨2, 4⟩ ⟨5, 7⟩) 0 1 45 180 255 _
    ([], (smoothJoint : SubPath ℝ).BevelPts) (by rw [hn0]; exact hb0)
  rw [hn1] at hloop
  have hB := subpath_bevel_of_loop roundedOps (smoothJoint : SubPath ℝ) 0 1 45 180 255 _ hloop
  refine ⟨_, _, hB, ?_, t, ?_, htv⟩
  · simp only [List.mem_append]
    left
    right
    refine List.mem_flatMap.2 ⟨1, by simp, ?_⟩
    rw [hlast]
    exact List.mem_singleton_self _
  · exact List.mem_append_right _ ht

/-- C25 (failing input): in the subpath made of the curve (0,0), (0,2), (1,3),
(2,4) followed by the line (2,4)-(5,7), segment 0 ends where segment 1 starts
and, with a correctly rounded square root, both have the normal
`roundedDiagonal` there.  `SubPath.Bevel(0, 1, 45, 180)` returns; its contour
holds the end offset point `p3` of the curve, with `x > 1` (the curve skips the
miter between equal normals), and its triangles hold the start offset point
`p2` of the line, with `x < -10^7` (the line does not skip it): `p3` and `p2`
differ. -/
theorem bevel_joint_gap :
    ∃ (tris : List (Triangle3D ℝ)) (s1 : SubPath ℝ) (p3 p2 : Vec2 ℝ),
      SubPath.Bevel roundedOps smoothJoint 0 1 45 180 255 = .ok (tris, s1) ∧
      (smoothJoint : SubPath ℝ).Segments[0]?
        = some (T.curve (NewCurve ⟨0, 0⟩ ⟨0, 2⟩ ⟨1, 3⟩ ⟨2, 4⟩)) ∧
      (smoothJoint : SubPath ℝ).Segments[(0 + 1) % (smoothJoint : SubPath ℝ).Segments.length]?
        = some (T.line (NewLine ⟨2, 4⟩ ⟨5, 7⟩)) ∧
      (T.curve (NewCurve (⟨0, 0⟩ : Vec2 ℝ) ⟨0, 2⟩ ⟨1, 3⟩ ⟨2, 4⟩)).At 1
        = (T.line (NewLine (⟨2, 4⟩ : Vec2 ℝ) ⟨5, 7⟩)).At 0 ∧
      T.endOffset roundedOps (T.curve (NewCurve ⟨0, 0⟩ ⟨0, 2⟩ ⟨1, 3⟩ ⟨2, 4⟩)) 0 1 45 180
        (smoothJoint : SubPath ℝ).FlipNormals
        ((smoothJoint : SubPath ℝ).neighbourNormals roundedOps 0
          (T.curve (NewCurve ⟨0, 0⟩ ⟨0, 2⟩ ⟨1, 3⟩ ⟨2, 4⟩))).1
        ((smoothJoint : SubPath ℝ).neighbourNormals roundedOps 0
          (T.curve (NewCurve ⟨0, 0⟩ ⟨0, 2⟩ ⟨1, 3⟩ ⟨2, 4⟩))).2 255 = some p3 ∧
      T.startOffset roundedOps (T.line (NewLine ⟨2, 4⟩ ⟨5, 7⟩)) 0 1 45 180
        (smoothJoint : SubPath ℝ).FlipNormals
        ((smoothJoint : SubPath ℝ).neighbourNormals roundedOps
          ((0 + 1) % (smoothJoint : SubPath ℝ).Segments.length)
          (T.line (NewLine ⟨2, 4⟩ ⟨5, 7⟩))).1
        ((smoothJoint : SubPath ℝ).neighbourNormals roundedOps
          ((0 + 1) % (smoothJoint : SubPath ℝ).Segments.length)
          (T.line (NewLine ⟨2, 4⟩ ⟨5, 7⟩))).2 255 = some p2 ∧
      p3 ∈ s1.BevelPts ∧
      (∃ t ∈ tris, t.v2 = ⟨p2.x, p2.y, 0 + 1 * roundedOps.tan (45 * roundedOps.pi / 180)⟩) ∧
      1 < p3.x ∧ p2.x < -10000000 := by
  obtain ⟨tris, s1, hB, hp3, ht⟩ := smoothJoint_Bevel
  have hts := roundedOps_Subdivide_180 (NewCurve (⟨0, 0⟩ : Vec2 ℝ) ⟨0, 2⟩ ⟨1, 3⟩ ⟨2, 4⟩)
  have hk : (0 + 1) % (smoothJoint : SubPath ℝ).Segments.length = 1 := rfl
  have hf : (smoothJoint : SubPath ℝ).FlipNormals = false := rfl
  have hc := roundedOps_miter_length
  have hp2 := roundedOps_line_bevel_start (NewLine (⟨2, 4⟩ : Vec2 ℝ) ⟨5, 7⟩) 0 1 45 180
    ((NewCurve (⟨0, 0⟩ : Vec2 ℝ) ⟨0, 2⟩ ⟨1, 3⟩ ⟨2, 4⟩).NNormal roundedOps 0) smoothLine_NNormal
  have hlegs : (T.bevelLegs roundedOps (T.curve (NewCurve ⟨0, 0⟩ ⟨0, 2⟩ ⟨1, 3⟩ ⟨2, 4⟩)) 1 false
      roundedDiagonal roundedDiagonal [0, 1 / 2, 1] 1).2.2.2
      = vec2.Add (vec2.Scale roundedDiagonal 1) ⟨2, 4⟩ := by
    simp [T.bevelLegs, T.At, T.NNormal, smoothCurve_NNormal_one, smoothCurve_At_one]
  refine ⟨tris, s1, _, _, hB, rfl, rfl, ?_, ?_, ?_, hp3, ht, ?_, ?_⟩
  · rw [T.At, T.At, smoothCurve_At_one, smoothLine_At_zero]
  · rw [hf, smoothJoint_normals_curve]
    simp only [T.endOffset, hts]
    rfl
  · rw [hk, hf, smoothJoint_normals_line]
    rfl
  · rw [hlegs]
    norm_num [vec2.Add, vec2.Scale, roundedDiagonal]
  · rw [hp2, smoothLine_At_zero]
    generalize 1 / roundedOps.cos (1 / 2 * vec2.Angle roundedOps roundedDiagonal
      roundedDiagonal) = c at hc
    simp only [vec2.Add, vec2.Scale, roundedDiagonal]
    linarith

end RoundedJointClaim

end Parametric2d
